import Mathlib

/-!
# tEDM: time-delay embedding and S-Map prediction

A shallow embedding of `src/Embed.cpp` and `src/SMap.cpp`.

Conventions of the embedding.

* A C++ `double` is a value of `Option α`: `none` is NaN (the "missing"
  marker of the specification) and `some x` is the number `x` of an exact
  ordered field `α` (instantiated with `ℚ` for evaluation).  Infinities are
  not represented.  The definitions of `SMap.cpp` compute in exact arithmetic;
  the definitions with the suffix `Fl` (`sumSqCountFl`, `neighborSearchFl`,
  `meanDistanceFl`, `kernelWeightsFl`) are the same loops with a rounding `fl`
  applied to the result of every operation, and are the exact ones for
  `fl = id`.
* `int` values are `Int`, `size_t` values are `Nat`.  `Embed`, `maxLag`,
  `lagOf` compute in exact integers; `Embed32`, `maxLag32`, `lagOf32` are the
  same statements with every `int` result reduced to the range of `int`
  (`wrapInt`, the two's-complement value the compiled code produces where C++
  leaves an overflow undefined).  The two agree as long as no value leaves the
  range of `int` (`Embed32_eq_Embed`).
* `std::vector` is `List`; a read or write outside a vector is the error
  `Fault.outOfBounds` of the `Except` monad, an exception thrown by the
  source is an error value of its own.
-/

namespace TEDM

/-! ## Embed.cpp -/

/-- Exceptions leaving `Embed`.  The two `std::invalid_argument` throws of the
source are told apart by their message; `lengthError` is the exception of the
`std::vector<double>(E, NaN)` constructor when `E` is negative. -/
inductive EmbedError where
  | invalidParameters
  | insufficientEmbeddingDimension
  | lengthError
  deriving DecidableEq, Repr

/-- The `max_lag` computed at the top of `Embed`, in exact integers (`maxLag32`
is its value in `int` arithmetic). -/
def maxLag (E tau style : Int) : Int :=
  if tau = 0 then E - 1
  else if style = 1 then E * tau
  else (E - 1) * tau

/-- The `lag` of column `j` computed in the fill loop of `Embed`, in exact
integers (`lagOf32` is its value in `int` arithmetic). -/
def lagOf (tau style : Int) (j : Nat) : Int :=
  if tau = 0 then (j : Int)
  else if style = 1 then ((j : Int) + 1) * tau
  else (j : Int) * tau

/-- Cell `mat[t][j]` after the fill loop: `vec[idx]` when `idx = t - lag` is a
valid index, NaN otherwise. -/
def lagCell {α : Type} (vec : List (Option α)) (tau style : Int) (t j : Nat) : Option α :=
  let idx : Int := (t : Int) - lagOf tau style j
  if 0 ≤ idx ∧ idx < (vec.length : Int) then vec.getD idx.toNat none else none

/-- The `N × E` matrix `mat` after the fill loop. -/
def lagMatrix {α : Type} (vec : List (Option α)) (E : Nat) (tau style : Int) :
    List (List (Option α)) :=
  (List.range vec.length).map fun t => (List.range E).map fun j => lagCell vec tau style t j

/-- Entry `mat[i][j]` of a filled matrix, read inside the loop bounds. -/
def cellAt {α : Type} (mat : List (List (Option α))) (i j : Nat) : Option α :=
  (mat.getD i []).getD j none

/-- The vector `keep`: `keep[j]` is true when column `j` of `mat` has a cell
that is not NaN. -/
def keepColumns {α : Type} (mat : List (List (Option α))) (N E : Nat) : List Bool :=
  (List.range E).map fun j => (List.range N).any fun i => (cellAt mat i j).isSome

/-- One row of `cleaned`: the cells of the row whose column is kept. -/
def cleanRow {α : Type} (keep : List Bool) (mat : List (List (Option α))) (E i : Nat) :
    List (Option α) :=
  (List.range E).filterMap fun j =>
    if keep.getD j false then some (cellAt mat i j) else none

/-- The function `Embed` of `Embed.cpp`. -/
def Embed {α : Type} (vec : List (Option α)) (E tau style : Int) :
    Except EmbedError (List (List (Option α))) :=
  let N := vec.length
  if maxLag E tau style ≥ (N : Int) then
    .error .invalidParameters
  else if E < 0 then
    .error .lengthError
  else
    let mat := lagMatrix vec E.toNat tau style
    let keep := keepColumns mat N E.toNat
    let any_column := keep.any fun b => b
    if !any_column then
      .error .insufficientEmbeddingDimension
    else
      .ok ((List.range N).map fun i => cleanRow keep mat E.toNat i)

/-- The columns of the unpruned `N × E` lag matrix that have at least one cell
that is not NaN, in increasing (left-to-right) order. -/
def nonMissingColumns {α : Type} (vec : List (Option α)) (E : Nat) (tau style : Int) :
    List Nat :=
  (List.range E).filter fun j =>
    (List.range vec.length).any fun t => (lagCell vec tau style t j).isSome

/-! ## Embed.cpp in `int` arithmetic -/

/-- The value of an `int` computation whose exact result is `x`: the
representative of `x` modulo `2^32` in `[-2^31, 2^31)`.  (Beyond the range of
`int` the C++ standard leaves the result of `*`, `+`, `-` undefined; this is
the two's-complement value the compiled code produces.  It is also the value
of `static_cast<int>` on a `size_t`.) -/
def wrapInt (x : Int) : Int := (x + 2147483648) % 4294967296 - 2147483648

/-- The exact value `x` is a value of the type `int`. -/
def InInt (x : Int) : Prop := -2147483648 ≤ x ∧ x ≤ 2147483647

instance InIntDecidable (x : Int) : Decidable (InInt x) :=
  inferInstanceAs (Decidable (_ ∧ _))

/-- The `max_lag` computed at the top of `Embed`, in `int` arithmetic. -/
def maxLag32 (E tau style : Int) : Int :=
  if tau = 0 then wrapInt (E - 1)
  else if style = 1 then wrapInt (E * tau)
  else wrapInt (wrapInt (E - 1) * tau)

/-- The `lag` of column `j` computed in the fill loop of `Embed`, in `int`
arithmetic. -/
def lagOf32 (tau style : Int) (j : Nat) : Int :=
  if tau = 0 then (j : Int)
  else if style = 1 then wrapInt (((j : Int) + 1) * tau)
  else wrapInt ((j : Int) * tau)

/-- Cell `mat[t][j]` after the fill loop, in `int` arithmetic: `vec[idx]` when
`idx = static_cast<int>(t) - lag` satisfies `idx >= 0 && idx <
static_cast<int>(N)`, NaN otherwise. -/
def lagCell32 {α : Type} (vec : List (Option α)) (tau style : Int) (t j : Nat) : Option α :=
  let idx : Int := wrapInt (wrapInt (t : Int) - lagOf32 tau style j)
  if 0 ≤ idx ∧ idx < wrapInt (vec.length : Int) then vec.getD idx.toNat none else none

/-- The `N × E` matrix `mat` after the fill loop, in `int` arithmetic. -/
def lagMatrix32 {α : Type} (vec : List (Option α)) (E : Nat) (tau style : Int) :
    List (List (Option α)) :=
  (List.range vec.length).map fun t => (List.range E).map fun j => lagCell32 vec tau style t j

/-- The function `Embed` of `Embed.cpp` with the arithmetic of the type `int`:
the same statements as `Embed`, every `int` result reduced by `wrapInt`. -/
def Embed32 {α : Type} (vec : List (Option α)) (E tau style : Int) :
    Except EmbedError (List (List (Option α))) :=
  let N := vec.length
  if maxLag32 E tau style ≥ wrapInt (N : Int) then
    .error .invalidParameters
  else if E < 0 then
    .error .lengthError
  else
    let mat := lagMatrix32 vec E.toNat tau style
    let keep := keepColumns mat N E.toNat
    let any_column := keep.any fun b => b
    if !any_column then
      .error .insufficientEmbeddingDimension
    else
      .ok ((List.range N).map fun i => cleanRow keep mat E.toNat i)

/-- The columns of the unpruned `N × E` matrix of `Embed32` that have at least
one cell that is not NaN, in increasing order. -/
def nonMissingColumns32 {α : Type} (vec : List (Option α)) (E : Nat) (tau style : Int) :
    List Nat :=
  (List.range E).filter fun j =>
    (List.range vec.length).any fun t => (lagCell32 vec tau style t j).isSome

/-- No `int` value computed by `Embed` before the fill loop leaves the range of
`int`: the arguments, the length of the series, `E - 1` and `max_lag`. -/
def NoOverflow (N : Nat) (E tau style : Int) : Prop :=
  (N : Int) ≤ 2147483647 ∧ InInt E ∧ InInt tau ∧ InInt (E - 1) ∧ InInt (maxLag E tau style)

instance NoOverflowDecidable (N : Nat) (E tau style : Int) : Decidable (NoOverflow N E tau style) :=
  inferInstanceAs (Decidable (_ ∧ _))

/-- The call `Embed(vec, E, tau)` that passes no `style` argument: `style` takes
its default value `0` (`int style = 0` in the definition of `Embed`). -/
def EmbedDefaultStyle {α : Type} (vec : List (Option α)) (E tau : Int) :
    Except EmbedError (List (List (Option α))) :=
  Embed32 vec E tau 0

/-! ## Doubles -/

/-- Sum of two doubles. -/
def dadd {α : Type} [LinearOrderedField α] (a b : Option α) : Option α :=
  match a, b with
  | some x, some y => some (x + y)
  | _, _ => none

/-- Product of two doubles. -/
def dmul {α : Type} [LinearOrderedField α] (a b : Option α) : Option α :=
  match a, b with
  | some x, some y => some (x * y)
  | _, _ => none

/-- Negation of a double. -/
def dneg {α : Type} [LinearOrderedField α] (a : Option α) : Option α :=
  a.map fun x => -x

/-- Quotient of two doubles.  A quotient by zero is not a number of the field
(IEEE gives NaN or an infinity); it is `none` here. -/
def ddiv {α : Type} [LinearOrderedField α] (a b : Option α) : Option α :=
  match a, b with
  | some x, some y => if y = 0 then none else some (x / y)
  | _, _ => none

/-- The comparison `a < b` of doubles: false when either side is NaN. -/
def dlt {α : Type} [LinearOrderedField α] (a b : Option α) : Bool :=
  match a, b with
  | some x, some y => decide (x < y)
  | _, _ => false

/-- The comparison `a >= b` of doubles: false when either side is NaN. -/
def dge {α : Type} [LinearOrderedField α] (a b : Option α) : Bool :=
  match a, b with
  | some x, some y => decide (y ≤ x)
  | _, _ => false

/-- The literal `1e-5`. -/
def tol {α : Type} [LinearOrderedField α] : α := 1 / 100000

/-! ## Vector accesses -/

/-- An access outside a `std::vector` (or through an end iterator). -/
inductive Fault where
  | outOfBounds
  deriving DecidableEq, Repr

/-- Read `v[i]` for a `size_t` index. -/
def readNat {β : Type} (v : List β) (i : Nat) : Except Fault β :=
  match v.get? i with
  | some x => .ok x
  | none => .error .outOfBounds

/-- Read `v[i]` for an `int` index (a negative index converts to a huge
`size_t`). -/
def readInt {β : Type} (v : List β) (i : Int) : Except Fault β :=
  if i < 0 then .error .outOfBounds else readNat v i.toNat

/-- Write `v[i] = x` for a `size_t` index. -/
def writeNat {β : Type} (v : List β) (i : Nat) (x : β) : Except Fault (List β) :=
  if i < v.length then .ok (v.set i x) else .error .outOfBounds

/-- Write `v[i] = x` for an `int` index. -/
def writeInt {β : Type} (v : List β) (i : Int) (x : β) : Except Fault (List β) :=
  if i < 0 then .error .outOfBounds else writeNat v i.toNat x

/-! ## External collaborators -/

/-- Modelled from the spec: the result of the SVD primitive
`svd(matrix) -> (U, S, V)` (`CppSVD` of `CppStats.h`, which is not among the
source files).  The source reads the three parts as `svd_result[0]`,
`svd_result[1][0]` and `svd_result[2]`. -/
structure SVDResult (α : Type) where
  U : List (List (Option α))
  S : List (Option α)
  V : List (List (Option α))

/-- The routines `SMap.cpp` calls and does not define: `std::sqrt`, `std::exp`
and the functions declared in `CppStats.h`. -/
structure Externals (α : Type) where
  sqrt : α → α
  exp : α → α
  CppSVD : List (List (Option α)) → SVDResult α
  PearsonCor : List (Option α) → List (Option α) → Bool → Option α
  CppMAE : List (Option α) → List (Option α) → Bool → Option α
  CppRMSE : List (Option α) → List (Option α) → Bool → Option α

/-- Modelled from the spec: `checkOneDimVectorNotNanNum` of `CppStats.h`, the
collaborator `countNonMissing(sequence) -> int`: the number of entries that are
not NaN. -/
def checkOneDimVectorNotNanNum {α : Type} (v : List (Option α)) : Int :=
  ((v.filter fun x => x.isSome).length : Int)

/-! ## SMap.cpp -/

section SMap

variable {α : Type} [LinearOrderedField α]

/-- The inner loop of the neighbour search: `sum_sq` and `count` over the
dimensions `j < vectors[pred_i].size()` in which both cells are not NaN, in
exact arithmetic (`sumSqCountFl` is the loop with rounding). -/
def sumSqCount (vectors : List (List (Option α))) (pred_i i : Int) :
    Except Fault (α × Nat) := do
  let rowP ← readInt vectors pred_i
  (List.range rowP.length).foldlM (fun (acc : α × Nat) j => do
    let rowI ← readInt vectors i
    let vi ← readNat rowI j
    let vj ← readNat rowP j
    match vi, vj with
    | some x, some y => pure (acc.1 + (x - y) * (x - y), acc.2 + 1)
    | _, _ => pure acc) (0, 0)

/-- The loop over `lib_indices`: the vectors `distances` and `valid_libs`. -/
def neighborSearch (ext : Externals α) (vectors : List (List (Option α)))
    (lib_indices : List Int) (pred_i : Int) : Except Fault (List α × List Int) :=
  lib_indices.foldlM (fun (acc : List α × List Int) i =>
    if i = pred_i then pure acc
    else do
      let sc ← sumSqCount vectors pred_i i
      if sc.2 > 0 then
        pure (acc.1 ++ [ext.sqrt (sc.1 / (sc.2 : α))], acc.2 ++ [i])
      else pure acc) ([], [])

/-- The comparator of the `partial_sort` call. -/
def closer (distances : List α) (a b : Nat) : Prop :=
  distances.getD a 0 < distances.getD b 0 ∨
    (distances.getD a 0 = distances.getD b 0 ∧ a < b)

instance closerDecidable (distances : List α) : DecidableRel (closer distances) :=
  fun _ _ => inferInstanceAs (Decidable (_ ∨ _))

/-- The vector `neighbor_indices` after `std::partial_sort`: its first
`actual_neighbors` entries are the smallest indices for the comparator, in
order (the comparator is a strict total order on `0 .. n-1`, so these entries
do not depend on the sorting algorithm; the order of the rest is never read). -/
def sortedNeighborIndices (distances : List α) : List Nat :=
  List.insertionSort (closer distances) (List.range distances.length)

/-- The vector `weights`. -/
def kernelWeights (ext : Externals α) (theta : Option α) (distances : List α) :
    List (Option α) :=
  let mean_distance : α := distances.foldl (· + ·) 0 / (distances.length : α)
  distances.map fun d =>
    (ddiv (dmul (dneg theta) (some d)) (some mean_distance)).map ext.exp

/-- The loop building the weighted system: the rows of `A` and the entries of
`b`. -/
def buildSystem (vectors : List (List (Option α))) (target : List (Option α))
    (valid_libs : List Int) (weights : List (Option α)) (neighbor_indices : List Nat)
    (actual_neighbors dim : Nat) :
    Except Fault (List (List (Option α)) × List (Option α)) :=
  (List.range actual_neighbors).foldlM
    (fun (acc : List (List (Option α)) × List (Option α)) i => do
      let ni ← readNat neighbor_indices i
      let idx ← readNat valid_libs ni
      let w ← readNat weights ni
      let row ← (List.range dim).foldlM (fun (r : List (Option α)) j => do
        let v ← readInt vectors idx
        let c ← readNat v j
        pure (r ++ [dmul c w])) []
      let t ← readInt target idx
      pure (acc.1 ++ [row ++ [w]], acc.2 ++ [dmul t w])) ([], [])

/-- The call `*std::max_element(S.begin(), S.end())`. -/
def maxElement (S : List (Option α)) : Except Fault (Option α) :=
  match S with
  | [] => .error .outOfBounds
  | s :: rest => .ok (rest.foldl (fun m x => if dlt m x then x else m) s)

/-- The vector `S_inv`. -/
def invertSingular (S : List (Option α)) (max_s : Option α) : List (Option α) :=
  S.map fun s => if dge s (dmul max_s (some tol)) then ddiv (some 1) s else some 0

/-- The value `temp` stored in `coeff[k]`. -/
def coeffEntry (U : List (List (Option α))) (S_inv : List (Option α))
    (V : List (List (Option α))) (b : List (Option α)) (k : Nat) :
    Except Fault (Option α) :=
  (List.range S_inv.length).foldlM (fun (temp : Option α) j =>
    (List.range U.length).foldlM (fun (temp : Option α) i => do
      let vk ← readNat V k
      let vkj ← readNat vk j
      let sj ← readNat S_inv j
      let ui ← readNat U i
      let uij ← readNat ui j
      let bi ← readNat b i
      pure (dadd temp (dmul (dmul (dmul vkj sj) uij) bi))) temp) (some 0)

/-- The vector `coeff` after the loop over `k < V.size()`. -/
def coefficients (U : List (List (Option α))) (S_inv : List (Option α))
    (V : List (List (Option α))) (b : List (Option α)) (dim : Nat) :
    Except Fault (List (Option α)) :=
  (List.range V.length).foldlM (fun (coeff : List (Option α)) k => do
    let temp ← coeffEntry U S_inv V b k
    writeNat coeff k temp) (List.replicate (dim + 1) (some 0))

/-- The value `prediction`: `dot(coeff, input) + bias`. -/
def predictionValue (coeff : List (Option α)) (vectors : List (List (Option α)))
    (pred_i : Int) (dim : Nat) : Except Fault (Option α) := do
  let prediction ← (List.range dim).foldlM (fun (acc : Option α) i => do
    let c ← readNat coeff i
    let v ← readInt vectors pred_i
    let x ← readNat v i
    pure (dadd acc (dmul c x))) (some 0)
  let bias ← readNat coeff dim
  pure (dadd prediction bias)

/-- One iteration of the loop over `pred_indices`: `none` when the iteration
ends at `continue`, `some prediction` when it reaches `pred[pred_i] =
prediction`. -/
def predictAt (ext : Externals α) (vectors : List (List (Option α)))
    (target : List (Option α)) (lib_indices : List Int) (num_neighbors : Int)
    (theta : Option α) (pred_i : Int) : Except Fault (Option (Option α)) := do
  let found ← neighborSearch ext vectors lib_indices pred_i
  let distances := found.1
  let valid_libs := found.2
  if distances.isEmpty then
    pure none
  else
    let actual_neighbors := min num_neighbors.toNat distances.length
    let weights := kernelWeights ext theta distances
    let neighbor_indices := sortedNeighborIndices distances
    let rowP ← readInt vectors pred_i
    let dim := rowP.length
    let sys ← buildSystem vectors target valid_libs weights neighbor_indices
      actual_neighbors dim
    let svd_result := ext.CppSVD sys.1
    let max_s ← maxElement svd_result.S
    let S_inv := invertSingular svd_result.S max_s
    let coeff ← coefficients svd_result.U S_inv svd_result.V sys.2 dim
    let prediction ← predictionValue coeff vectors pred_i dim
    pure (some prediction)

/-- The function `SMapPrediction` of `SMap.cpp`. -/
def SMapPrediction (ext : Externals α) (vectors : List (List (Option α)))
    (target : List (Option α)) (lib_indices pred_indices : List Int)
    (num_neighbors : Int) (theta : Option α) : Except Fault (List (Option α)) :=
  let N := target.length
  let pred : List (Option α) := List.replicate N none
  if num_neighbors ≤ 0 ∨ lib_indices.isEmpty ∨ pred_indices.isEmpty then
    .ok pred
  else
    pred_indices.foldlM (fun (pred : List (Option α)) pred_i => do
      let r ← predictAt ext vectors target lib_indices num_neighbors theta pred_i
      match r with
      | none => pure pred
      | some prediction => writeInt pred pred_i prediction) pred

/-- The function `SMap` of `SMap.cpp`. -/
def SMap (ext : Externals α) (vectors : List (List (Option α)))
    (target : List (Option α)) (lib_indices pred_indices : List Int)
    (num_neighbors : Int) (theta : Option α) : Except Fault (Option α) := do
  let rho : Option α := none
  let target_pred ← SMapPrediction ext vectors target lib_indices pred_indices
    num_neighbors theta
  if checkOneDimVectorNotNanNum target_pred ≥ 3 then
    pure (ext.PearsonCor target_pred target true)
  else
    pure rho

/-- The function `SMapBehavior` of `SMap.cpp`. -/
def SMapBehavior (ext : Externals α) (vectors : List (List (Option α)))
    (target : List (Option α)) (lib_indices pred_indices : List Int)
    (num_neighbors : Int) (theta : Option α) : Except Fault (List (Option α)) := do
  let target_pred ← SMapPrediction ext vectors target lib_indices pred_indices
    num_neighbors theta
  if checkOneDimVectorNotNanNum target_pred ≥ 3 then
    pure [ext.PearsonCor target_pred target true, ext.CppMAE target_pred target true,
      ext.CppRMSE target_pred target true]
  else
    pure [none, none, none]

end SMap

/-! ## Definitions used to state the results on `SMap.cpp` -/

/-- The entry left at index `i` by the loop over `pred_indices`. -/
def storedEntry {β : Type} (f : Int → Except Fault (Option β)) (P : List Int) (old : β)
    (i : Nat) : β :=
  if (i : Int) ∈ P then
    match f (i : Int) with
    | .ok (some v) => v
    | _ => old
  else old

/-- An iteration of the loop over `pred_indices` that does not complete. -/
def iterationFaults {β : Type} (f : Int → Except Fault (Option β)) (N : Nat) (p : Int) : Prop :=
  f p = .error .outOfBounds ∨ ∃ v, f p = .ok (some v) ∧ ¬ (0 ≤ p ∧ p < (N : Int))

/-- The body of the loop over `pred_indices`, for an arbitrary iteration `f`. -/
def storeStep {β : Type} (f : Int → Except Fault (Option β)) (pred : List β) (p : Int) :
    Except Fault (List β) := do
  let r ← f p
  match r with
  | none => pure pred
  | some prediction => writeInt pred p prediction

/-- Sum of a list of doubles, accumulated from `0.0` on. -/
def dsum {α : Type} [LinearOrderedField α] (l : List (Option α)) : Option α :=
  l.foldl dadd (some 0)

section SpecDefs
variable {α : Type} [LinearOrderedField α]

/-- The selected neighbours of a query, in the order the regression uses them:
the pairs `(n_i, w_i)` of row index and weight for the first `k` entries of
`neighbor_indices`. -/
def selectedNeighbors (valid_libs : List Int) (weights : List (Option α))
    (neighbor_indices : List Nat) (k : Nat) : List (Int × Option α) :=
  (neighbor_indices.take k).map fun ni => (valid_libs.getD ni 0, weights.getD ni none)

/-- Spec §4.4: the design matrix `A`, row `i = weight_i · [neighbor_state_vector ; 1]`. -/
def specDesignMatrix (vectors : List (List (Option α))) (nbrs : List (Int × Option α)) :
    List (List (Option α)) :=
  nbrs.map fun nw =>
    ((vectors.getD nw.1.toNat []).map fun c => dmul nw.2 c) ++ [dmul nw.2 (some 1)]

/-- Spec §4.4: the response vector, `b_i = weight_i · target[neighbor_i]`. -/
def specResponse (target : List (Option α)) (nbrs : List (Int × Option α)) :
    List (Option α) :=
  nbrs.map fun nw => dmul nw.2 (target.getD nw.1.toNat none)

/-- Spec §4.4: the inverted singular values, `1/S_j` when `S_j ≥ 1e-5 × max(S)`
and `0` otherwise. -/
def specSinv (S : List (Option α)) (max_s : Option α) : List (Option α) :=
  S.map fun s => if dge s (dmul (some tol) max_s) then ddiv (some 1) s else some 0

/-- Entry `(i, j)` of a matrix of doubles (NaN outside the matrix). -/
def entry (M : List (List (Option α))) (i j : Nat) : Option α :=
  (M.getD i []).getD j none

/-- Entry `j` of the matrix-vector product `Uᵗ · b`. -/
def transposeMulVec (U : List (List (Option α))) (b : List (Option α)) (j : Nat) : Option α :=
  dsum ((List.range U.length).map fun i => dmul (entry U i j) (b.getD i none))

/-- Spec §4.4: entry `k` of `coeff = V · S⁺ · Uᵗ · b`, with `S⁺` the diagonal
matrix of the inverted singular values. -/
def specCoeff (U : List (List (Option α))) (S_inv : List (Option α))
    (V : List (List (Option α))) (b : List (Option α)) (k : Nat) : Option α :=
  dsum ((List.range S_inv.length).map fun j =>
    dmul (entry V k j) (dmul (S_inv.getD j none) (transposeMulVec U b j)))

/-- Spec §4.4: the prediction `dot(coeff[0..dim), query_state_vector) + coeff[dim]`. -/
def specPrediction (coeff : Nat → Option α) (query : List (Option α)) : Option α :=
  dadd (dsum ((List.range query.length).map fun i => dmul (coeff i) (query.getD i none)))
    (coeff query.length)

end SpecDefs

/-- The shape of an SVD result for an `m × n` matrix that keeps every read of
`U`, `S`, `V` and `b` and every write of `coeff` inside the vectors: `S` is not
empty, `U` has `m` rows, `V` has `n` rows, and each row of `U` and of `V` has at
least `S.size()` entries (a full and a thin SVD both have this shape). -/
def SVDShaped {α : Type} (r : SVDResult α) (m n : Nat) : Prop :=
  r.S ≠ [] ∧ r.U.length = m ∧ r.V.length = n ∧
    (∀ u ∈ r.U, r.S.length ≤ u.length) ∧ (∀ v ∈ r.V, r.S.length ≤ v.length)

section CallDefs

variable {α : Type} [LinearOrderedField α]

/-- The neighbours the regression of a query uses, computed as the source does
from the vectors `distances` and `valid_libs` of the query's neighbour search
(`found`): the first `actual_neighbors` entries of `neighbor_indices`. -/
def queryNeighbors (ext : Externals α) (theta : Option α) (num_neighbors : Int)
    (found : List α × List Int) : List (Int × Option α) :=
  selectedNeighbors found.2 (kernelWeights ext theta found.1)
    (sortedNeighborIndices found.1) (min num_neighbors.toNat found.1.length)

/-- Spec §4.4: the prediction for a query row from its selected neighbours,
`dot(coeff[0..dim), query) + coeff[dim]` with `coeff = V · S⁺ · Uᵗ · b` for the
SVD `(U, S, V)` returned for the design matrix `A`; `max_s` stands for
`max(S)`. -/
def specLocalPrediction (ext : Externals α) (vectors : List (List (Option α)))
    (target : List (Option α)) (nbrs : List (Int × Option α)) (max_s : Option α)
    (query : List (Option α)) : Option α :=
  specPrediction
    (specCoeff (ext.CppSVD (specDesignMatrix vectors nbrs)).U
      (specSinv (ext.CppSVD (specDesignMatrix vectors nbrs)).S max_s)
      (ext.CppSVD (specDesignMatrix vectors nbrs)).V (specResponse target nbrs))
    query

/-- A call with in-range indices: every row of `vectors` has `dim` entries and
every entry of `lib_indices` and `pred_indices` is an index of both `vectors`
and `target`. -/
def InRange (vectors : List (List (Option α))) (target : List (Option α))
    (lib_indices pred_indices : List Int) (dim : Nat) : Prop :=
  (∀ row ∈ vectors, row.length = dim) ∧
    (∀ i ∈ lib_indices, 0 ≤ i ∧ i < (vectors.length : Int) ∧ i < (target.length : Int)) ∧
    (∀ p ∈ pred_indices, 0 ≤ p ∧ p < (vectors.length : Int) ∧ p < (target.length : Int))

/-- The SVD collaborator returns a result of the right shape for every
non-empty matrix with `dim + 1` columns. -/
def SVDShapedOn (ext : Externals α) (dim : Nat) : Prop :=
  ∀ A : List (List (Option α)), A ≠ [] → (∀ row ∈ A, row.length = dim + 1) →
    SVDShaped (ext.CppSVD A) A.length (dim + 1)

end CallDefs

/-- The triple `(U, S, V)` is a singular value decomposition of the `m × n`
matrix `A` (`m ≥ n`): `S` has `n` entries, `A = U · diag(S) · Vᵗ`, the first `n`
columns of `U` are orthonormal and `V` is orthogonal.  (The two orthogonality
equations make every entry involved a number.) -/
def IsSVD {α : Type} [LinearOrderedField α] (A : List (List (Option α))) (r : SVDResult α)
    (m n : Nat) : Prop :=
  r.S.length = n ∧
    (∀ i, i < m → ∀ l, l < n → entry A i l =
      dsum ((List.range n).map fun j =>
        dmul (dmul (entry r.U i j) (r.S.getD j none)) (entry r.V l j))) ∧
    (∀ j, j < n → ∀ j', j' < n →
      dsum ((List.range m).map fun i => dmul (entry r.U i j) (entry r.U i j')) =
        some (if j = j' then 1 else 0)) ∧
    (∀ k, k < n → ∀ l, l < n →
      dsum ((List.range n).map fun j => dmul (entry r.V k j) (entry r.V l j)) =
        some (if k = l then 1 else 0))

/-- A noiseless linear target: `target[i] = dot(c, vectors[i]) + c0` for every
row `i` of the state-space matrix. -/
def IsLinearTarget {α : Type} [LinearOrderedField α] (vectors : List (List (Option α)))
    (target : List (Option α)) (dim : Nat) (c : Nat → α) (c0 : α) : Prop :=
  ∀ i, i < vectors.length → target.getD i none =
    dadd (dsum ((List.range dim).map fun l => dmul (some (c l)) (entry vectors i l))) (some c0)

/-! ## Definitions used to state the results on the neighbour search -/

section SearchDefs
variable {α : Type} [LinearOrderedField α]

/-- Spec §4.2: the dimensions `j` in which row `i` and the query row `p` are
both non-missing. -/
def sharedDimensions (vectors : List (List (Option α))) (i p : Nat) : List Nat :=
  (List.range (vectors.getD p []).length).filter fun j =>
    (entry vectors i j).isSome && (entry vectors p j).isSome

/-- Spec §4.2: the sum `Σ_j (v[i,j] - v[p,j])²` over the shared non-missing
dimensions. -/
def specSumSq (vectors : List (List (Option α))) (i p : Nat) : α :=
  ((sharedDimensions vectors i p).map fun j =>
    ((entry vectors i j).getD 0 - (entry vectors p j).getD 0) *
      ((entry vectors i j).getD 0 - (entry vectors p j).getD 0)).sum

/-- Spec §4.2: the distance `d(i,p) = sqrt(Σ_j (v[i,j]-v[p,j])² / count_valid_j)`. -/
def specDistance (ext : Externals α) (vectors : List (List (Option α))) (i p : Nat) : α :=
  ext.sqrt (specSumSq vectors i p / ((sharedDimensions vectors i p).length : α))

/-- Spec §4.2: the candidates of query `p`: the entries `i ≠ p` of the library,
in library order, that share a non-missing dimension with `p`. -/
def specCandidates (vectors : List (List (Option α))) (lib_indices : List Int) (p : Int) :
    List Int :=
  lib_indices.filter fun i =>
    decide (i ≠ p) && decide (sharedDimensions vectors i.toNat p.toNat ≠ [])

/-- The value `mean_distance`: the arithmetic mean of the vector `distances`. -/
def meanDistance (distances : List α) : α :=
  distances.foldl (· + ·) 0 / (distances.length : α)

/-- The square root collaborator, on non-negative arguments: its value is
non-negative and is zero for the argument zero only. -/
def SqrtNonneg (ext : Externals α) : Prop :=
  ∀ x : α, 0 ≤ x → 0 ≤ ext.sqrt x ∧ (ext.sqrt x = 0 ↔ x = 0)

end SearchDefs

/-- Two runs end alike: both fault, or both return and their results are
related by `R`. -/
def SameOutcome {β γ : Type} (R : β → γ → Prop) (x : Except Fault β) (y : Except Fault γ) :
    Prop :=
  match x, y with
  | .ok a, .ok b => R a b
  | .error _, .error _ => True
  | _, _ => False

/-! ## The neighbour search and the weights of `SMap.cpp` in rounded arithmetic -/

section RoundedDefs
variable {α : Type} [LinearOrderedField α]

/-- The inner loop of the neighbour search with the rounding of `double`
arithmetic made explicit: `fl x` is the double an operation returns whose exact
result is `x` (underflow included; results beyond the largest double are not
represented).  With `fl = id` this is `sumSqCount`. -/
def sumSqCountFl (fl : α → α) (vectors : List (List (Option α))) (pred_i i : Int) :
    Except Fault (α × Nat) := do
  let rowP ← readInt vectors pred_i
  (List.range rowP.length).foldlM (fun (acc : α × Nat) j => do
    let rowI ← readInt vectors i
    let vi ← readNat rowI j
    let vj ← readNat rowP j
    match vi, vj with
    | some x, some y => pure (fl (acc.1 + fl (fl (x - y) * fl (x - y))), acc.2 + 1)
    | _, _ => pure acc) (0, 0)

/-- The loop over `lib_indices` in rounded arithmetic: the vectors `distances`
and `valid_libs`. -/
def neighborSearchFl (fl : α → α) (ext : Externals α) (vectors : List (List (Option α)))
    (lib_indices : List Int) (pred_i : Int) : Except Fault (List α × List Int) :=
  lib_indices.foldlM (fun (acc : List α × List Int) i =>
    if i = pred_i then pure acc
    else do
      let sc ← sumSqCountFl fl vectors pred_i i
      if sc.2 > 0 then
        pure (acc.1 ++ [ext.sqrt (fl (sc.1 / (sc.2 : α)))], acc.2 ++ [i])
      else pure acc) ([], [])

/-- The value `mean_distance` in rounded arithmetic: `std::accumulate` from
`0.0`, divided by `distances.size()`. -/
def meanDistanceFl (fl : α → α) (distances : List α) : α :=
  fl (distances.foldl (fun s d => fl (s + d)) 0 / (distances.length : α))

/-- The vector `weights` in rounded arithmetic:
`exp(-theta * distances[i] / mean_distance)`. -/
def kernelWeightsFl (fl : α → α) (ext : Externals α) (theta : Option α)
    (distances : List α) : List (Option α) :=
  let mean_distance : α := meanDistanceFl fl distances
  distances.map fun d =>
    ((ddiv ((dmul (dneg theta) (some d)).map fl) (some mean_distance)).map fl).map ext.exp

end RoundedDefs

/-! ## A rational instance for evaluation -/

/-- A state-space matrix with one column: the query row `0` and the two library
rows `3/4` and `-4/3`. -/
def demoVectors : List (List (Option ℚ)) := [[some 0], [some (3/4)], [some (-4/3)]]

/-- The linear target `2·x + 1` on `demoVectors`. -/
def demoTarget : List (Option ℚ) := [some 1, some (5/2), some (-5/3)]

/-- The design matrix of query `0` of `demoVectors` with unit weights. -/
def demoDesign : List (List (Option ℚ)) := [[some (3/4), some 1], [some (-4/3), some 1]]

/-- An exact SVD of `demoDesign`, singular values `5/3 ≥ 5/4`. -/
def demoSVD : SVDResult ℚ :=
  { U := [[some 0, some 1], [some 1, some 0]],
    S := [some (5/3), some (5/4)],
    V := [[some (-4/5), some (3/5)], [some (3/5), some (4/5)]] }

/-- A state-space matrix whose four library rows coincide. -/
def cexVectors : List (List (Option ℚ)) := [[some 1], [some 0], [some 0], [some 0], [some 0]]

/-- The linear target `1·x + 0` on `cexVectors`. -/
def cexTarget : List (Option ℚ) := [some 1, some 0, some 0, some 0, some 0]

/-- The design matrix of query `0` of `cexVectors` with unit weights: four equal
rows, rank 1. -/
def cexDesign : List (List (Option ℚ)) :=
  [[some 0, some 1], [some 0, some 1], [some 0, some 1], [some 0, some 1]]

/-- An exact SVD of `cexDesign`, singular values `2 ≥ 0`. -/
def cexSVD : SVDResult ℚ :=
  { U := [[some (1/2), some (1/2), some (1/2), some (1/2)],
          [some (1/2), some (-1/2), some (1/2), some (-1/2)],
          [some (1/2), some (1/2), some (-1/2), some (-1/2)],
          [some (1/2), some (-1/2), some (-1/2), some (1/2)]],
    S := [some 2, some 0],
    V := [[some 0, some 1], [some 1, some 0]] }

/-- An SVD collaborator on rational matrices: the exact decompositions of the
two design matrices above, and a result of the right shape elsewhere. -/
def tableSVD (A : List (List (Option ℚ))) : SVDResult ℚ :=
  if A = demoDesign then demoSVD
  else if A = cexDesign then cexSVD
  else
    { U := List.replicate A.length (List.replicate A.length (some 0)),
      S := List.replicate (min A.length (A.headD []).length) (some 0),
      V := List.replicate (A.headD []).length (List.replicate (A.headD []).length (some 0)) }

/-- External routines on rational numbers: the square root and the exponential
are tabulated on the arguments that occur in the two examples. -/
def tableExt : Externals ℚ :=
  { sqrt := fun x => if x = 9/16 then 3/4 else if x = 16/9 then 4/3 else if x = 1 then 1 else 0,
    exp := fun x => if x = 0 then 1 else 0,
    CppSVD := tableSVD,
    PearsonCor := fun _ _ _ => none,
    CppMAE := fun _ _ _ => none,
    CppRMSE := fun _ _ _ => none }

/-- A state-space matrix whose library rows `1` and `2` are at the same distance
from the query row `0`. -/
def tieVectors : List (List (Option ℚ)) := [[some 0], [some 1], [some (-1)]]

/-- A state-space matrix whose library row `1` coincides with the query row `0`. -/
def dupVectors : List (List (Option ℚ)) := [[some 0], [some 0]]

/-- External routines on rational numbers as in `tableExt`, with a square root
that is exact on the two squares of the first example and satisfies
`SqrtNonneg`. -/
def rootExt : Externals ℚ :=
  { sqrt := fun x => if x = 9/16 then 3/4 else if x = 16/9 then 4/3 else x,
    exp := tableExt.exp,
    CppSVD := tableSVD,
    PearsonCor := fun _ _ _ => none,
    CppMAE := fun _ _ _ => none,
    CppRMSE := fun _ _ _ => none }

/-- A target on `dupVectors`. -/
def dupTarget : List (Option ℚ) := [some 1, some 1]

/-- A rounding on rational numbers that underflows as the rounding of `double`
does: a result of magnitude at most `2^-1075` becomes `0`; every other result
is kept. -/
def flushFl (x : ℚ) : ℚ := if |x| ≤ 1 / 2 ^ 1075 then 0 else x

/-- The double `2^-600`. -/
def tiny : ℚ := 1 / 2 ^ 600

/-- A state-space matrix whose library row `1` differs from the query row `0`
by `2^-600`. -/
def tinyVectors : List (List (Option ℚ)) := [[some 0], [some tiny]]

/-! ## Facts about `Embed` -/

section EmbedFacts
variable {α : Type}

theorem cellAt_lagMatrix (vec : List (Option α)) (E : Nat) (tau style : Int) (t j : Nat)
    (ht : t < vec.length) (hj : j < E) :
    cellAt (lagMatrix vec E tau style) t j = lagCell vec tau style t j := by
  simp [cellAt, lagMatrix, List.getD_eq_getElem?_getD, List.getElem?_map, List.getElem?_range,
    ht, hj]

theorem keepColumns_lagMatrix (vec : List (Option α)) (E : Nat) (tau style : Int) :
    keepColumns (lagMatrix vec E tau style) vec.length E =
      (List.range E).map fun j =>
        (List.range vec.length).any fun t => (lagCell vec tau style t j).isSome := by
  unfold keepColumns
  apply List.map_congr_left
  intro j hj
  rw [Bool.eq_iff_iff]
  simp only [List.any_eq_true, List.mem_range]
  have hj' := List.mem_range.mp hj
  constructor
  · rintro ⟨t, ht, h⟩
    exact ⟨t, ht, by rwa [cellAt_lagMatrix vec E tau style t j ht hj'] at h⟩
  · rintro ⟨t, ht, h⟩
    exact ⟨t, ht, by rwa [cellAt_lagMatrix vec E tau style t j ht hj']⟩

theorem filterMap_ite_some {β : Type} (l : List Nat) (p : Nat → Bool) (f : Nat → β) :
    l.filterMap (fun j => if p j then some (f j) else none) = (l.filter p).map f := by
  induction l with
  | nil => rfl
  | cons a l ih =>
    by_cases h : p a <;> simp [List.filterMap_cons, List.filter_cons, h, ih]

theorem cleanRow_lagMatrix (vec : List (Option α)) (E : Nat) (tau style : Int) (i : Nat)
    (hi : i < vec.length) :
    cleanRow (keepColumns (lagMatrix vec E tau style) vec.length E)
        (lagMatrix vec E tau style) E i =
      (nonMissingColumns vec E tau style).map fun j => lagCell vec tau style i j := by
  unfold cleanRow nonMissingColumns
  rw [filterMap_ite_some, keepColumns_lagMatrix]
  have h1 : ∀ (p q : Nat → Bool), (∀ j, j < E → p j = q j) →
      (List.range E).filter p = (List.range E).filter q := by
    intro p q h
    apply List.filter_congr
    intro j hj
    exact h j (List.mem_range.mp hj)
  rw [h1 _ (fun j => (List.range vec.length).any fun t => (lagCell vec tau style t j).isSome)]
  · apply List.map_congr_left
    intro j hj
    exact cellAt_lagMatrix vec E tau style i j hi (List.mem_range.mp (List.mem_filter.mp hj).1)
  · intro j hj
    simp [List.getD_eq_getElem?_getD, List.getElem?_map, List.getElem?_range hj]

theorem any_keepColumns (vec : List (Option α)) (E : Nat) (tau style : Int) :
    ((keepColumns (lagMatrix vec E tau style) vec.length E).any fun b => b) = false ↔
      nonMissingColumns vec E tau style = [] := by
  rw [keepColumns_lagMatrix]
  unfold nonMissingColumns
  rw [List.filter_eq_nil_iff, List.any_eq_false]
  simp only [List.mem_map, forall_exists_index, and_imp, forall_apply_eq_imp_iff₂]

/-- The three exits of `Embed`, with the pruning loops replaced by their result. -/
theorem Embed_eq (vec : List (Option α)) (E tau style : Int) :
    Embed vec E tau style =
      if (vec.length : Int) ≤ maxLag E tau style then .error .invalidParameters
      else if E < 0 then .error .lengthError
      else if nonMissingColumns vec E.toNat tau style = [] then
        .error .insufficientEmbeddingDimension
      else .ok ((List.range vec.length).map fun t =>
        (nonMissingColumns vec E.toNat tau style).map fun j => lagCell vec tau style t j) := by
  unfold Embed
  simp only [ge_iff_le]
  split
  · rfl
  split
  · rfl
  by_cases h : nonMissingColumns vec E.toNat tau style = []
  · have h' := (any_keepColumns vec E.toNat tau style).mpr h
    simp [h, h']
  · have h' : ((keepColumns (lagMatrix vec E.toNat tau style) vec.length E.toNat).any
        fun b => b) = true := by
      rw [← Bool.not_eq_false]
      exact fun hf => h ((any_keepColumns vec E.toNat tau style).mp hf)
    simp only [h', h, Bool.not_true, if_false, Bool.false_eq_true]
    congr 1
    apply List.map_congr_left
    intro t ht
    exact cleanRow_lagMatrix vec E.toNat tau style t (List.mem_range.mp ht)

theorem maxLag_eq_lagOf (E tau style : Int) (hE : 1 ≤ E) :
    maxLag E tau style = lagOf tau style (E - 1).toNat := by
  have h : (((E - 1).toNat : Nat) : Int) = E - 1 := Int.toNat_of_nonneg (by omega)
  unfold maxLag lagOf
  rw [h]
  split
  · rfl
  split
  · congr 1; omega
  · rfl

theorem lagOf_le_maxLag (E tau style : Int) (htau : 0 ≤ tau) (j : Nat) (hj : (j : Int) < E) :
    lagOf tau style j ≤ maxLag E tau style := by
  unfold maxLag lagOf
  split
  · omega
  split
  · exact mul_le_mul_of_nonneg_right (by omega) htau
  · exact mul_le_mul_of_nonneg_right (by omega) htau

theorem Embed_style_eq (vec : List (Option α)) (E tau style : Int) (h : style ≠ 1) :
    Embed vec E tau style = Embed vec E tau 0 := by
  have h1 : maxLag E tau style = maxLag E tau 0 := by simp [maxLag, h]
  have h2 : ∀ j, lagOf tau style j = lagOf tau 0 j := by intro j; simp [lagOf, h]
  have h3 : ∀ t j, lagCell vec tau style t j = lagCell vec tau 0 t j := by
    intro t j; simp only [lagCell, h2]
  rw [Embed_eq, Embed_eq, h1]
  simp only [nonMissingColumns, h3]

theorem wrapInt_eq (x : Int) (h : InInt x) : wrapInt x = x := by
  unfold InInt at h
  unfold wrapInt
  omega

theorem wrapInt_inInt (x : Int) : InInt (wrapInt x) := by
  unfold InInt wrapInt
  omega

theorem maxLag32_eq (N : Nat) (E tau style : Int) (h : NoOverflow N E tau style) :
    maxLag32 E tau style = maxLag E tau style := by
  obtain ⟨-, -, -, hE1, hm⟩ := h
  unfold maxLag at hm
  unfold maxLag32 maxLag
  split
  · rename_i h0
    rw [if_pos h0] at hm
    exact wrapInt_eq _ hm
  · rename_i h0
    rw [if_neg h0] at hm
    split
    · rename_i h1
      rw [if_pos h1] at hm
      exact wrapInt_eq _ hm
    · rename_i h1
      rw [if_neg h1] at hm
      rw [wrapInt_eq _ hE1]
      exact wrapInt_eq _ hm

/-- Between `0` and `b` the multiples of `tau` lie between `0` and `b * tau`. -/
theorem inInt_mul_of_le (a b tau : Int) (h0 : 0 ≤ a) (hab : a ≤ b) (hb : InInt (b * tau)) :
    InInt (a * tau) := by
  unfold InInt at hb ⊢
  rcases le_total 0 tau with ht | ht
  · have h1 : a * tau ≤ b * tau := mul_le_mul_of_nonneg_right hab ht
    have h2 : 0 ≤ a * tau := mul_nonneg h0 ht
    omega
  · have h1 : b * tau ≤ a * tau := mul_le_mul_of_nonpos_right hab ht
    have h2 : a * tau ≤ 0 := mul_nonpos_of_nonneg_of_nonpos h0 ht
    omega

theorem lagOf_inInt (N : Nat) (E tau style : Int) (h : NoOverflow N E tau style) (j : Nat)
    (hj : (j : Int) < E) : InInt (lagOf tau style j) := by
  obtain ⟨-, hE, -, hE1, hm⟩ := h
  unfold maxLag at hm
  unfold lagOf
  split
  · unfold InInt at hE ⊢
    omega
  · rename_i h0
    rw [if_neg h0] at hm
    split
    · rename_i h1
      rw [if_pos h1] at hm
      exact inInt_mul_of_le _ _ tau (by omega) (by omega) hm
    · rename_i h1
      rw [if_neg h1] at hm
      exact inInt_mul_of_le _ _ tau (by omega) (by omega) hm

theorem lagOf32_eq (N : Nat) (E tau style : Int) (h : NoOverflow N E tau style) (j : Nat)
    (hj : (j : Int) < E) : lagOf32 tau style j = lagOf tau style j := by
  have hin := lagOf_inInt N E tau style h j hj
  unfold lagOf at hin ⊢
  unfold lagOf32
  split
  · rfl
  · rename_i h0
    rw [if_neg h0] at hin
    split
    · rename_i h1
      rw [if_pos h1] at hin
      exact wrapInt_eq _ hin
    · rename_i h1
      rw [if_neg h1] at hin
      exact wrapInt_eq _ hin

/-- Without overflow the cells of the two fill loops agree. -/
theorem lagCell32_eq (vec : List (Option α)) (E tau style : Int)
    (h : NoOverflow vec.length E tau style) (t j : Nat) (ht : t < vec.length)
    (hj : (j : Int) < E) : lagCell32 vec tau style t j = lagCell vec tau style t j := by
  have hin := lagOf_inInt vec.length E tau style h j hj
  have hN := h.1
  unfold lagCell32 lagCell
  rw [lagOf32_eq vec.length E tau style h j hj]
  have hwt : wrapInt (t : Int) = (t : Int) := wrapInt_eq _ (by unfold InInt; omega)
  have hwN : wrapInt (vec.length : Int) = (vec.length : Int) :=
    wrapInt_eq _ (by unfold InInt; omega)
  simp only [hwt, hwN]
  generalize lagOf tau style j = lag at hin ⊢
  unfold InInt at hin
  by_cases hr : (t : Int) - lag ≤ 2147483647
  · rw [wrapInt_eq _ (by unfold InInt; omega)]
  · have h1 : ¬ (0 ≤ wrapInt ((t : Int) - lag) ∧ wrapInt ((t : Int) - lag) < (vec.length : Int)) := by
      unfold wrapInt
      omega
    have h2 : ¬ (0 ≤ (t : Int) - lag ∧ (t : Int) - lag < (vec.length : Int)) := by omega
    rw [if_neg h1, if_neg h2]

theorem cellAt_map (c : Nat → Nat → Option α) (N E t j : Nat) (ht : t < N) (hj : j < E) :
    cellAt ((List.range N).map fun t => (List.range E).map fun j => c t j) t j = c t j := by
  simp [cellAt, List.getD_eq_getElem?_getD, List.getElem?_map, List.getElem?_range, ht, hj]

theorem keepColumns_map (c : Nat → Nat → Option α) (N E : Nat) :
    keepColumns ((List.range N).map fun t => (List.range E).map fun j => c t j) N E =
      (List.range E).map fun j => (List.range N).any fun t => (c t j).isSome := by
  unfold keepColumns
  apply List.map_congr_left
  intro j hj
  rw [Bool.eq_iff_iff]
  simp only [List.any_eq_true, List.mem_range]
  have hj2 := List.mem_range.mp hj
  constructor
  · rintro ⟨t, ht, h⟩
    exact ⟨t, ht, by rwa [cellAt_map c N E t j ht hj2] at h⟩
  · rintro ⟨t, ht, h⟩
    exact ⟨t, ht, by rwa [cellAt_map c N E t j ht hj2]⟩

theorem cleanRow_map (c : Nat → Nat → Option α) (N E i : Nat) (hi : i < N) :
    cleanRow (keepColumns ((List.range N).map fun t => (List.range E).map fun j => c t j) N E)
        ((List.range N).map fun t => (List.range E).map fun j => c t j) E i =
      ((List.range E).filter fun j => (List.range N).any fun t => (c t j).isSome).map
        fun j => c i j := by
  unfold cleanRow
  rw [filterMap_ite_some, keepColumns_map]
  have h1 : ∀ (p q : Nat → Bool), (∀ j, j < E → p j = q j) →
      (List.range E).filter p = (List.range E).filter q := by
    intro p q h
    apply List.filter_congr
    intro j hj
    exact h j (List.mem_range.mp hj)
  rw [h1 _ (fun j => (List.range N).any fun t => (c t j).isSome)]
  · apply List.map_congr_left
    intro j hj
    exact cellAt_map c N E i j hi (List.mem_range.mp (List.mem_filter.mp hj).1)
  · intro j hj
    simp [List.getD_eq_getElem?_getD, List.getElem?_map, List.getElem?_range hj]

theorem any_keepColumns_map (c : Nat → Nat → Option α) (N E : Nat) :
    ((keepColumns ((List.range N).map fun t => (List.range E).map fun j => c t j) N E).any
        fun b => b) = false ↔
      ((List.range E).filter fun j => (List.range N).any fun t => (c t j).isSome) = [] := by
  rw [keepColumns_map, List.filter_eq_nil_iff, List.any_eq_false]
  simp only [List.mem_map, forall_exists_index, and_imp, forall_apply_eq_imp_iff₂]

theorem cellAt_lagMatrix32 (vec : List (Option α)) (E : Nat) (tau style : Int) (t j : Nat)
    (ht : t < vec.length) (hj : j < E) :
    cellAt (lagMatrix32 vec E tau style) t j = lagCell32 vec tau style t j :=
  cellAt_map (fun t j => lagCell32 vec tau style t j) vec.length E t j ht hj

theorem cleanRow_lagMatrix32 (vec : List (Option α)) (E : Nat) (tau style : Int) (i : Nat)
    (hi : i < vec.length) :
    cleanRow (keepColumns (lagMatrix32 vec E tau style) vec.length E)
        (lagMatrix32 vec E tau style) E i =
      (nonMissingColumns32 vec E tau style).map fun j => lagCell32 vec tau style i j :=
  cleanRow_map (fun t j => lagCell32 vec tau style t j) vec.length E i hi

theorem any_keepColumns32 (vec : List (Option α)) (E : Nat) (tau style : Int) :
    ((keepColumns (lagMatrix32 vec E tau style) vec.length E).any fun b => b) = false ↔
      nonMissingColumns32 vec E tau style = [] :=
  any_keepColumns_map (fun t j => lagCell32 vec tau style t j) vec.length E

/-- The three exits of `Embed32`, with the pruning loops replaced by their
result. -/
theorem Embed32_eq (vec : List (Option α)) (E tau style : Int) :
    Embed32 vec E tau style =
      if wrapInt (vec.length : Int) ≤ maxLag32 E tau style then .error .invalidParameters
      else if E < 0 then .error .lengthError
      else if nonMissingColumns32 vec E.toNat tau style = [] then
        .error .insufficientEmbeddingDimension
      else .ok ((List.range vec.length).map fun t =>
        (nonMissingColumns32 vec E.toNat tau style).map fun j => lagCell32 vec tau style t j) := by
  unfold Embed32
  simp only [ge_iff_le]
  split
  · rfl
  split
  · rfl
  by_cases h : nonMissingColumns32 vec E.toNat tau style = []
  · have h' := (any_keepColumns32 vec E.toNat tau style).mpr h
    simp [h, h']
  · have h' : ((keepColumns (lagMatrix32 vec E.toNat tau style) vec.length E.toNat).any
        fun b => b) = true := by
      rw [← Bool.not_eq_false]
      exact fun hf => h ((any_keepColumns32 vec E.toNat tau style).mp hf)
    simp only [h', h, Bool.not_true, if_false, Bool.false_eq_true]
    congr 1
    apply List.map_congr_left
    intro t ht
    exact cleanRow_lagMatrix32 vec E.toNat tau style t (List.mem_range.mp ht)

theorem nonMissingColumns32_eq (vec : List (Option α)) (E tau style : Int)
    (h : NoOverflow vec.length E tau style) :
    nonMissingColumns32 vec E.toNat tau style = nonMissingColumns vec E.toNat tau style := by
  unfold nonMissingColumns32 nonMissingColumns
  apply List.filter_congr
  intro j hj
  have hj' : (j : Int) < E := by
    have := List.mem_range.mp hj
    omega
  rw [Bool.eq_iff_iff]
  simp only [List.any_eq_true, List.mem_range]
  constructor
  · rintro ⟨t, ht, hc⟩
    exact ⟨t, ht, by rwa [lagCell32_eq vec E tau style h t j ht hj'] at hc⟩
  · rintro ⟨t, ht, hc⟩
    exact ⟨t, ht, by rwa [lagCell32_eq vec E tau style h t j ht hj']⟩

/-- As long as no `int` value overflows, `Embed` in `int` arithmetic is `Embed`
in exact integers. -/
theorem Embed32_eq_Embed (vec : List (Option α)) (E tau style : Int)
    (h : NoOverflow vec.length E tau style) :
    Embed32 vec E tau style = Embed vec E tau style := by
  rw [Embed32_eq, Embed_eq, maxLag32_eq vec.length E tau style h,
    wrapInt_eq _ (by have := h.1; unfold InInt; omega), nonMissingColumns32_eq vec E tau style h]
  split
  · rfl
  split
  · rfl
  split
  · rfl
  refine congrArg Except.ok ?_
  apply List.map_congr_left
  intro t ht
  apply List.map_congr_left
  intro j hj
  have hj' : (j : Int) < E := by
    have := List.mem_range.mp (List.mem_filter.mp hj).1
    omega
  exact lagCell32_eq vec E tau style h t j (List.mem_range.mp ht) hj'

theorem mem_nonMissingColumns32 (vec : List (Option α)) (E : Nat) (tau style : Int) (j : Nat) :
    j ∈ nonMissingColumns32 vec E tau style ↔
      j < E ∧ ∃ t, t < vec.length ∧ ∃ x, lagCell32 vec tau style t j = some x := by
  unfold nonMissingColumns32
  simp [List.mem_filter, Option.isSome_iff_exists]

theorem nonMissingColumns32_eq_nil (vec : List (Option α)) (E : Nat) (tau style : Int) :
    nonMissingColumns32 vec E tau style = [] ↔
      ∀ t j, t < vec.length → j < E → lagCell32 vec tau style t j = none := by
  rw [List.eq_nil_iff_forall_not_mem]
  constructor
  · intro h t j ht hj
    by_contra hc
    obtain ⟨x, hx⟩ := Option.ne_none_iff_exists'.mp hc
    exact h j ((mem_nonMissingColumns32 vec E tau style j).mpr ⟨hj, t, ht, x, hx⟩)
  · intro h j hmem
    obtain ⟨hj, t, ht, x, hx⟩ := (mem_nonMissingColumns32 vec E tau style j).mp hmem
    rw [h t j ht hj] at hx
    cases hx

theorem Embed32_style_eq (vec : List (Option α)) (E tau style : Int) (h : style ≠ 1) :
    Embed32 vec E tau style = Embed32 vec E tau 0 := by
  have h1 : maxLag32 E tau style = maxLag32 E tau 0 := by simp [maxLag32, h]
  have h2 : ∀ j, lagOf32 tau style j = lagOf32 tau 0 j := by intro j; simp [lagOf32, h]
  have h3 : ∀ t j, lagCell32 vec tau style t j = lagCell32 vec tau 0 t j := by
    intro t j; simp only [lagCell32, h2]
  rw [Embed32_eq, Embed32_eq, h1]
  simp only [nonMissingColumns32, h3]

end EmbedFacts

/-! ## Facts about `SMapPrediction` -/

section SMapFacts

variable {α : Type} [LinearOrderedField α]

theorem except_error_eq (e : Fault) : e = Fault.outOfBounds := by cases e; rfl

theorem writeInt_ok {β : Type} (v : List β) (i : Int) (x : β) (h0 : 0 ≤ i)
    (h1 : i < (v.length : Int)) : writeInt v i x = .ok (v.set i.toNat x) := by
  unfold writeInt writeNat
  rw [if_neg (by omega), if_pos (by omega)]

theorem writeInt_error {β : Type} (v : List β) (i : Int) (x : β)
    (h : ¬ (0 ≤ i ∧ i < (v.length : Int))) : writeInt v i x = .error .outOfBounds := by
  unfold writeInt writeNat
  by_cases h0 : i < 0
  · rw [if_pos h0]
  · rw [if_neg h0, if_neg (by omega)]

theorem foldlM_storeStep_error {β : Type} (f : Int → Except Fault (Option β)) (P : List Int) :
    ∀ pred0 : List β, (∃ p ∈ P, iterationFaults f pred0.length p) →
      P.foldlM (storeStep f) pred0 = .error .outOfBounds := by
  induction P with
  | nil => intro pred0 h; obtain ⟨p, hp, -⟩ := h; cases hp
  | cons q qs ih =>
    intro pred0 h
    rw [List.foldlM_cons]
    cases hq : storeStep f pred0 q with
    | error e => rw [except_error_eq e]; rfl
    | ok pred1 =>
      have hlen : pred1.length = pred0.length := by
        unfold storeStep at hq
        cases hf : f q with
        | error e => rw [hf] at hq; cases hq
        | ok r =>
          rw [hf] at hq
          cases r with
          | none => cases hq; rfl
          | some v =>
            by_cases hr : 0 ≤ q ∧ q < (pred0.length : Int)
            · have := writeInt_ok pred0 q v hr.1 hr.2
              simp only [bind, Except.bind] at hq
              rw [this] at hq
              cases hq
              simp
            · have := writeInt_error pred0 q v hr
              simp only [bind, Except.bind] at hq
              rw [this] at hq
              cases hq
      show qs.foldlM (storeStep f) pred1 = _
      apply ih
      rw [hlen]
      obtain ⟨p, hp, hfault⟩ := h
      rcases List.mem_cons.mp hp with rfl | hp'
      · exfalso
        unfold storeStep at hq
        rcases hfault with he | ⟨v, hv, hr⟩
        · rw [he] at hq; cases hq
        · rw [hv] at hq
          simp only [bind, Except.bind] at hq
          rw [writeInt_error pred0 p v hr] at hq
          cases hq
      · exact ⟨p, hp', hfault⟩

theorem foldlM_storeStep_ok {β : Type} (f : Int → Except Fault (Option β)) (P : List Int) :
    ∀ pred0 : List β, (∀ p ∈ P, ¬ iterationFaults f pred0.length p) →
      ∃ r, P.foldlM (storeStep f) pred0 = .ok r ∧ r.length = pred0.length ∧
        ∀ i (h : i < pred0.length), r[i]? = some (storedEntry f P pred0[i] i) := by
  induction P with
  | nil =>
    intro pred0 _
    refine ⟨pred0, rfl, rfl, ?_⟩
    intro i h
    simp [storedEntry, List.getElem?_eq_getElem h]
  | cons q qs ih =>
    intro pred0 h
    have hq := h q (List.mem_cons_self _ _)
    have hqs : ∀ pred1 : List β, pred1.length = pred0.length →
        ∀ p ∈ qs, ¬ iterationFaults f pred1.length p := by
      intro pred1 hl p hp
      rw [hl]
      exact h p (List.mem_cons_of_mem _ hp)
    rw [List.foldlM_cons]
    cases hf : f q with
    | error e =>
      exact absurd (Or.inl (by rw [hf, except_error_eq e])) hq
    | ok r =>
      cases r with
      | none =>
        have hs : storeStep f pred0 q = .ok pred0 := by unfold storeStep; rw [hf]; rfl
        rw [hs]
        obtain ⟨r, hr, hlen, hent⟩ := ih pred0 (hqs pred0 rfl)
        refine ⟨r, hr, hlen, ?_⟩
        intro i hi
        rw [hent i hi]
        congr 1
        unfold storedEntry
        by_cases hiq : (i : Int) = q
        · subst hiq
          simp [hf]
        · simp [List.mem_cons, hiq]
      | some v =>
        have hr : 0 ≤ q ∧ q < (pred0.length : Int) := by
          by_contra hn
          exact hq (Or.inr ⟨v, hf, hn⟩)
        have hs : storeStep f pred0 q = .ok (pred0.set q.toNat v) := by
          unfold storeStep
          rw [hf]
          exact writeInt_ok pred0 q v hr.1 hr.2
        rw [hs]
        obtain ⟨r, hr', hlen, hent⟩ := ih (pred0.set q.toNat v) (hqs _ (by simp))
        refine ⟨r, hr', by rw [hlen]; simp, ?_⟩
        intro i hi
        rw [hent i (by simpa using hi)]
        congr 1
        unfold storedEntry
        by_cases hiq : (i : Int) = q
        · subst hiq
          simp [hf]
        · have hne : q.toNat ≠ i := by omega
          simp [List.mem_cons, hiq, List.getElem_set_ne hne]

theorem readNat_ok {β : Type} (v : List β) (i : Nat) (h : i < v.length) :
    readNat v i = .ok v[i] := by
  unfold readNat
  rw [List.get?_eq_getElem?, List.getElem?_eq_getElem h]

theorem readInt_ok {β : Type} (v : List β) (i : Int) (h0 : 0 ≤ i) (h : i.toNat < v.length) :
    readInt v i = .ok v[i.toNat] := by
  unfold readInt
  rw [if_neg (by omega), readNat_ok v i.toNat h]

theorem writeNat_ok {β : Type} (v : List β) (i : Nat) (x : β) (h : i < v.length) :
    writeNat v i x = .ok (v.set i x) := by
  unfold writeNat
  rw [if_pos h]

theorem bind_ok {β γ : Type} (x : β) (g : β → Except Fault γ) :
    ((Except.ok x : Except Fault β) >>= g) = g x := rfl

/-- A loop over `0 .. k-1` whose body preserves an invariant indexed by the
iteration count completes. -/
theorem foldlM_range_inv {β : Type} (f : β → Nat → Except Fault β) (Inv : Nat → β → Prop)
    (k : Nat) (b0 : β) (h0 : Inv 0 b0)
    (hstep : ∀ i b, i < k → Inv i b → ∃ b', f b i = .ok b' ∧ Inv (i + 1) b') :
    ∃ b', (List.range k).foldlM f b0 = .ok b' ∧ Inv k b' := by
  induction k with
  | zero => exact ⟨b0, rfl, h0⟩
  | succ k ih =>
    obtain ⟨b1, hb1, hinv⟩ := ih (fun i b hi => hstep i b (by omega))
    obtain ⟨b2, hb2, hinv2⟩ := hstep k b1 (by omega) hinv
    refine ⟨b2, ?_, hinv2⟩
    rw [List.range_succ, List.foldlM_append, hb1]
    show (List.foldlM f b1 [k]) = _
    rw [List.foldlM_cons, hb2]
    rfl

/-- A loop over a list whose body preserves an invariant completes. -/
theorem foldlM_list_inv {β γ : Type} (f : β → γ → Except Fault β) (Inv : β → Prop)
    (l : List γ) :
    ∀ b0 : β, Inv b0 → (∀ x b, x ∈ l → Inv b → ∃ b', f b x = .ok b' ∧ Inv b') →
      ∃ b', l.foldlM f b0 = .ok b' ∧ Inv b' := by
  induction l with
  | nil => intro b0 h0 _; exact ⟨b0, rfl, h0⟩
  | cons x xs ih =>
    intro b0 h0 hstep
    obtain ⟨b1, hb1, hinv⟩ := hstep x b0 (List.mem_cons_self _ _) h0
    obtain ⟨b2, hb2, hinv2⟩ := ih b1 hinv (fun y b hy => hstep y b (List.mem_cons_of_mem _ hy))
    refine ⟨b2, ?_, hinv2⟩
    rw [List.foldlM_cons, hb1]
    exact hb2

theorem sumSqCount_ok (vectors : List (List (Option α))) (dim : Nat) (p i : Int)
    (hrect : ∀ row ∈ vectors, row.length = dim)
    (hp0 : 0 ≤ p) (hp : p.toNat < vectors.length)
    (hi0 : 0 ≤ i) (hi : i.toNat < vectors.length) :
    ∃ sc, sumSqCount vectors p i = .ok sc := by
  unfold sumSqCount
  rw [readInt_ok vectors p hp0 hp, bind_ok]
  have hlenP : (vectors[p.toNat]).length = dim := hrect _ (List.getElem_mem hp)
  have hlenI : (vectors[i.toNat]).length = dim := hrect _ (List.getElem_mem hi)
  obtain ⟨sc, hsc, -⟩ := foldlM_range_inv
    (fun (acc : α × Nat) j => do
      let rowI ← readInt vectors i
      let vi ← readNat rowI j
      let vj ← readNat vectors[p.toNat] j
      match vi, vj with
      | some x, some y => pure (acc.1 + (x - y) * (x - y), acc.2 + 1)
      | _, _ => pure acc)
    (fun _ _ => True) (vectors[p.toNat]).length (0, 0) trivial
    (by
      intro j b hj _
      beta_reduce
      rw [readInt_ok vectors i hi0 hi, bind_ok, readNat_ok _ j (by omega), bind_ok,
        readNat_ok _ j hj, bind_ok]
      split
      · exact ⟨_, rfl, trivial⟩
      · exact ⟨_, rfl, trivial⟩)
  exact ⟨sc, hsc⟩

theorem neighborSearch_ok (ext : Externals α) (vectors : List (List (Option α))) (dim : Nat)
    (lib : List Int) (p : Int)
    (hrect : ∀ row ∈ vectors, row.length = dim)
    (hp0 : 0 ≤ p) (hp : p.toNat < vectors.length)
    (hlib : ∀ i ∈ lib, 0 ≤ i ∧ i.toNat < vectors.length) :
    ∃ c, neighborSearch ext vectors lib p = .ok c ∧ c.1.length = c.2.length ∧
      ∀ i ∈ c.2, i ∈ lib ∧ i ≠ p := by
  unfold neighborSearch
  apply foldlM_list_inv _ (fun c : List α × List Int =>
    c.1.length = c.2.length ∧ ∀ i ∈ c.2, i ∈ lib ∧ i ≠ p) lib ([], [])
  · exact ⟨rfl, fun i hi => by cases hi⟩
  · intro i acc hi hinv
    by_cases hip : i = p
    · rw [if_pos hip]
      exact ⟨acc, rfl, hinv⟩
    · rw [if_neg hip]
      obtain ⟨sc, hsc⟩ := sumSqCount_ok vectors dim p i hrect hp0 hp (hlib i hi).1 (hlib i hi).2
      rw [hsc, bind_ok]
      by_cases hc : sc.2 > 0
      · rw [if_pos hc]
        refine ⟨_, rfl, by simp [hinv.1], ?_⟩
        intro x hx
        rcases List.mem_append.mp hx with h | h
        · exact hinv.2 x h
        · rw [List.mem_singleton.mp h]
          exact ⟨hi, hip⟩
      · rw [if_neg hc]
        exact ⟨acc, rfl, hinv⟩

theorem sortedNeighborIndices_length (distances : List α) :
    (sortedNeighborIndices distances).length = distances.length := by
  unfold sortedNeighborIndices
  rw [List.length_insertionSort, List.length_range]

theorem sortedNeighborIndices_lt (distances : List α) (x : Nat)
    (hx : x ∈ sortedNeighborIndices distances) : x < distances.length := by
  unfold sortedNeighborIndices at hx
  exact List.mem_range.mp ((List.perm_insertionSort _ _).mem_iff.mp hx)

theorem kernelWeights_length (ext : Externals α) (theta : Option α) (distances : List α) :
    (kernelWeights ext theta distances).length = distances.length := by
  unfold kernelWeights
  simp

theorem dadd_comm (a b : Option α) : dadd a b = dadd b a := by
  cases a <;> cases b <;> simp [dadd, add_comm]

theorem dadd_assoc (a b c : Option α) : dadd (dadd a b) c = dadd a (dadd b c) := by
  cases a <;> cases b <;> cases c <;> simp [dadd, add_assoc]

theorem dadd_zero (a : Option α) : dadd a (some 0) = a := by
  cases a <;> simp [dadd]

theorem zero_dadd (a : Option α) : dadd (some 0) a = a := by
  cases a <;> simp [dadd]

theorem dmul_comm (a b : Option α) : dmul a b = dmul b a := by
  cases a <;> cases b <;> simp [dmul, mul_comm]

theorem dmul_assoc (a b c : Option α) : dmul (dmul a b) c = dmul a (dmul b c) := by
  cases a <;> cases b <;> cases c <;> simp [dmul, mul_assoc]

theorem dmul_one (a : Option α) : dmul a (some 1) = a := by
  cases a <;> simp [dmul]

theorem one_dmul (a : Option α) : dmul (some 1) a = a := by
  cases a <;> simp [dmul]

theorem dmul_dadd (a b c : Option α) : dmul a (dadd b c) = dadd (dmul a b) (dmul a c) := by
  cases a <;> cases b <;> cases c <;> simp [dmul, dadd, mul_add]

theorem foldl_dadd (l : List (Option α)) : ∀ t : Option α, l.foldl dadd t = dadd t (dsum l) := by
  induction l with
  | nil => intro t; simp [dsum, dadd_zero]
  | cons x l ih =>
    intro t
    unfold dsum
    rw [List.foldl_cons, List.foldl_cons, ih, ih (dadd (some 0) x), zero_dadd, dadd_assoc]

theorem dsum_nil : dsum ([] : List (Option α)) = some 0 := rfl

theorem dsum_cons (x : Option α) (l : List (Option α)) : dsum (x :: l) = dadd x (dsum l) := by
  unfold dsum
  rw [List.foldl_cons, foldl_dadd, zero_dadd]
  rfl

theorem dsum_append (l₁ l₂ : List (Option α)) : dsum (l₁ ++ l₂) = dadd (dsum l₁) (dsum l₂) := by
  induction l₁ with
  | nil => simp [dsum_nil, zero_dadd]
  | cons x l ih => rw [List.cons_append, dsum_cons, dsum_cons, ih, dadd_assoc]

theorem dmul_dsum (a : Option α) (l : List (Option α)) (h : l ≠ []) :
    dmul a (dsum l) = dsum (l.map (dmul a)) := by
  induction l with
  | nil => exact absurd rfl h
  | cons x l ih =>
    rw [List.map_cons, dsum_cons, dsum_cons, dmul_dadd]
    cases l with
    | nil => cases a <;> cases x <;> simp [dsum_nil, dmul, dadd]
    | cons y l => rw [ih (by simp)]

/-- A loop `acc += g i` over `0 .. n-1` whose reads succeed. -/
theorem foldlM_accumulate (n : Nat) (body : Option α → Nat → Except Fault (Option α))
    (g : Nat → Option α) (t0 : Option α)
    (hbody : ∀ i t, i < n → body t i = .ok (dadd t (g i))) :
    (List.range n).foldlM body t0 = .ok (dadd t0 (dsum ((List.range n).map g))) := by
  obtain ⟨b, hb, hinv⟩ := foldlM_range_inv body
    (fun i b => b = dadd t0 (dsum ((List.range i).map g))) n t0
    (by simp [dsum_nil, dadd_zero])
    (by
      intro i b hi hinv
      refine ⟨_, hbody i b hi, ?_⟩
      show dadd b (g i) = dadd t0 (dsum ((List.range (i + 1)).map g))
      rw [hinv, List.range_succ, List.map_append, dsum_append, dadd_assoc]
      simp [dsum_cons, dsum_nil, dadd_zero])
  rw [hb, hinv]

theorem map_range_getElem {β γ : Type} (l : List β) (f : β → γ) (g : Nat → γ)
    (h : ∀ i (hi : i < l.length), g i = f l[i]) :
    (List.range l.length).map g = l.map f := by
  apply List.ext_getElem
  · simp
  · intro i h1 h2
    simp only [List.getElem_map, List.getElem_range]
    exact h i (by simpa using h2)

theorem buildRow_ok (vectors : List (List (Option α))) (idx : Int) (w : Option α) (dim : Nat)
    (h0 : 0 ≤ idx) (h1 : idx.toNat < vectors.length) (hlen : (vectors[idx.toNat]).length = dim) :
    (List.range dim).foldlM (fun (r : List (Option α)) j => do
        let v ← readInt vectors idx
        let c ← readNat v j
        pure (r ++ [dmul c w])) [] =
      .ok ((vectors.getD idx.toNat []).map fun c => dmul w c) := by
  obtain ⟨b, hb, hinv⟩ := foldlM_range_inv
    (fun (r : List (Option α)) j => do
        let v ← readInt vectors idx
        let c ← readNat v j
        pure (r ++ [dmul c w]))
    (fun i r => r = (List.range i).map fun j => dmul w ((vectors[idx.toNat]).getD j none))
    dim [] rfl
    (by
      intro i r hi hinv
      beta_reduce
      rw [readInt_ok vectors idx h0 h1, bind_ok, readNat_ok _ i (by omega), bind_ok]
      refine ⟨_, rfl, ?_⟩
      rw [hinv, List.range_succ, List.map_append]
      simp [List.getD_eq_getElem?_getD, List.getElem?_eq_getElem (by omega : i < (vectors[idx.toNat]).length), dmul_comm])
  rw [hb, hinv]
  congr 1
  rw [List.getD_eq_getElem?_getD, List.getElem?_eq_getElem h1, Option.getD_some, ← hlen]
  apply map_range_getElem
  intro i hi
  simp [List.getD_eq_getElem?_getD, List.getElem?_eq_getElem hi]

theorem buildSystem_ok (vectors : List (List (Option α))) (target : List (Option α))
    (valid_libs : List Int) (weights : List (Option α)) (neighbor_indices : List Nat)
    (k dim : Nat)
    (hrect : ∀ row ∈ vectors, row.length = dim)
    (hk : k ≤ neighbor_indices.length)
    (hni : ∀ ni ∈ neighbor_indices, ni < valid_libs.length ∧ ni < weights.length)
    (hvl : ∀ i ∈ valid_libs, 0 ≤ i ∧ i.toNat < vectors.length ∧ i.toNat < target.length) :
    buildSystem vectors target valid_libs weights neighbor_indices k dim =
      .ok (specDesignMatrix vectors (selectedNeighbors valid_libs weights neighbor_indices k),
        specResponse target (selectedNeighbors valid_libs weights neighbor_indices k)) := by
  unfold buildSystem
  obtain ⟨b, hb, hinv⟩ := foldlM_range_inv
    (fun (acc : List (List (Option α)) × List (Option α)) i => do
      let ni ← readNat neighbor_indices i
      let idx ← readNat valid_libs ni
      let w ← readNat weights ni
      let row ← (List.range dim).foldlM (fun (r : List (Option α)) j => do
        let v ← readInt vectors idx
        let c ← readNat v j
        pure (r ++ [dmul c w])) []
      let t ← readInt target idx
      pure (acc.1 ++ [row ++ [w]], acc.2 ++ [dmul t w]))
    (fun i acc => acc =
      (specDesignMatrix vectors (selectedNeighbors valid_libs weights neighbor_indices i),
        specResponse target (selectedNeighbors valid_libs weights neighbor_indices i)))
    k ([], []) (by simp [specDesignMatrix, specResponse, selectedNeighbors])
    (by
      intro i acc hi hinv
      beta_reduce
      have hil : i < neighbor_indices.length := by omega
      have hmem := hni _ (List.getElem_mem hil)
      have hv := hvl _ (List.getElem_mem hmem.1)
      rw [readNat_ok _ i hil, bind_ok, readNat_ok _ _ hmem.1, bind_ok,
        readNat_ok _ _ hmem.2, bind_ok,
        buildRow_ok vectors _ _ dim hv.1 hv.2.1 (hrect _ (List.getElem_mem hv.2.1)), bind_ok,
        readInt_ok target _ hv.1 hv.2.2, bind_ok]
      refine ⟨_, rfl, ?_⟩
      rw [hinv]
      simp only [specDesignMatrix, specResponse, selectedNeighbors, List.take_succ,
        List.getElem?_eq_getElem hil, Option.toList_some, List.map_append, List.map_cons,
        List.map_nil, pure, Except.pure]
      simp [List.getD_eq_getElem?_getD, List.getElem?_eq_getElem hmem.1,
        List.getElem?_eq_getElem hmem.2, List.getElem?_eq_getElem hv.2.2, dmul_one, one_dmul,
        dmul_comm])
  rw [hb, hinv]

theorem dlt_trans_false (m y x : Option α) (h1 : dlt m y = true) (h2 : dlt m x = false) :
    dlt y x = false := by
  cases m <;> cases y <;> cases x <;> simp_all [dlt]
  exact le_of_lt (lt_of_le_of_lt h2 h1)

theorem dlt_irrefl (m : Option α) : dlt m m = false := by
  cases m <;> simp [dlt]

theorem foldl_max_spec (rest : List (Option α)) :
    ∀ (m : Option α) (seen : List (Option α)), m ∈ seen → (∀ x ∈ seen, dlt m x = false) →
      rest.foldl (fun m x => if dlt m x then x else m) m ∈ seen ++ rest ∧
      ∀ x ∈ seen ++ rest, dlt (rest.foldl (fun m x => if dlt m x then x else m) m) x = false := by
  induction rest with
  | nil => intro m seen hm hs; simpa using ⟨hm, hs⟩
  | cons y rest ih =>
    intro m seen hm hs
    rw [List.foldl_cons]
    have key : (if dlt m y then y else m) ∈ seen ++ [y] ∧
        ∀ x ∈ seen ++ [y], dlt (if dlt m y then y else m) x = false := by
      by_cases hy : dlt m y = true
      · rw [if_pos hy]
        refine ⟨by simp, ?_⟩
        intro x hx
        rcases List.mem_append.mp hx with h | h
        · exact dlt_trans_false m y x hy (hs x h)
        · rw [List.mem_singleton.mp h]; exact dlt_irrefl y
      · rw [if_neg hy]
        refine ⟨by simp [hm], ?_⟩
        intro x hx
        rcases List.mem_append.mp hx with h | h
        · exact hs x h
        · rw [List.mem_singleton.mp h]; simpa using hy
    have := ih _ (seen ++ [y]) key.1 key.2
    simpa using this

theorem maxElement_ok (S : List (Option α)) (h : S ≠ []) :
    ∃ m, maxElement S = .ok m ∧ m ∈ S ∧ ∀ s ∈ S, dlt m s = false := by
  cases S with
  | nil => exact absurd rfl h
  | cons s rest =>
    have := foldl_max_spec rest s [s] (by simp) (by simp [dlt_irrefl])
    exact ⟨_, rfl, by simpa using this.1, by simpa using this.2⟩

theorem invertSingular_eq (S : List (Option α)) (max_s : Option α) :
    invertSingular S max_s = specSinv S max_s := by
  unfold invertSingular specSinv
  simp only [dmul_comm]

theorem getD_getD_eq {β : Type} (M : List (List β)) (i j : Nat) (d : β) (hi : i < M.length)
    (hj : j < (M[i]).length) : (M.getD i []).getD j d = (M[i])[j] := by
  simp [List.getD_eq_getElem?_getD, List.getElem?_eq_getElem hi, List.getElem?_eq_getElem hj]

theorem coeffEntry_ok (U : List (List (Option α))) (S_inv : List (Option α))
    (V : List (List (Option α))) (b : List (Option α)) (k : Nat)
    (hU : U ≠ []) (hUb : U.length ≤ b.length) (hUrow : ∀ u ∈ U, S_inv.length ≤ u.length)
    (hk : k < V.length) (hVrow : ∀ v ∈ V, S_inv.length ≤ v.length) :
    coeffEntry U S_inv V b k = .ok (specCoeff U S_inv V b k) := by
  unfold coeffEntry
  have hVk : S_inv.length ≤ (V[k]).length := hVrow _ (List.getElem_mem hk)
  rw [foldlM_accumulate S_inv.length _
    (fun j => dsum ((List.range U.length).map fun i =>
      dmul (dmul (dmul (entry V k j) (S_inv.getD j none))
        (entry U i j)) (b.getD i none))) (some 0)]
  · rw [zero_dadd]
    unfold specCoeff transposeMulVec
    congr 2
    apply List.map_congr_left
    intro j _
    rw [← dmul_assoc, dmul_dsum _ _ (by
      intro h
      have := congrArg List.length h
      simp at this
      exact hU this), List.map_map]
    congr 1
    apply List.map_congr_left
    intro i _
    simp only [Function.comp, dmul_assoc]
  · intro j t hj
    apply foldlM_accumulate
    intro i t' hi
    have hUi : S_inv.length ≤ (U[i]).length := hUrow _ (List.getElem_mem hi)
    rw [readNat_ok V k hk, bind_ok, readNat_ok _ j (by omega), bind_ok,
      readNat_ok S_inv j hj, bind_ok, readNat_ok U i hi, bind_ok,
      readNat_ok _ j (by omega), bind_ok, readNat_ok b i (by omega), bind_ok]
    unfold entry
    rw [getD_getD_eq V k j none hk (by omega), getD_getD_eq U i j none hi (by omega)]
    simp [List.getD_eq_getElem?_getD, List.getElem?_eq_getElem hj,
      List.getElem?_eq_getElem (by omega : i < b.length), pure, Except.pure]

theorem coefficients_ok (U : List (List (Option α))) (S_inv : List (Option α))
    (V : List (List (Option α))) (b : List (Option α)) (dim : Nat)
    (hU : U ≠ []) (hUb : U.length ≤ b.length) (hUrow : ∀ u ∈ U, S_inv.length ≤ u.length)
    (hV : V.length = dim + 1) (hVrow : ∀ v ∈ V, S_inv.length ≤ v.length) :
    ∃ coeff, coefficients U S_inv V b dim = .ok coeff ∧ coeff.length = dim + 1 ∧
      ∀ i, i < dim + 1 → coeff[i]? = some (specCoeff U S_inv V b i) := by
  unfold coefficients
  obtain ⟨c, hc, hlen, hinv⟩ := foldlM_range_inv
    (fun (coeff : List (Option α)) k => do
      let temp ← coeffEntry U S_inv V b k
      writeNat coeff k temp)
    (fun k coeff => coeff.length = dim + 1 ∧
      ∀ i, i < k → coeff[i]? = some (specCoeff U S_inv V b i))
    V.length (List.replicate (dim + 1) (some 0)) ⟨by simp, fun i hi => by omega⟩
    (by
      intro k coeff hk hinv
      beta_reduce
      rw [coeffEntry_ok U S_inv V b k hU hUb hUrow hk hVrow, bind_ok,
        writeNat_ok _ _ _ (by omega)]
      refine ⟨_, rfl, by simp [hinv.1], ?_⟩
      intro i hi
      by_cases hik : i = k
      · subst hik
        simp [List.getElem?_set, hinv.1, hV ▸ hk]
      · rw [List.getElem?_set_ne (by omega)]
        exact hinv.2 i (by omega))
  exact ⟨c, hc, hlen, fun i hi => hinv i (by omega)⟩

theorem predictionValue_ok (coeff : List (Option α)) (vectors : List (List (Option α)))
    (p : Int) (dim : Nat) (c : Nat → Option α)
    (hp0 : 0 ≤ p) (hp : p.toNat < vectors.length) (hrow : (vectors[p.toNat]).length = dim)
    (hlen : coeff.length = dim + 1) (hc : ∀ i, i < dim + 1 → coeff[i]? = some (c i)) :
    predictionValue coeff vectors p dim = .ok (specPrediction c (vectors.getD p.toNat [])) := by
  unfold predictionValue
  have hci : ∀ i (h : i < coeff.length), coeff[i] = c i := by
    intro i h
    have := hc i (by omega)
    rw [List.getElem?_eq_getElem h] at this
    exact Option.some.inj this
  rw [foldlM_accumulate dim _ (fun i => dmul (c i) ((vectors.getD p.toNat []).getD i none))
    (some 0), bind_ok, readNat_ok coeff dim (by omega), bind_ok]
  · unfold specPrediction
    have hq : (vectors.getD p.toNat []).length = dim := by
      rw [List.getD_eq_getElem?_getD, List.getElem?_eq_getElem hp, Option.getD_some, hrow]
    rw [zero_dadd, hq, hci dim (by omega)]
    rfl
  · intro i t hi
    rw [readNat_ok coeff i (by omega), bind_ok, readInt_ok vectors p hp0 hp, bind_ok,
      readNat_ok _ i (by omega), bind_ok, hci i (by omega),
      getD_getD_eq vectors p.toNat i none hp (by omega)]
    rfl

theorem predictAt_none (ext : Externals α) (vectors : List (List (Option α)))
    (target : List (Option α)) (lib : List Int) (nn : Int) (theta : Option α) (p : Int)
    (found : List α × List Int) (hfound : neighborSearch ext vectors lib p = .ok found)
    (hempty : found.1 = []) :
    predictAt ext vectors target lib nn theta p = .ok none := by
  unfold predictAt
  rw [hfound, bind_ok]
  simp [hempty]
  rfl

theorem predictAt_some (ext : Externals α) (vectors : List (List (Option α)))
    (target : List (Option α)) (lib : List Int) (nn : Int) (theta : Option α) (p : Int)
    (dim : Nat) (found : List α × List Int)
    (hrect : ∀ row ∈ vectors, row.length = dim)
    (hp0 : 0 ≤ p) (hp : p.toNat < vectors.length)
    (hnn : 0 < nn)
    (hfound : neighborSearch ext vectors lib p = .ok found)
    (hlen : found.1.length = found.2.length)
    (hvl : ∀ i ∈ found.2, 0 ≤ i ∧ i.toNat < vectors.length ∧ i.toNat < target.length)
    (hne : found.1 ≠ [])
    (hsvd : SVDShaped (ext.CppSVD (specDesignMatrix vectors (queryNeighbors ext theta nn found)))
        (min nn.toNat found.1.length) (dim + 1)) :
    ∃ max_s,
      max_s ∈ (ext.CppSVD (specDesignMatrix vectors (queryNeighbors ext theta nn found))).S ∧
      (∀ s ∈ (ext.CppSVD (specDesignMatrix vectors (queryNeighbors ext theta nn found))).S,
        dlt max_s s = false) ∧
      predictAt ext vectors target lib nn theta p = .ok (some (specLocalPrediction ext vectors
        target (queryNeighbors ext theta nn found) max_s (vectors.getD p.toNat []))) := by
  unfold specLocalPrediction queryNeighbors
  unfold queryNeighbors at hsvd
  obtain ⟨hS, hU, hV, hUrow, hVrow⟩ := hsvd
  obtain ⟨max_s, hmax, hmem, hgreatest⟩ := maxElement_ok _ hS
  refine ⟨max_s, hmem, hgreatest, ?_⟩
  have hkpos : 0 < min nn.toNat found.1.length := by
    have : 0 < found.1.length := List.length_pos.mpr hne
    omega
  have hb : (specResponse target
      (selectedNeighbors found.2 (kernelWeights ext theta found.1)
        (sortedNeighborIndices found.1) (min nn.toNat found.1.length))).length =
      min nn.toNat found.1.length := by
    simp [specResponse, selectedNeighbors, sortedNeighborIndices_length]
  have hUne : (ext.CppSVD (specDesignMatrix vectors
      (selectedNeighbors found.2 (kernelWeights ext theta found.1)
        (sortedNeighborIndices found.1) (min nn.toNat found.1.length)))).U ≠ [] := by
    intro h
    rw [h] at hU
    simp at hU
    omega
  have hSlen : ∀ S m, (specSinv (α := α) S m).length = S.length := by
    intro S m; simp [specSinv]
  obtain ⟨coeff, hcoeff, hclen, hcent⟩ := coefficients_ok _ (specSinv _ max_s) _
    (specResponse target
      (selectedNeighbors found.2 (kernelWeights ext theta found.1)
        (sortedNeighborIndices found.1) (min nn.toNat found.1.length))) dim hUne
    (by rw [hU, hb]) (by rw [hSlen]; exact hUrow) hV (by rw [hSlen]; exact hVrow)
  unfold predictAt
  rw [hfound, bind_ok]
  have hemp : found.1.isEmpty = false := by
    cases h : found.1 with
    | nil => exact absurd h hne
    | cons _ _ => rfl
  simp only [hemp, Bool.false_eq_true, if_false]
  rw [readInt_ok vectors p hp0 hp, bind_ok, hrect _ (List.getElem_mem hp),
    buildSystem_ok vectors target found.2 _ _ _ dim hrect
      (by rw [sortedNeighborIndices_length]; omega)
      (by
        intro ni hni
        have := sortedNeighborIndices_lt _ ni hni
        rw [kernelWeights_length]
        omega)
      hvl,
    bind_ok, hmax, bind_ok, invertSingular_eq, hcoeff, bind_ok,
    predictionValue_ok coeff vectors p dim _ hp0 hp (hrect _ (List.getElem_mem hp)) hclen hcent,
    bind_ok]
  rfl

theorem specDesignMatrix_shape (vectors : List (List (Option α))) (dim : Nat)
    (nbrs : List (Int × Option α))
    (hrect : ∀ row ∈ vectors, row.length = dim)
    (hn : ∀ nw ∈ nbrs, nw.1.toNat < vectors.length) :
    (specDesignMatrix vectors nbrs).length = nbrs.length ∧
      ∀ row ∈ specDesignMatrix vectors nbrs, row.length = dim + 1 := by
  unfold specDesignMatrix
  refine ⟨by simp, ?_⟩
  intro row hrow
  obtain ⟨nw, hnw, rfl⟩ := List.mem_map.mp hrow
  have h := hn nw hnw
  simp [List.getD_eq_getElem?_getD, List.getElem?_eq_getElem h, hrect _ (List.getElem_mem h)]

theorem queryNeighbors_length (ext : Externals α) (theta : Option α) (nn : Int)
    (found : List α × List Int) :
    (queryNeighbors ext theta nn found).length = min nn.toNat found.1.length := by
  simp [queryNeighbors, selectedNeighbors, sortedNeighborIndices_length]

theorem queryNeighbors_mem (ext : Externals α) (theta : Option α) (nn : Int)
    (found : List α × List Int) (hlen : found.1.length = found.2.length)
    (nw : Int × Option α) (h : nw ∈ queryNeighbors ext theta nn found) : nw.1 ∈ found.2 := by
  unfold queryNeighbors selectedNeighbors at h
  obtain ⟨ni, hni, rfl⟩ := List.mem_map.mp h
  have hlt := sortedNeighborIndices_lt _ ni (List.mem_of_mem_take hni)
  have h2 : ni < found.2.length := by omega
  simp only [List.getD_eq_getElem?_getD, List.getElem?_eq_getElem h2, Option.getD_some]
  exact List.getElem_mem h2

/-- Every iteration of the loop over `pred_indices` completes for a call with
in-range indices. -/
theorem predictAt_inRange (ext : Externals α) (vectors : List (List (Option α)))
    (target : List (Option α)) (lib pred : List Int) (nn : Int) (theta : Option α)
    (dim : Nat) (p : Int) (hnn : 0 < nn)
    (hwf : InRange vectors target lib pred dim) (hsvd : SVDShapedOn ext dim)
    (hp : p ∈ pred) :
    ∃ found, neighborSearch ext vectors lib p = .ok found ∧
      (found.1 = [] → predictAt ext vectors target lib nn theta p = .ok none) ∧
      (found.1 ≠ [] → ∃ max_s,
        max_s ∈ (ext.CppSVD (specDesignMatrix vectors (queryNeighbors ext theta nn found))).S ∧
        (∀ s ∈ (ext.CppSVD (specDesignMatrix vectors (queryNeighbors ext theta nn found))).S,
          dlt max_s s = false) ∧
        predictAt ext vectors target lib nn theta p = .ok (some (specLocalPrediction ext
          vectors target (queryNeighbors ext theta nn found) max_s
          (vectors.getD p.toNat [])))) := by
  obtain ⟨hrect, hlib, hpred⟩ := hwf
  have hpr := hpred p hp
  obtain ⟨found, hfound, hlen, hmem⟩ := neighborSearch_ok ext vectors dim lib p hrect hpr.1
    (by omega) (fun i hi => ⟨(hlib i hi).1, by have := hlib i hi; omega⟩)
  refine ⟨found, hfound, predictAt_none ext vectors target lib nn theta p found hfound, ?_⟩
  intro hne
  have hvl : ∀ i ∈ found.2, 0 ≤ i ∧ i.toNat < vectors.length ∧ i.toNat < target.length := by
    intro i hi
    have := hlib i (hmem i hi).1
    omega
  have hshape := specDesignMatrix_shape vectors dim (queryNeighbors ext theta nn found) hrect
    (fun nw hnw => (hvl _ (queryNeighbors_mem ext theta nn found hlen nw hnw)).2.1)
  have hk : 0 < min nn.toNat found.1.length := by
    have : 0 < found.1.length := List.length_pos.mpr hne
    omega
  have hA : specDesignMatrix vectors (queryNeighbors ext theta nn found) ≠ [] := by
    intro h
    have := hshape.1
    rw [h, queryNeighbors_length] at this
    simp at this
    omega
  have hs := hsvd _ hA hshape.2
  rw [hshape.1, queryNeighbors_length] at hs
  exact predictAt_some ext vectors target lib nn theta p dim found hrect hpr.1 (by omega) hnn
    hfound hlen hvl hne hs

theorem SMapPrediction_eq_fold (ext : Externals α) (vectors : List (List (Option α)))
    (target : List (Option α)) (lib pred : List Int) (nn : Int) (theta : Option α)
    (hnn : 0 < nn) (hlib : lib ≠ []) (hpred : pred ≠ []) :
    SMapPrediction ext vectors target lib pred nn theta =
      pred.foldlM (storeStep (predictAt ext vectors target lib nn theta))
        (List.replicate target.length none) := by
  unfold SMapPrediction
  have h : ¬ (nn ≤ 0 ∨ lib.isEmpty = true ∨ pred.isEmpty = true) := by
    simp only [List.isEmpty_iff]
    rintro (h | h | h)
    · omega
    · exact hlib h
    · exact hpred h
  simp only [h, if_false]
  congr 1
  funext pred0 p
  unfold storeStep
  cases predictAt ext vectors target lib nn theta p with
  | error e => rfl
  | ok r => cases r <;> rfl

theorem storedEntry_congr {β : Type} (f : Int → Except Fault (Option β)) (P Q : List Int)
    (h : ∀ x, x ∈ P ↔ x ∈ Q) (old : β) (i : Nat) :
    storedEntry f P old i = storedEntry f Q old i := by
  unfold storedEntry
  by_cases hi : (i : Int) ∈ P
  · rw [if_pos hi, if_pos ((h _).mp hi)]
  · rw [if_neg hi, if_neg (fun hq => hi ((h _).mpr hq))]

/-- The result of the loop over `pred_indices` depends on the set of indices
only. -/
theorem foldlM_storeStep_congr {β : Type} (f : Int → Except Fault (Option β)) (P Q : List Int)
    (h : ∀ x, x ∈ P ↔ x ∈ Q) (pred0 : List β) :
    P.foldlM (storeStep f) pred0 = Q.foldlM (storeStep f) pred0 := by
  by_cases hf : ∃ p ∈ P, iterationFaults f pred0.length p
  · rw [foldlM_storeStep_error f P pred0 hf]
    obtain ⟨p, hp, hfault⟩ := hf
    rw [foldlM_storeStep_error f Q pred0 ⟨p, (h p).mp hp, hfault⟩]
  · have hP : ∀ p ∈ P, ¬ iterationFaults f pred0.length p := fun p hp hx => hf ⟨p, hp, hx⟩
    have hQ : ∀ p ∈ Q, ¬ iterationFaults f pred0.length p :=
      fun p hp hx => hf ⟨p, (h p).mpr hp, hx⟩
    obtain ⟨r, hr, hlen, hent⟩ := foldlM_storeStep_ok f P pred0 hP
    obtain ⟨r', hr', hlen', hent'⟩ := foldlM_storeStep_ok f Q pred0 hQ
    rw [hr, hr']
    congr 1
    apply List.ext_getElem?
    intro i
    by_cases hi : i < pred0.length
    · rw [hent i hi, hent' i hi, storedEntry_congr f P Q h]
    · rw [List.getElem?_eq_none (by omega), List.getElem?_eq_none (by omega)]

/-- A completed loop over `pred_indices` has run no faulting iteration and has
left `storedEntry` in every slot. -/
theorem foldlM_storeStep_of_ok {β : Type} (f : Int → Except Fault (Option β)) (P : List Int)
    (pred0 r : List β) (h : P.foldlM (storeStep f) pred0 = .ok r) :
    (∀ p ∈ P, ¬ iterationFaults f pred0.length p) ∧ r.length = pred0.length ∧
      ∀ i (hi : i < pred0.length), r[i]? = some (storedEntry f P pred0[i] i) := by
  have hP : ∀ p ∈ P, ¬ iterationFaults f pred0.length p := by
    intro p hp hx
    rw [foldlM_storeStep_error f P pred0 ⟨p, hp, hx⟩] at h
    cases h
  obtain ⟨r', hr', hlen, hent⟩ := foldlM_storeStep_ok f P pred0 hP
  rw [hr'] at h
  cases h
  exact ⟨hP, hlen, hent⟩

/-- `SMapPrediction` consults `sqrt`, `exp` and `CppSVD` only. -/
theorem SMapPrediction_congr_ext (ext ext' : Externals α)
    (h1 : ext'.sqrt = ext.sqrt) (h2 : ext'.exp = ext.exp) (h3 : ext'.CppSVD = ext.CppSVD)
    (vectors : List (List (Option α))) (target : List (Option α)) (lib pred : List Int)
    (nn : Int) (theta : Option α) :
    SMapPrediction ext' vectors target lib pred nn theta =
      SMapPrediction ext vectors target lib pred nn theta := by
  simp only [SMapPrediction, predictAt, neighborSearch, kernelWeights, h1, h2, h3]

theorem filter_isSome_length_le {β : Type} (r : List (Option β)) (P : List Int)
    (h : ∀ i (hi : i < r.length), r[i] ≠ none → (i : Int) ∈ P) :
    (r.filter fun x => x.isSome).length ≤ P.dedup.length := by
  have hr : r = (List.range r.length).map fun i => r.getD i none := by
    apply List.ext_getElem
    · simp
    · intro i h1 h2
      simp [List.getD_eq_getElem?_getD, List.getElem?_eq_getElem h1]
  have hlen : (r.filter fun x => x.isSome).length =
      ((List.range r.length).filter fun i => (r.getD i none).isSome).length := by
    conv_lhs => rw [hr]
    rw [List.filter_map, List.length_map]
    rfl
  rw [hlen]
  have hnd : ((List.range r.length).filter fun i => (r.getD i none).isSome).Nodup :=
    (List.nodup_range _).filter _
  have hnd' : (((List.range r.length).filter fun i => (r.getD i none).isSome).map
      fun i : Nat => (i : Int)).Nodup :=
    hnd.map (fun a b hab => by exact_mod_cast hab)
  have hsub : (((List.range r.length).filter fun i => (r.getD i none).isSome).map
      fun i : Nat => (i : Int)) ⊆ P.dedup := by
    intro x hx
    obtain ⟨i, hi, rfl⟩ := List.mem_map.mp hx
    obtain ⟨hi1, hi2⟩ := List.mem_filter.mp hi
    have hil := List.mem_range.mp hi1
    rw [List.mem_dedup]
    apply h i hil
    intro hn
    simp [List.getD_eq_getElem?_getD, List.getElem?_eq_getElem hil, hn] at hi2
  have := (hnd'.subperm hsub).length_le
  simpa using this

theorem SMapPrediction_some_mem (ext : Externals α) (vectors : List (List (Option α)))
    (target : List (Option α)) (lib pred : List Int) (nn : Int) (theta : Option α)
    (r : List (Option α)) (hr : SMapPrediction ext vectors target lib pred nn theta = .ok r) :
    ∀ i (hi : i < r.length), r[i] ≠ none → (i : Int) ∈ pred := by
  intro i hi hne
  by_cases hdeg : nn ≤ 0 ∨ lib = [] ∨ pred = []
  · exfalso
    apply hne
    unfold SMapPrediction at hr
    have h' : nn ≤ 0 ∨ lib.isEmpty = true ∨ pred.isEmpty = true := by
      simpa only [List.isEmpty_iff] using hdeg
    simp only [h', if_true] at hr
    cases hr
    simp
  · have hnn : 0 < nn := by by_contra hn; exact hdeg (Or.inl (by omega))
    have hlib : lib ≠ [] := fun h => hdeg (Or.inr (Or.inl h))
    have hpred : pred ≠ [] := fun h => hdeg (Or.inr (Or.inr h))
    rw [SMapPrediction_eq_fold ext vectors target lib pred nn theta hnn hlib hpred] at hr
    obtain ⟨-, hlen, hent⟩ := foldlM_storeStep_of_ok _ pred _ r hr
    by_contra hni
    have := hent i (by omega)
    rw [List.getElem?_eq_getElem hi] at this
    simp [storedEntry, hni] at this
    exact hne this

/-- A non-degenerate call with in-range indices returns, and every slot of the
result is the `storedEntry` of the loop. -/
theorem SMapPrediction_inRange (ext : Externals α) (vectors : List (List (Option α)))
    (target : List (Option α)) (lib pred : List Int) (nn : Int) (theta : Option α)
    (dim : Nat) (hnn : 0 < nn) (hlib : lib ≠ []) (hpred : pred ≠ [])
    (hwf : InRange vectors target lib pred dim) (hsvd : SVDShapedOn ext dim) :
    ∃ r, SMapPrediction ext vectors target lib pred nn theta = .ok r ∧
      r.length = target.length ∧
      ∀ i, i < target.length →
        r[i]? = some (storedEntry (predictAt ext vectors target lib nn theta) pred none i) := by
  have hok : ∀ q ∈ pred, ¬ iterationFaults (predictAt ext vectors target lib nn theta)
      (List.replicate target.length (none : Option α)).length q := by
    intro q hq hfault
    obtain ⟨fq, -, hnone, hsome⟩ :=
      predictAt_inRange ext vectors target lib pred nn theta dim q hnn hwf hsvd hq
    have hr := hwf.2.2 q hq
    rcases hfault with he | ⟨v, -, hv⟩
    · by_cases hf : fq.1 = []
      · rw [hnone hf] at he; cases he
      · obtain ⟨m, -, -, hm⟩ := hsome hf
        rw [hm] at he; cases he
    · apply hv
      simp only [List.length_replicate]
      omega
  obtain ⟨r, hr, hlen, hent⟩ := foldlM_storeStep_ok
    (predictAt ext vectors target lib nn theta) pred (List.replicate target.length none) hok
  refine ⟨r, by rw [SMapPrediction_eq_fold ext vectors target lib pred nn theta hnn hlib hpred,
    hr], by simpa using hlen, ?_⟩
  intro i hi
  have hei := hent i (by simpa using hi)
  simpa only [List.getElem_replicate] using hei

/-- The value stored for a prediction index with at least one selected
neighbour, in a call with in-range indices. -/
theorem SMapPrediction_stored (ext : Externals α) (vectors : List (List (Option α)))
    (target : List (Option α)) (lib pred : List Int) (nn : Int) (theta : Option α)
    (dim : Nat) (p : Nat) (found : List α × List Int)
    (hnn : 0 < nn) (hwf : InRange vectors target lib pred dim) (hsvd : SVDShapedOn ext dim)
    (hp : (p : Int) ∈ pred)
    (hfound : neighborSearch ext vectors lib (p : Int) = .ok found)
    (hk : 1 ≤ (queryNeighbors ext theta nn found).length) :
    ∃ max_s,
      max_s ∈ (ext.CppSVD (specDesignMatrix vectors (queryNeighbors ext theta nn found))).S ∧
      (∀ s ∈ (ext.CppSVD (specDesignMatrix vectors (queryNeighbors ext theta nn found))).S,
        dlt max_s s = false) ∧
      predictAt ext vectors target lib nn theta (p : Int) =
        .ok (some (specLocalPrediction ext vectors target
          (queryNeighbors ext theta nn found) max_s (vectors.getD p []))) ∧
      ∃ r, SMapPrediction ext vectors target lib pred nn theta = .ok r ∧
        r[p]? = some (specLocalPrediction ext vectors target
          (queryNeighbors ext theta nn found) max_s (vectors.getD p [])) := by
  have hne : found.1 ≠ [] := by
    intro h
    rw [queryNeighbors_length, h] at hk
    simp at hk
  obtain ⟨found', hfound', -, hsome⟩ := predictAt_inRange ext vectors target lib
    pred nn theta dim p hnn hwf hsvd hp
  rw [hfound] at hfound'
  cases hfound'
  obtain ⟨max_s, hmem, hmax, hval⟩ := hsome hne
  rw [Int.toNat_ofNat] at hval
  refine ⟨max_s, hmem, hmax, hval, ?_⟩
  have hlib : lib ≠ [] := by
    intro h
    rw [h] at hfound
    cases hfound
    exact hne rfl
  obtain ⟨r, hr, -, hent⟩ := SMapPrediction_inRange ext vectors target lib pred nn theta dim
    hnn hlib (List.ne_nil_of_mem hp) hwf hsvd
  refine ⟨r, hr, ?_⟩
  rw [hent p (by have := hwf.2.2 p hp; omega)]
  simp [storedEntry, hp, hval]

open Finset in
theorem pinv_core (m n : ℕ) (u : ℕ → ℕ → α) (s : ℕ → α)
    (v : ℕ → ℕ → α) (a : ℕ → ℕ → α) (c : ℕ → α)
    (hA : ∀ i, i < m → ∀ l, l < n → a i l = ∑ j ∈ range n, u i j * s j * v l j)
    (hU : ∀ j, j < n → ∀ j', j' < n → ∑ i ∈ range m, u i j * u i j' = if j = j' then 1 else 0)
    (hV : ∀ k, k < n → ∀ l, l < n → ∑ j ∈ range n, v k j * v l j = if k = l then 1 else 0)
    (hs : ∀ j, j < n → s j ≠ 0) (k : ℕ) (hk : k < n) :
    ∑ j ∈ range n, v k j * ((1 / s j) * ∑ i ∈ range m, u i j * ∑ l ∈ range n, a i l * c l)
      = c k := by
  have h1 : ∀ j, j < n → ∑ i ∈ range m, u i j * ∑ l ∈ range n, a i l * c l =
      s j * ∑ l ∈ range n, v l j * c l := by
    intro j hj
    have e1 : ∀ i ∈ range m, u i j * ∑ l ∈ range n, a i l * c l =
        ∑ l ∈ range n, ∑ j' ∈ range n, (u i j * u i j') * (s j' * v l j' * c l) := by
      intro i hi
      rw [mul_sum]
      apply sum_congr rfl
      intro l hl
      rw [hA i (mem_range.mp hi) l (mem_range.mp hl), sum_mul, mul_sum]
      apply sum_congr rfl
      intro j' _
      ring
    rw [sum_congr rfl e1, sum_comm]
    have e2 : ∀ l ∈ range n, ∑ i ∈ range m, ∑ j' ∈ range n,
        (u i j * u i j') * (s j' * v l j' * c l) = s j * (v l j * c l) := by
      intro l _
      rw [sum_comm]
      have e3 : ∀ j' ∈ range n, ∑ i ∈ range m, (u i j * u i j') * (s j' * v l j' * c l) =
          (if j = j' then 1 else 0) * (s j' * v l j' * c l) := by
        intro j' hj'
        rw [← sum_mul, hU j hj j' (mem_range.mp hj')]
      rw [sum_congr rfl e3]
      simp only [ite_mul, one_mul, zero_mul]
      rw [sum_ite_eq (range n) j]
      simp [mem_range.mpr hj]
      ring
    rw [sum_congr rfl e2, ← mul_sum]
  have h2 : ∀ j ∈ range n,
      v k j * ((1 / s j) * ∑ i ∈ range m, u i j * ∑ l ∈ range n, a i l * c l) =
        ∑ l ∈ range n, (v k j * v l j) * c l := by
    intro j hj
    rw [h1 j (mem_range.mp hj)]
    have := hs j (mem_range.mp hj)
    rw [show (1 / s j) * (s j * ∑ l ∈ range n, v l j * c l) = ∑ l ∈ range n, v l j * c l by
      field_simp]
    rw [mul_sum]
    apply sum_congr rfl
    intro l _
    ring
  rw [sum_congr rfl h2, sum_comm]
  have h3 : ∀ l ∈ range n, ∑ j ∈ range n, (v k j * v l j) * c l =
      (if k = l then 1 else 0) * c l := by
    intro l hl
    rw [← sum_mul, hV k hk l (mem_range.mp hl)]
  rw [sum_congr rfl h3]
  simp only [ite_mul, one_mul, zero_mul]
  rw [sum_ite_eq (range n) k]
  simp [mem_range.mpr hk]

theorem dsum_map_some (n : Nat) (f : Nat → α) :
    dsum ((List.range n).map fun i => some (f i)) = some (∑ i ∈ Finset.range n, f i) := by
  induction n with
  | zero => rfl
  | succ n ih =>
    rw [List.range_succ, List.map_append, dsum_append, ih, Finset.sum_range_succ]
    simp [dsum_cons, dsum_nil, dadd]

/-- A sum over `0 .. n-1` whose terms are numbers. -/
theorem dsum_map_eq_some (n : Nat) (g : Nat → Option α) (f : Nat → α)
    (h : ∀ i, i < n → g i = some (f i)) :
    dsum ((List.range n).map g) = some (∑ i ∈ Finset.range n, f i) := by
  rw [← dsum_map_some]
  congr 1
  apply List.map_congr_left
  intro i hi
  exact h i (List.mem_range.mp hi)

theorem dsum_isSome (l : List (Option α)) (x : α) (h : dsum l = some x) :
    ∀ y ∈ l, ∃ z, y = some z := by
  induction l generalizing x with
  | nil => intro y hy; cases hy
  | cons a l ih =>
    intro y hy
    rw [dsum_cons] at h
    cases a with
    | none => simp [dadd] at h
    | some a' =>
      cases hl : dsum l with
      | none => rw [hl] at h; simp [dadd] at h
      | some x' =>
        rcases List.mem_cons.mp hy with rfl | hy'
        · exact ⟨a', rfl⟩
        · exact ih x' hl y hy'

theorem dmul_isSome (a b : Option α) (z : α) (h : dmul a b = some z) :
    (∃ x, a = some x) ∧ ∃ y, b = some y := by
  cases a <;> cases b <;> simp [dmul] at h ⊢

theorem dge_isSome (a b : Option α) (h : dge a b = true) : ∃ x, a = some x := by
  cases a <;> cases b <;> simp [dge] at h ⊢

theorem eq_some_getD (e : Option α) (h : ∃ x, e = some x) : e = some (e.getD 0) := by
  obtain ⟨x, rfl⟩ := h
  rfl

theorem specSinv_getD (S : List (Option α)) (max_s : Option α) (j : Nat) (x : α)
    (hj : j < S.length) (hx : S.getD j none = some x) (h0 : x ≠ 0)
    (hge : dge (S.getD j none) (dmul (some tol) max_s) = true) :
    (specSinv S max_s).getD j none = some (1 / x) := by
  unfold specSinv
  have hS : S[j] = some x := by
    simpa [List.getD_eq_getElem?_getD, List.getElem?_eq_getElem hj] using hx
  have hge' : dge (some x) (dmul (some tol) max_s) = true := by rw [← hx]; exact hge
  simp [List.getD_eq_getElem?_getD, List.getElem?_map, List.getElem?_eq_getElem hj, hS, hge',
    ddiv, h0]

/-- With an exact SVD of full column rank and no singular value under the
threshold, the coefficients of a response `b = A · c` are `c`. -/
theorem specCoeff_exact (A : List (List (Option α))) (b : List (Option α)) (r : SVDResult α)
    (m n : Nat) (c : Nat → α) (max_s : Option α)
    (hUlen : r.U.length = m)
    (hsvd : IsSVD A r m n)
    (hthr : ∀ j, j < n → r.S.getD j none ≠ some 0 ∧
      dge (r.S.getD j none) (dmul (some tol) max_s) = true)
    (hb : ∀ i, i < m → b.getD i none =
      dsum ((List.range n).map fun l => dmul (entry A i l) (some (c l))))
    (k : Nat) (hk : k < n) :
    specCoeff r.U (specSinv r.S max_s) r.V b k = some (c k) := by
  obtain ⟨hSlen, hA, hUo, hVo⟩ := hsvd
  have hu : ∀ i, i < m → ∀ j, j < n → entry r.U i j = some ((entry r.U i j).getD 0) := by
    intro i hi j hj
    apply eq_some_getD
    have h1 := hUo j hj j hj
    obtain ⟨z, hz⟩ := dsum_isSome _ _ h1 (dmul (entry r.U i j) (entry r.U i j))
      (List.mem_map.mpr ⟨i, List.mem_range.mpr hi, rfl⟩)
    exact (dmul_isSome _ _ z hz).1
  have hv : ∀ l, l < n → ∀ j, j < n → entry r.V l j = some ((entry r.V l j).getD 0) := by
    intro l hl j hj
    apply eq_some_getD
    have h1 := hVo l hl l hl
    obtain ⟨z, hz⟩ := dsum_isSome _ _ h1 (dmul (entry r.V l j) (entry r.V l j))
      (List.mem_map.mpr ⟨j, List.mem_range.mpr hj, rfl⟩)
    exact (dmul_isSome _ _ z hz).1
  have hs : ∀ j, j < n → r.S.getD j none = some ((r.S.getD j none).getD 0) := by
    intro j hj
    exact eq_some_getD _ (dge_isSome _ _ (hthr j hj).2)
  have hs0 : ∀ j, j < n → (r.S.getD j none).getD 0 ≠ 0 := by
    intro j hj h0
    apply (hthr j hj).1
    rw [hs j hj, h0]
  have ha : ∀ i, i < m → ∀ l, l < n → entry A i l =
      some (∑ j ∈ Finset.range n,
        (entry r.U i j).getD 0 * (r.S.getD j none).getD 0 * (entry r.V l j).getD 0) := by
    intro i hi l hl
    rw [hA i hi l hl]
    apply dsum_map_eq_some
    intro j hj
    rw [hu i hi j hj, hs j hj, hv l hl j hj]
    simp [dmul]
  have hb' : ∀ i, i < m → b.getD i none = some (∑ l ∈ Finset.range n,
      (∑ j ∈ Finset.range n,
        (entry r.U i j).getD 0 * (r.S.getD j none).getD 0 * (entry r.V l j).getD 0) * c l) := by
    intro i hi
    rw [hb i hi]
    apply dsum_map_eq_some
    intro l hl
    rw [ha i hi l hl]
    simp [dmul]
  unfold specCoeff
  have hlen : (specSinv r.S max_s).length = n := by simp [specSinv, hSlen]
  rw [hlen, dsum_map_eq_some n _ (fun j => (entry r.V k j).getD 0 *
    ((1 / (r.S.getD j none).getD 0) * ∑ i ∈ Finset.range m, (entry r.U i j).getD 0 *
      ∑ l ∈ Finset.range n, (∑ j' ∈ Finset.range n,
        (entry r.U i j').getD 0 * (r.S.getD j' none).getD 0 * (entry r.V l j').getD 0) * c l))]
  · congr 1
    exact pinv_core m n (fun i j => (entry r.U i j).getD 0) (fun j => (r.S.getD j none).getD 0)
      (fun l j => (entry r.V l j).getD 0)
      (fun i l => ∑ j ∈ Finset.range n,
        (entry r.U i j).getD 0 * (r.S.getD j none).getD 0 * (entry r.V l j).getD 0) c
      (fun i _ l _ => rfl)
      (by
        intro j hj j' hj'
        have h1 := hUo j hj j' hj'
        rw [dsum_map_eq_some m _ (fun i => (entry r.U i j).getD 0 * (entry r.U i j').getD 0)
          (by
            intro i hi
            rw [hu i hi j hj, hu i hi j' hj']
            simp [dmul])] at h1
        exact Option.some.inj h1)
      (by
        intro k' hk' l hl
        have h1 := hVo k' hk' l hl
        rw [dsum_map_eq_some n _ (fun j => (entry r.V k' j).getD 0 * (entry r.V l j).getD 0)
          (by
            intro j hj
            rw [hv k' hk' j hj, hv l hl j hj]
            simp [dmul])] at h1
        exact Option.some.inj h1)
      hs0 k hk
  · intro j hj
    have ht : transposeMulVec r.U b j = some (∑ i ∈ Finset.range m, (entry r.U i j).getD 0 *
        ∑ l ∈ Finset.range n, (∑ j' ∈ Finset.range n,
          (entry r.U i j').getD 0 * (r.S.getD j' none).getD 0 * (entry r.V l j').getD 0) * c l) := by
      unfold transposeMulVec
      rw [hUlen]
      apply dsum_map_eq_some
      intro i hi
      rw [hu i hi j hj, hb' i hi]
      simp [dmul]
    rw [ht, specSinv_getD r.S max_s j _ (by omega) (hs j hj) (hs0 j hj) (hthr j hj).2,
      hv k hk j hj]
    simp [dmul]

theorem getD_map_append_lt {β : Type} (row : List (Option β)) (f : Option β → Option β)
    (x : Option β)
    (l : Nat) (hl : l < row.length) :
    ((row.map f) ++ [x]).getD l none = f (row.getD l none) := by
  rw [List.getD_eq_getElem?_getD, List.getElem?_append_left (by rw [List.length_map]; exact hl),
    List.getElem?_map, List.getElem?_eq_getElem hl, List.getD_eq_getElem?_getD,
    List.getElem?_eq_getElem hl]
  rfl

theorem getD_map_append_length {β : Type} (row : List (Option β)) (f : Option β → Option β)
    (x : Option β) : ((row.map f) ++ [x]).getD row.length none = x := by
  rw [List.getD_eq_getElem?_getD,
    List.getElem?_append_right (by rw [List.length_map]), List.length_map]
  simp

theorem specDesignMatrix_getD (vectors : List (List (Option α)))
    (nbrs : List (Int × Option α)) (i : Nat) (hi : i < nbrs.length) :
    (specDesignMatrix vectors nbrs).getD i [] =
      ((vectors.getD nbrs[i].1.toNat []).map fun c => dmul nbrs[i].2 c) ++
        [dmul nbrs[i].2 (some 1)] := by
  unfold specDesignMatrix
  rw [List.getD_eq_getElem?_getD, List.getElem?_map, List.getElem?_eq_getElem hi]
  rfl

theorem entry_specDesignMatrix_lt (vectors : List (List (Option α)))
    (nbrs : List (Int × Option α)) (dim i l : Nat) (hi : i < nbrs.length)
    (hrow : (vectors.getD nbrs[i].1.toNat []).length = dim) (hl : l < dim) :
    entry (specDesignMatrix vectors nbrs) i l =
      dmul nbrs[i].2 (entry vectors nbrs[i].1.toNat l) := by
  unfold entry
  rw [specDesignMatrix_getD vectors nbrs i hi, getD_map_append_lt _ _ _ l (by omega)]

theorem entry_specDesignMatrix_bias (vectors : List (List (Option α)))
    (nbrs : List (Int × Option α)) (dim i : Nat) (hi : i < nbrs.length)
    (hrow : (vectors.getD nbrs[i].1.toNat []).length = dim) :
    entry (specDesignMatrix vectors nbrs) i dim = dmul nbrs[i].2 (some 1) := by
  unfold entry
  rw [specDesignMatrix_getD vectors nbrs i hi, ← hrow, getD_map_append_length]

theorem specResponse_getD (target : List (Option α)) (nbrs : List (Int × Option α)) (i : Nat)
    (hi : i < nbrs.length) :
    (specResponse target nbrs).getD i none =
      dmul nbrs[i].2 (target.getD nbrs[i].1.toNat none) := by
  unfold specResponse
  rw [List.getD_eq_getElem?_getD, List.getElem?_map, List.getElem?_eq_getElem hi]
  rfl

theorem kernelWeights_theta_zero (ext : Externals α) (distances : List α) :
    kernelWeights ext (some 0) distances = distances.map fun _ =>
      if distances.foldl (· + ·) 0 / (distances.length : α) = 0 then none
      else some (ext.exp 0) := by
  unfold kernelWeights
  apply List.map_congr_left
  intro d _
  by_cases h : distances.foldl (· + ·) 0 / (distances.length : α) = 0
  · simp [dneg, dmul, ddiv, h]
  · simp [dneg, dmul, ddiv, h]

theorem kernelWeights_theta_zero_getD (ext : Externals α) (distances : List α) (ni : Nat)
    (h : ni < distances.length) :
    (kernelWeights ext (some 0) distances).getD ni none =
      if distances.foldl (· + ·) 0 / (distances.length : α) = 0 then none
      else some (ext.exp 0) := by
  rw [kernelWeights_theta_zero, List.getD_eq_getElem?_getD, List.getElem?_map,
    List.getElem?_eq_getElem h]
  rfl

theorem queryNeighbors_getElem (ext : Externals α) (nn : Int) (found : List α × List Int)
    (hlen : found.1.length = found.2.length) (i : Nat)
    (hi : i < (queryNeighbors ext (some 0) nn found).length) :
    (queryNeighbors ext (some 0) nn found)[i].1 ∈ found.2 ∧
      (queryNeighbors ext (some 0) nn found)[i].2 =
        if found.1.foldl (· + ·) 0 / (found.1.length : α) = 0 then none
        else some (ext.exp 0) := by
  constructor
  · exact queryNeighbors_mem ext (some 0) nn found hlen _ (List.getElem_mem hi)
  · have hi' : i < ((sortedNeighborIndices found.1).take (min nn.toNat found.1.length)).length := by
      simpa [queryNeighbors, selectedNeighbors] using hi
    have hlt : ((sortedNeighborIndices found.1).take (min nn.toNat found.1.length))[i] <
        found.1.length :=
      sortedNeighborIndices_lt _ _ (List.mem_of_mem_take (List.getElem_mem hi'))
    simp only [queryNeighbors, selectedNeighbors, List.getElem_map]
    exact kernelWeights_theta_zero_getD ext found.1 _ hlt

theorem svd_entry_some (A : List (List (Option α))) (r : SVDResult α) (m n : Nat)
    (hsvd : IsSVD A r m n) (hS : ∀ j, j < n → ∃ x, r.S.getD j none = some x)
    (i l : Nat) (hi : i < m) (hl : l < n) : ∃ x, entry A i l = some x := by
  obtain ⟨-, hA, hUo, hVo⟩ := hsvd
  rw [hA i hi l hl]
  refine ⟨_, dsum_map_eq_some n _ (fun j =>
    (entry r.U i j).getD 0 * (r.S.getD j none).getD 0 * (entry r.V l j).getD 0) ?_⟩
  intro j hj
  have hu : ∃ x, entry r.U i j = some x := by
    have h1 := hUo j hj j hj
    obtain ⟨z, hz⟩ := dsum_isSome _ _ h1 (dmul (entry r.U i j) (entry r.U i j))
      (List.mem_map.mpr ⟨i, List.mem_range.mpr hi, rfl⟩)
    exact (dmul_isSome _ _ z hz).1
  have hv : ∃ x, entry r.V l j = some x := by
    have h1 := hVo l hl l hl
    obtain ⟨z, hz⟩ := dsum_isSome _ _ h1 (dmul (entry r.V l j) (entry r.V l j))
      (List.mem_map.mpr ⟨j, List.mem_range.mpr hj, rfl⟩)
    exact (dmul_isSome _ _ z hz).1
  rw [eq_some_getD _ hu, eq_some_getD _ hv, eq_some_getD _ (hS j hj)]
  simp [dmul]

/-- With `theta = 0`, a linear target and an exact SVD of full column rank with
no singular value under the threshold, the local prediction is the target. -/
theorem specLocalPrediction_linear (ext : Externals α) (vectors : List (List (Option α)))
    (target : List (Option α)) (nn : Int) (dim : Nat) (c : Nat → α) (c0 : α) (p : Nat)
    (found : List α × List Int) (max_s : Option α)
    (hexp : ext.exp 0 = 1)
    (hrect : ∀ row ∈ vectors, row.length = dim)
    (hp : p < vectors.length)
    (hlen : found.1.length = found.2.length)
    (hvl : ∀ i ∈ found.2, 0 ≤ i ∧ i.toNat < vectors.length)
    (hlin : ∀ i, i < vectors.length → target.getD i none =
      dadd (dsum ((List.range dim).map fun l => dmul (some (c l)) (entry vectors i l)))
        (some c0))
    (hk : dim + 1 ≤ (queryNeighbors ext (some 0) nn found).length)
    (hUlen : (ext.CppSVD (specDesignMatrix vectors
      (queryNeighbors ext (some 0) nn found))).U.length =
        (queryNeighbors ext (some 0) nn found).length)
    (hsvd : IsSVD (specDesignMatrix vectors (queryNeighbors ext (some 0) nn found))
      (ext.CppSVD (specDesignMatrix vectors (queryNeighbors ext (some 0) nn found)))
      (queryNeighbors ext (some 0) nn found).length (dim + 1))
    (hmax : max_s ∈ (ext.CppSVD (specDesignMatrix vectors
      (queryNeighbors ext (some 0) nn found))).S)
    (hthr : ∀ s ∈ (ext.CppSVD (specDesignMatrix vectors
        (queryNeighbors ext (some 0) nn found))).S,
      s ≠ some 0 ∧ ∀ t ∈ (ext.CppSVD (specDesignMatrix vectors
        (queryNeighbors ext (some 0) nn found))).S, dge s (dmul (some tol) t) = true) :
    specLocalPrediction ext vectors target (queryNeighbors ext (some 0) nn found) max_s
      (vectors.getD p []) = target.getD p none := by
  have hSlen := hsvd.1
  have hSmem : ∀ j, j < dim + 1 → (ext.CppSVD (specDesignMatrix vectors
      (queryNeighbors ext (some 0) nn found))).S.getD j none ∈
      (ext.CppSVD (specDesignMatrix vectors (queryNeighbors ext (some 0) nn found))).S := by
    intro j hj
    rw [List.getD_eq_getElem?_getD, List.getElem?_eq_getElem (by omega), Option.getD_some]
    exact List.getElem_mem _
  have hthr' : ∀ j, j < dim + 1 →
      (ext.CppSVD (specDesignMatrix vectors
        (queryNeighbors ext (some 0) nn found))).S.getD j none ≠ some 0 ∧
      dge ((ext.CppSVD (specDesignMatrix vectors
        (queryNeighbors ext (some 0) nn found))).S.getD j none) (dmul (some tol) max_s) = true :=
    fun j hj => ⟨(hthr _ (hSmem j hj)).1, (hthr _ (hSmem j hj)).2 _ hmax⟩
  have hrowlen : ∀ i (hi : i < (queryNeighbors ext (some 0) nn found).length),
      (vectors.getD (queryNeighbors ext (some 0) nn found)[i].1.toNat []).length = dim := by
    intro i hi
    have h1 := (queryNeighbors_getElem ext nn found hlen i hi).1
    have h2 := (hvl _ h1).2
    rw [List.getD_eq_getElem?_getD, List.getElem?_eq_getElem h2, Option.getD_some]
    exact hrect _ (List.getElem_mem h2)
  -- the mean distance is not zero: the bias column of `A` holds numbers
  have hmean : found.1.foldl (· + ·) 0 / (found.1.length : α) ≠ 0 := by
    intro h0
    have hi : 0 < (queryNeighbors ext (some 0) nn found).length := by omega
    obtain ⟨x, hx⟩ := svd_entry_some _ _ _ _ hsvd
      (fun j hj => dge_isSome _ _ (hthr' j hj).2) 0 dim hi (by omega)
    rw [entry_specDesignMatrix_bias vectors _ dim 0 hi (hrowlen 0 hi),
      (queryNeighbors_getElem ext nn found hlen 0 hi).2, if_pos h0] at hx
    simp [dmul] at hx
  have hw : ∀ i (hi : i < (queryNeighbors ext (some 0) nn found).length),
      (queryNeighbors ext (some 0) nn found)[i].2 = some 1 := by
    intro i hi
    rw [(queryNeighbors_getElem ext nn found hlen i hi).2, if_neg hmean, hexp]
  have hcoeff : ∀ k, k < dim + 1 →
      specCoeff (ext.CppSVD (specDesignMatrix vectors
          (queryNeighbors ext (some 0) nn found))).U
        (specSinv (ext.CppSVD (specDesignMatrix vectors
          (queryNeighbors ext (some 0) nn found))).S max_s)
        (ext.CppSVD (specDesignMatrix vectors (queryNeighbors ext (some 0) nn found))).V
        (specResponse target (queryNeighbors ext (some 0) nn found)) k =
      some ((fun l => if l < dim then c l else c0) k) := by
    intro k hk'
    apply specCoeff_exact _ _ _ _ (dim + 1) (fun l => if l < dim then c l else c0) max_s hUlen
      hsvd hthr' _ k hk'
    intro i hi
    have hni := (hvl _ (queryNeighbors_getElem ext nn found hlen i hi).1).2
    rw [specResponse_getD target _ i hi, hw i hi, one_dmul, hlin _ hni, List.range_succ,
      List.map_append, dsum_append]
    congr 1
    · congr 1
      apply List.map_congr_left
      intro l hl
      have hl' := List.mem_range.mp hl
      rw [entry_specDesignMatrix_lt vectors _ dim i l hi (hrowlen i hi) hl', hw i hi, one_dmul]
      simp only [hl', if_true]
      exact dmul_comm _ _
    · rw [List.map_cons, List.map_nil, dsum_cons, dsum_nil, dadd_zero,
        entry_specDesignMatrix_bias vectors _ dim i hi (hrowlen i hi), hw i hi]
      simp [dmul]
  unfold specLocalPrediction specPrediction
  have hq : (vectors.getD p []).length = dim := by
    rw [List.getD_eq_getElem?_getD, List.getElem?_eq_getElem hp, Option.getD_some]
    exact hrect _ (List.getElem_mem hp)
  rw [hq, hcoeff dim (by omega), hlin p hp]
  simp only [lt_irrefl, if_false]
  congr 2
  apply List.map_congr_left
  intro l hl
  have hl' := List.mem_range.mp hl
  rw [hcoeff l (by omega)]
  simp only [hl', if_true]
  rfl

/-! ### The neighbour search -/

theorem sumSqCount_eq (vectors : List (List (Option α))) (dim : Nat) (p i : Int)
    (hrect : ∀ row ∈ vectors, row.length = dim)
    (hp0 : 0 ≤ p) (hp : p.toNat < vectors.length)
    (hi0 : 0 ≤ i) (hi : i.toNat < vectors.length) :
    sumSqCount vectors p i =
      .ok (specSumSq vectors i.toNat p.toNat, (sharedDimensions vectors i.toNat p.toNat).length) := by
  unfold sumSqCount
  rw [readInt_ok vectors p hp0 hp, bind_ok]
  have hlenP : (vectors[p.toNat]).length = dim := hrect _ (List.getElem_mem hp)
  have hlenI : (vectors[i.toNat]).length = dim := hrect _ (List.getElem_mem hi)
  have hgetP : vectors.getD p.toNat [] = vectors[p.toNat] := by
    rw [List.getD_eq_getElem?_getD, List.getElem?_eq_getElem hp, Option.getD_some]
  obtain ⟨sc, hsc, hinv⟩ := foldlM_range_inv
    (fun (acc : α × Nat) j => do
      let rowI ← readInt vectors i
      let vi ← readNat rowI j
      let vj ← readNat vectors[p.toNat] j
      match vi, vj with
      | some x, some y => pure (acc.1 + (x - y) * (x - y), acc.2 + 1)
      | _, _ => pure acc)
    (fun j acc => acc =
      ((((List.range j).filter fun j =>
          (entry vectors i.toNat j).isSome && (entry vectors p.toNat j).isSome).map fun j =>
        ((entry vectors i.toNat j).getD 0 - (entry vectors p.toNat j).getD 0) *
          ((entry vectors i.toNat j).getD 0 - (entry vectors p.toNat j).getD 0)).sum,
        ((List.range j).filter fun j =>
          (entry vectors i.toNat j).isSome && (entry vectors p.toNat j).isSome).length))
    (vectors[p.toNat]).length (0, 0) (by simp)
    (by
      intro j b hj hinv
      have hjI : j < (vectors[i.toNat]).length := by omega
      beta_reduce
      rw [readInt_ok vectors i hi0 hi, bind_ok, readNat_ok _ j hjI, bind_ok,
        readNat_ok _ j hj, bind_ok]
      have eI : entry vectors i.toNat j = (vectors[i.toNat])[j] := by
        unfold entry
        exact getD_getD_eq vectors i.toNat j none hi hjI
      have eP : entry vectors p.toNat j = (vectors[p.toNat])[j] := by
        unfold entry
        exact getD_getD_eq vectors p.toNat j none hp hj
      rw [List.range_succ, List.filter_append, List.map_append, List.sum_append,
        List.length_append, hinv]
      cases hvi : (vectors[i.toNat])[j] <;> cases hvj : (vectors[p.toNat])[j] <;>
        simp [List.filter_cons, eI, eP, hvi, hvj, pure, Except.pure])
  refine hsc.trans ?_
  rw [hinv]
  unfold specSumSq sharedDimensions
  rw [hgetP]

/-- The step of the loop of `neighborSearch`. -/
theorem neighborSearch_step (ext : Externals α) (vectors : List (List (Option α))) (dim : Nat)
    (p i : Int) (acc : List α × List Int)
    (hrect : ∀ row ∈ vectors, row.length = dim)
    (hp0 : 0 ≤ p) (hp : p.toNat < vectors.length)
    (hi0 : 0 ≤ i) (hi : i.toNat < vectors.length) :
    (if i = p then (pure acc : Except Fault (List α × List Int))
      else do
        let sc ← sumSqCount vectors p i
        if sc.2 > 0 then
          pure (acc.1 ++ [ext.sqrt (sc.1 / (sc.2 : α))], acc.2 ++ [i])
        else pure acc) =
      .ok (acc.1 ++ (specCandidates vectors [i] p).map
            (fun i => specDistance ext vectors i.toNat p.toNat),
          acc.2 ++ specCandidates vectors [i] p) := by
  by_cases hip : i = p
  · rw [if_pos hip]
    simp [specCandidates, hip]
    rfl
  · rw [if_neg hip, sumSqCount_eq vectors dim p i hrect hp0 hp hi0 hi, bind_ok]
    by_cases hs : sharedDimensions vectors i.toNat p.toNat = []
    · simp [specCandidates, hip, hs]
      rfl
    · have hpos : (sharedDimensions vectors i.toNat p.toNat).length > 0 :=
        List.length_pos.mpr hs
      rw [if_pos hpos]
      simp [specCandidates, hip, hs, specDistance]
      rfl

theorem neighborSearch_fold_eq (ext : Externals α) (vectors : List (List (Option α)))
    (dim : Nat) (p : Int)
    (hrect : ∀ row ∈ vectors, row.length = dim)
    (hp0 : 0 ≤ p) (hp : p.toNat < vectors.length) :
    ∀ (lib : List Int) (acc : List α × List Int),
      (∀ i ∈ lib, 0 ≤ i ∧ i.toNat < vectors.length) →
      lib.foldlM (fun (acc : List α × List Int) i =>
        if i = p then pure acc
        else do
          let sc ← sumSqCount vectors p i
          if sc.2 > 0 then
            pure (acc.1 ++ [ext.sqrt (sc.1 / (sc.2 : α))], acc.2 ++ [i])
          else pure acc) acc =
        .ok (acc.1 ++ (specCandidates vectors lib p).map
              (fun i => specDistance ext vectors i.toNat p.toNat),
            acc.2 ++ specCandidates vectors lib p) := by
  intro lib
  induction lib with
  | nil => intro acc _; simp [specCandidates]; rfl
  | cons i lib ih =>
    intro acc hlib
    have hi := hlib i (List.mem_cons_self _ _)
    rw [List.foldlM_cons]
    rw [neighborSearch_step ext vectors dim p i acc hrect hp0 hp hi.1 hi.2, bind_ok,
      ih _ (fun j hj => hlib j (List.mem_cons_of_mem _ hj))]
    have hc : specCandidates vectors (i :: lib) p =
        specCandidates vectors [i] p ++ specCandidates vectors lib p := by
      unfold specCandidates
      rw [← List.filter_append]
      rfl
    rw [hc, List.map_append, List.append_assoc, List.append_assoc]

/-- The two vectors built by the neighbour search are the spec's candidates and
their distances. -/
theorem neighborSearch_eq (ext : Externals α) (vectors : List (List (Option α))) (dim : Nat)
    (lib : List Int) (p : Int)
    (hrect : ∀ row ∈ vectors, row.length = dim)
    (hp0 : 0 ≤ p) (hp : p.toNat < vectors.length)
    (hlib : ∀ i ∈ lib, 0 ≤ i ∧ i.toNat < vectors.length) :
    neighborSearch ext vectors lib p =
      .ok ((specCandidates vectors lib p).map
            (fun i => specDistance ext vectors i.toNat p.toNat),
          specCandidates vectors lib p) := by
  unfold neighborSearch
  rw [neighborSearch_fold_eq ext vectors dim p hrect hp0 hp lib ([], []) hlib]
  simp

/-! ### The sorted index vector -/

theorem closer_irrefl (d : List α) (a : Nat) : ¬ closer d a a := by
  rintro (h | ⟨-, h⟩)
  · exact lt_irrefl _ h
  · exact lt_irrefl _ h

theorem closer_trans (d : List α) {a b c : Nat} (h1 : closer d a b) (h2 : closer d b c) :
    closer d a c := by
  rcases h1 with h1 | ⟨e1, l1⟩ <;> rcases h2 with h2 | ⟨e2, l2⟩
  · exact Or.inl (lt_trans h1 h2)
  · exact Or.inl (e2 ▸ h1)
  · exact Or.inl (e1 ▸ h2)
  · exact Or.inr ⟨e1.trans e2, lt_trans l1 l2⟩

theorem closer_asymm (d : List α) {a b : Nat} (h : closer d a b) : ¬ closer d b a :=
  fun h2 => closer_irrefl d a (closer_trans d h h2)

theorem closer_total (d : List α) {a b : Nat} (h : a ≠ b) : closer d a b ∨ closer d b a := by
  rcases lt_trichotomy (d.getD a 0) (d.getD b 0) with hlt | heq | hgt
  · exact Or.inl (Or.inl hlt)
  · rcases Nat.lt_or_gt_of_ne h with hab | hab
    · exact Or.inl (Or.inr ⟨heq, hab⟩)
    · exact Or.inr (Or.inr ⟨heq.symm, hab⟩)
  · exact Or.inr (Or.inl hgt)

theorem closer_le (d : List α) {a b : Nat} (h : closer d a b) : d.getD a 0 ≤ d.getD b 0 := by
  rcases h with h | ⟨h, -⟩
  · exact le_of_lt h
  · exact le_of_eq h

theorem orderedInsert_closer (d : List α) (a : Nat) :
    ∀ l : List Nat, l.Pairwise (closer d) → a ∉ l →
      (List.orderedInsert (closer d) a l).Pairwise (closer d) := by
  intro l
  induction l with
  | nil => intro _ _; simp
  | cons b l ih =>
    intro hl ha
    rw [List.pairwise_cons] at hl
    rw [List.orderedInsert]
    have hab : a ≠ b := fun h => ha (h ▸ List.mem_cons_self _ _)
    have hal : a ∉ l := fun h => ha (List.mem_cons_of_mem _ h)
    split
    · rename_i hc
      rw [List.pairwise_cons]
      refine ⟨?_, List.pairwise_cons.mpr hl⟩
      intro x hx
      rcases List.mem_cons.mp hx with rfl | hx
      · exact hc
      · exact closer_trans d hc (hl.1 x hx)
    · rename_i hc
      rw [List.pairwise_cons]
      refine ⟨?_, ih hl.2 hal⟩
      intro x hx
      rcases (List.mem_orderedInsert (closer d)).mp hx with rfl | hx
      · rcases closer_total d hab with h | h
        · exact absurd h hc
        · exact h
      · exact hl.1 x hx

theorem insertionSort_closer (d : List α) :
    ∀ l : List Nat, l.Nodup → (List.insertionSort (closer d) l).Pairwise (closer d) := by
  intro l
  induction l with
  | nil => intro _; simp
  | cons a l ih =>
    intro hl
    rw [List.nodup_cons] at hl
    rw [List.insertionSort]
    apply orderedInsert_closer d a _ (ih hl.2)
    intro h
    exact hl.1 ((List.perm_insertionSort (closer d) l).mem_iff.mp h)

/-- The index vector after the sort is strictly ordered by the comparator. -/
theorem sortedNeighborIndices_pairwise (d : List α) :
    (sortedNeighborIndices d).Pairwise (closer d) :=
  insertionSort_closer d _ (List.nodup_range _)

theorem sortedNeighborIndices_nodup (d : List α) : (sortedNeighborIndices d).Nodup :=
  (List.perm_insertionSort (closer d) _).nodup_iff.mpr (List.nodup_range _)

theorem sortedNeighborIndices_mem (d : List α) (a : Nat) :
    a ∈ sortedNeighborIndices d ↔ a < d.length := by
  unfold sortedNeighborIndices
  rw [(List.perm_insertionSort (closer d) _).mem_iff, List.mem_range]

/-- An index outside the first `k` sorted entries is not closer than any of
them. -/
theorem take_closer_drop (d : List α) (k a b : Nat)
    (ha : a ∈ (sortedNeighborIndices d).take k) (hb : b < d.length)
    (hnb : b ∉ (sortedNeighborIndices d).take k) : closer d a b := by
  have hp := sortedNeighborIndices_pairwise d
  rw [← List.take_append_drop k (sortedNeighborIndices d), List.pairwise_append] at hp
  have hmem := (sortedNeighborIndices_mem d b).mpr hb
  rw [← List.take_append_drop k (sortedNeighborIndices d), List.mem_append] at hmem
  rcases hmem with h | h
  · exact absurd h hnb
  · exact hp.2.2 a ha b h

/-- In a list strictly ordered by the comparator the closer index comes first. -/
theorem indexOf_lt_of_closer (d : List α) :
    ∀ l : List Nat, l.Pairwise (closer d) → ∀ a b, a ∈ l → b ∈ l → closer d a b →
      l.indexOf a < l.indexOf b := by
  intro l
  induction l with
  | nil => intro _ a b ha; cases ha
  | cons c l ih =>
    intro hl a b ha hb hab
    rw [List.pairwise_cons] at hl
    have hne : a ≠ b := fun h => closer_irrefl d a (h ▸ hab)
    by_cases hca : c = a
    · subst hca
      rw [List.indexOf_cons_self, List.indexOf_cons_ne _ hne]
      omega
    · have ha2 : a ∈ l := by
        rcases List.mem_cons.mp ha with h | h
        · exact absurd h.symm hca
        · exact h
      by_cases hcb : c = b
      · subst hcb
        exact absurd (hl.1 a ha2) (closer_asymm d hab)
      · have hb2 : b ∈ l := by
          rcases List.mem_cons.mp hb with h | h
          · exact absurd h.symm hcb
          · exact h
        rw [List.indexOf_cons_ne _ hca, List.indexOf_cons_ne _ hcb]
        have := ih hl.2 a b ha2 hb2 hab
        omega

/-- The closer of two candidates is ranked first, and is selected whenever the
other one is. -/
theorem closer_ranked_first (d : List α) (a b : Nat) (ha : a < d.length) (hb : b < d.length)
    (hab : closer d a b) :
    (sortedNeighborIndices d).indexOf a < (sortedNeighborIndices d).indexOf b ∧
      ∀ k, b ∈ (sortedNeighborIndices d).take k → a ∈ (sortedNeighborIndices d).take k := by
  refine ⟨indexOf_lt_of_closer d _ (sortedNeighborIndices_pairwise d) a b
    ((sortedNeighborIndices_mem d a).mpr ha) ((sortedNeighborIndices_mem d b).mpr hb) hab, ?_⟩
  intro k hbk
  by_contra hak
  exact closer_asymm d hab (take_closer_drop d k b a hbk ha hak)

/-! ### The mean distance and the weights -/

theorem kernelWeights_eq_mean (ext : Externals α) (theta : Option α) (distances : List α) :
    kernelWeights ext theta distances = distances.map fun d =>
      (ddiv (dmul (dneg theta) (some d)) (some (meanDistance distances))).map ext.exp := rfl

theorem foldl_add_eq_sum (l : List α) : l.foldl (· + ·) 0 = l.sum := by
  rw [List.sum_eq_foldl]

theorem meanDistance_eq_sum (l : List α) : meanDistance l = l.sum / (l.length : α) := by
  unfold meanDistance
  rw [foldl_add_eq_sum]

theorem list_sum_nonneg (l : List α) (h : ∀ x ∈ l, 0 ≤ x) : 0 ≤ l.sum := by
  induction l with
  | nil => simp
  | cons a l ih =>
    rw [List.sum_cons]
    exact add_nonneg (h a (List.mem_cons_self _ _)) (ih fun x hx => h x (List.mem_cons_of_mem _ hx))

theorem list_sum_eq_zero_iff (l : List α) (h : ∀ x ∈ l, 0 ≤ x) :
    l.sum = 0 ↔ ∀ x ∈ l, x = 0 := by
  induction l with
  | nil => simp
  | cons a l ih =>
    have ha := h a (List.mem_cons_self _ _)
    have hl : ∀ x ∈ l, 0 ≤ x := fun x hx => h x (List.mem_cons_of_mem _ hx)
    have hs := list_sum_nonneg l hl
    rw [List.sum_cons]
    constructor
    · intro h0 x hx
      have h1 : a = 0 := by linarith
      have h2 : l.sum = 0 := by linarith
      rcases List.mem_cons.mp hx with rfl | hx
      · exact h1
      · exact (ih hl).mp h2 x hx
    · intro h0
      rw [h0 a (List.mem_cons_self _ _), (ih hl).mpr fun x hx => h0 x (List.mem_cons_of_mem _ hx)]
      simp

theorem meanDistance_nonneg (l : List α) (h : ∀ x ∈ l, 0 ≤ x) : 0 ≤ meanDistance l := by
  rw [meanDistance_eq_sum]
  exact div_nonneg (list_sum_nonneg l h) (Nat.cast_nonneg _)

/-- The mean of non-negative distances is zero exactly when all of them are. -/
theorem meanDistance_eq_zero_iff (l : List α) (h : ∀ x ∈ l, 0 ≤ x) :
    meanDistance l = 0 ↔ ∀ x ∈ l, x = 0 := by
  rw [meanDistance_eq_sum]
  constructor
  · intro h0
    rcases div_eq_zero_iff.mp h0 with hs | hn
    · exact (list_sum_eq_zero_iff l h).mp hs
    · have : l.length = 0 := by exact_mod_cast hn
      intro x hx
      rw [List.length_eq_zero.mp this] at hx
      cases hx
  · intro h0
    rw [(list_sum_eq_zero_iff l h).mpr h0, zero_div]

theorem meanDistance_pos (l : List α) (h : ∀ x ∈ l, 0 ≤ x) (hx : ∃ x ∈ l, x ≠ 0) :
    0 < meanDistance l := by
  rcases lt_or_eq_of_le (meanDistance_nonneg l h) with hlt | heq
  · exact hlt
  · obtain ⟨x, hxl, hx0⟩ := hx
    exact absurd ((meanDistance_eq_zero_iff l h).mp heq.symm x hxl) hx0

/-- With a non-zero mean the quotient is a quotient of the field. -/
theorem kernelWeights_of_mean_ne_zero (ext : Externals α) (t : α) (distances : List α)
    (h : meanDistance distances ≠ 0) :
    kernelWeights ext (some t) distances =
      distances.map fun d => some (ext.exp (-t * d / meanDistance distances)) := by
  rw [kernelWeights_eq_mean]
  apply List.map_congr_left
  intro d _
  simp [dneg, dmul, ddiv, h]

/-- With a zero mean every weight is NaN. -/
theorem kernelWeights_of_mean_zero (ext : Externals α) (theta : Option α) (distances : List α)
    (h : meanDistance distances = 0) :
    ∀ w ∈ kernelWeights ext theta distances, w = none := by
  intro w hw
  rw [kernelWeights_eq_mean] at hw
  obtain ⟨d, -, rfl⟩ := List.mem_map.mp hw
  cases theta <;> simp [dneg, dmul, ddiv, h]

theorem specSumSq_nonneg (vectors : List (List (Option α))) (i p : Nat) :
    0 ≤ specSumSq vectors i p := by
  unfold specSumSq
  apply list_sum_nonneg
  intro x hx
  obtain ⟨j, -, rfl⟩ := List.mem_map.mp hx
  exact mul_self_nonneg _

theorem specSumSq_eq_zero_iff (vectors : List (List (Option α))) (i p : Nat) :
    specSumSq vectors i p = 0 ↔
      ∀ j ∈ sharedDimensions vectors i p,
        (entry vectors i j).getD 0 = (entry vectors p j).getD 0 := by
  unfold specSumSq
  rw [list_sum_eq_zero_iff _ (by
    intro x hx
    obtain ⟨j, -, rfl⟩ := List.mem_map.mp hx
    exact mul_self_nonneg _)]
  constructor
  · intro h j hj
    have := h _ (List.mem_map.mpr ⟨j, hj, rfl⟩)
    exact sub_eq_zero.mp (mul_self_eq_zero.mp this)
  · intro h x hx
    obtain ⟨j, hj, rfl⟩ := List.mem_map.mp hx
    rw [h j hj, sub_self, mul_zero]

omit [LinearOrderedField α] in
theorem mem_sharedDimensions (vectors : List (List (Option α))) (i p j : Nat) :
    j ∈ sharedDimensions vectors i p ↔
      (entry vectors i j).isSome = true ∧ (entry vectors p j).isSome = true := by
  unfold sharedDimensions
  rw [List.mem_filter, List.mem_range, Bool.and_eq_true]
  constructor
  · exact fun h => h.2
  · intro h
    refine ⟨?_, h⟩
    by_contra hlt
    have hn : entry vectors p j = none := by
      unfold entry
      rw [List.getD_eq_getElem?_getD (vectors.getD p []), List.getElem?_eq_none (by omega)]
      rfl
    rw [hn] at h
    exact absurd h.2 (by simp)

theorem specDistance_nonneg (ext : Externals α) (hsqrt : SqrtNonneg ext)
    (vectors : List (List (Option α))) (i p : Nat) : 0 ≤ specDistance ext vectors i p :=
  (hsqrt _ (div_nonneg (specSumSq_nonneg vectors i p) (Nat.cast_nonneg _))).1

/-- A candidate is at distance zero exactly when it agrees with the query in
every shared dimension. -/
theorem specDistance_eq_zero_iff (ext : Externals α) (hsqrt : SqrtNonneg ext)
    (vectors : List (List (Option α))) (i p : Nat) (hne : sharedDimensions vectors i p ≠ []) :
    specDistance ext vectors i p = 0 ↔
      ∀ j x y, entry vectors i j = some x → entry vectors p j = some y → x = y := by
  unfold specDistance
  rw [(hsqrt _ (div_nonneg (specSumSq_nonneg vectors i p) (Nat.cast_nonneg _))).2]
  have hlen : ((sharedDimensions vectors i p).length : α) ≠ 0 := by
    have := List.length_pos.mpr hne
    exact_mod_cast (by omega : (sharedDimensions vectors i p).length ≠ 0)
  rw [div_eq_zero_iff, or_iff_left hlen, specSumSq_eq_zero_iff]
  constructor
  · intro h j x y hx hy
    have := h j ((mem_sharedDimensions vectors i p j).mpr (by simp [hx, hy]))
    simpa [hx, hy] using this
  · intro h j hj
    rw [mem_sharedDimensions] at hj
    obtain ⟨x, hx⟩ := Option.isSome_iff_exists.mp hj.1
    obtain ⟨y, hy⟩ := Option.isSome_iff_exists.mp hj.2
    rw [hx, hy]
    exact h j x y hx hy

omit [LinearOrderedField α] in
theorem mem_specCandidates (vectors : List (List (Option α))) (lib : List Int) (p i : Int) :
    i ∈ specCandidates vectors lib p ↔
      i ∈ lib ∧ i ≠ p ∧ ∃ j, (entry vectors i.toNat j).isSome = true ∧
        (entry vectors p.toNat j).isSome = true := by
  unfold specCandidates
  rw [List.mem_filter, Bool.and_eq_true, decide_eq_true_eq, decide_eq_true_eq]
  constructor
  · rintro ⟨h1, h2, h3⟩
    obtain ⟨j, hj⟩ := List.exists_mem_of_ne_nil _ h3
    exact ⟨h1, h2, j, (mem_sharedDimensions vectors _ _ j).mp hj⟩
  · rintro ⟨h1, h2, j, hj⟩
    exact ⟨h1, h2, List.ne_nil_of_mem ((mem_sharedDimensions vectors _ _ j).mpr hj)⟩

/-! ### Dependence on the target -/

theorem foldlM_list_inv_of_ok {β γ : Type} (f : β → γ → Except Fault β) (Inv : β → Prop)
    (l : List γ) :
    ∀ b0 b : β, Inv b0 → (∀ x c c', Inv c → f c x = .ok c' → Inv c') →
      l.foldlM f b0 = .ok b → Inv b := by
  induction l with
  | nil =>
    intro b0 b h0 _ h
    cases h
    exact h0
  | cons x xs ih =>
    intro b0 b h0 hstep h
    rw [List.foldlM_cons] at h
    cases hx : f b0 x with
    | error e => rw [hx] at h; cases h
    | ok b1 =>
      rw [hx] at h
      exact ih b1 b (hstep x b0 b1 h0 hx) hstep h

theorem foldlM_congr_mem {β γ : Type} (f g : β → γ → Except Fault β) (l : List γ)
    (h : ∀ b, ∀ x ∈ l, f b x = g b x) : ∀ b0 : β, l.foldlM f b0 = l.foldlM g b0 := by
  induction l with
  | nil => intro b0; rfl
  | cons x xs ih =>
    intro b0
    rw [List.foldlM_cons, List.foldlM_cons, h b0 x (List.mem_cons_self _ _)]
    cases g b0 x with
    | error e => rfl
    | ok b1 => exact ih (fun b y hy => h b y (List.mem_cons_of_mem _ hy)) b1

/-- The query index is never among the candidates of a search that returns. -/
theorem neighborSearch_not_self (ext : Externals α) (vectors : List (List (Option α)))
    (lib : List Int) (p : Int) (found : List α × List Int)
    (h : neighborSearch ext vectors lib p = .ok found) : ∀ i ∈ found.2, i ≠ p := by
  unfold neighborSearch at h
  refine foldlM_list_inv_of_ok _ (fun c : List α × List Int => ∀ i ∈ c.2, i ≠ p) lib ([], [])
    found (fun i hi => by cases hi) ?_ h
  intro x c c' hc hstep
  by_cases hxp : x = p
  · rw [if_pos hxp] at hstep
    cases hstep
    exact hc
  · rw [if_neg hxp] at hstep
    cases hsc : sumSqCount vectors p x with
    | error e => rw [hsc] at hstep; cases hstep
    | ok sc =>
      rw [hsc, bind_ok] at hstep
      by_cases hpos : sc.2 > 0
      · rw [if_pos hpos] at hstep
        cases hstep
        intro i hi
        rcases List.mem_append.mp hi with hi | hi
        · exact hc i hi
        · rw [List.mem_singleton.mp hi]
          exact hxp
      · rw [if_neg hpos] at hstep
        cases hstep
        exact hc

theorem readNat_mem {β : Type} (v : List β) (i : Nat) (x : β) (h : readNat v i = .ok x) :
    x ∈ v := by
  unfold readNat at h
  cases hg : v.get? i with
  | none => rw [hg] at h; cases h
  | some y =>
    rw [hg] at h
    cases h
    exact List.get?_mem hg

/-- Reads of two targets of equal length that agree outside position `p`. -/
theorem readInt_congr_target {β : Type} (t1 t2 : List β) (p : Nat)
    (hagree : ∀ i : Nat, i ≠ p → t1[i]? = t2[i]?) (idx : Int) (hne : idx ≠ (p : Int)) :
    readInt t1 idx = readInt t2 idx := by
  unfold readInt
  by_cases h0 : idx < 0
  · rw [if_pos h0, if_pos h0]
  · rw [if_neg h0, if_neg h0]
    have hn : idx.toNat ≠ p := by
      intro h
      apply hne
      rw [← h]
      exact (Int.toNat_of_nonneg (by omega)).symm
    unfold readNat
    rw [List.get?_eq_getElem?, List.get?_eq_getElem?, hagree _ hn]

/-- The system built for a query does not depend on target entries outside the
candidate rows. -/
theorem buildSystem_congr_target (vectors : List (List (Option α)))
    (t1 t2 : List (Option α)) (valid_libs : List Int) (weights : List (Option α))
    (neighbor_indices : List Nat) (k dim : Nat)
    (h : ∀ idx ∈ valid_libs, readInt t1 idx = readInt t2 idx) :
    buildSystem vectors t1 valid_libs weights neighbor_indices k dim =
      buildSystem vectors t2 valid_libs weights neighbor_indices k dim := by
  unfold buildSystem
  apply foldlM_congr_mem
  intro acc i _
  cases hni : readNat neighbor_indices i with
  | error e => rfl
  | ok ni =>
    simp only [bind_ok]
    cases hidx : readNat valid_libs ni with
    | error e => rfl
    | ok idx =>
      simp only [bind_ok]
      rw [h idx (readNat_mem valid_libs ni idx hidx)]

/-- The iteration for the query `p` does not read `target[p]`. -/
theorem predictAt_congr_target (ext : Externals α) (vectors : List (List (Option α)))
    (t1 t2 : List (Option α)) (lib : List Int) (nn : Int) (theta : Option α) (p : Nat)
    (hagree : ∀ i : Nat, i ≠ p → t1[i]? = t2[i]?) :
    predictAt ext vectors t1 lib nn theta (p : Int) =
      predictAt ext vectors t2 lib nn theta (p : Int) := by
  unfold predictAt
  cases hfound : neighborSearch ext vectors lib (p : Int) with
  | error e => rfl
  | ok found =>
    have hb : ∀ k dim, buildSystem vectors t1 found.2 (kernelWeights ext theta found.1)
        (sortedNeighborIndices found.1) k dim =
        buildSystem vectors t2 found.2 (kernelWeights ext theta found.1)
          (sortedNeighborIndices found.1) k dim := by
      intro k dim
      apply buildSystem_congr_target
      intro idx hidx
      exact readInt_congr_target t1 t2 p hagree idx
        (neighborSearch_not_self ext vectors lib (p : Int) found hfound idx hidx)
    simp only [bind_ok, hb]

theorem storedEntry_congr_at {β : Type} (f g : Int → Except Fault (Option β)) (P : List Int)
    (old : β) (i : Nat) (h : f (i : Int) = g (i : Int)) :
    storedEntry f P old i = storedEntry g P old i := by
  unfold storedEntry
  rw [h]

theorem SMapPrediction_degenerate_eq (ext : Externals α) (vectors : List (List (Option α)))
    (target : List (Option α)) (lib pred : List Int) (nn : Int) (theta : Option α)
    (h : nn ≤ 0 ∨ lib = [] ∨ pred = []) :
    SMapPrediction ext vectors target lib pred nn theta =
      .ok (List.replicate target.length none) := by
  unfold SMapPrediction
  have h2 : nn ≤ 0 ∨ lib.isEmpty = true ∨ pred.isEmpty = true := by
    simpa only [List.isEmpty_iff] using h
  simp only [h2, if_true]

/-- The entry at a position of the vector returned by `SMapPrediction`. -/
theorem SMapPrediction_entry_of_ok (ext : Externals α) (vectors : List (List (Option α)))
    (target : List (Option α)) (lib pred : List Int) (nn : Int) (theta : Option α)
    (r : List (Option α))
    (h : SMapPrediction ext vectors target lib pred nn theta = .ok r) :
    r.length = target.length ∧
      ∀ i, i < target.length →
        r[i]? = some (if nn ≤ 0 ∨ lib = [] ∨ pred = [] then none
          else storedEntry (predictAt ext vectors target lib nn theta) pred none i) := by
  by_cases hd : nn ≤ 0 ∨ lib = [] ∨ pred = []
  · rw [SMapPrediction_degenerate_eq ext vectors target lib pred nn theta hd] at h
    cases h
    refine ⟨List.length_replicate _ _, ?_⟩
    intro i hi
    rw [if_pos hd, List.getElem?_eq_getElem (by simpa using hi), List.getElem_replicate]
  · have hd2 : 0 < nn ∧ lib ≠ [] ∧ pred ≠ [] := by
      refine ⟨?_, ?_, ?_⟩
      · by_contra hc
        exact hd (Or.inl (by omega))
      · exact fun hc => hd (Or.inr (Or.inl hc))
      · exact fun hc => hd (Or.inr (Or.inr hc))
    rw [SMapPrediction_eq_fold ext vectors target lib pred nn theta hd2.1 hd2.2.1 hd2.2.2] at h
    obtain ⟨-, hlen, hent⟩ := foldlM_storeStep_of_ok _ pred _ r h
    refine ⟨by simpa using hlen, ?_⟩
    intro i hi
    rw [if_neg hd]
    have := hent i (by simpa using hi)
    simpa only [List.getElem_replicate] using this

/-- A call with in-range indices and an SVD of the usual shape returns, for
every `num_neighbors` and `theta`. -/
theorem SMapPrediction_returns (ext : Externals α) (vectors : List (List (Option α)))
    (target : List (Option α)) (lib pred : List Int) (nn : Int) (theta : Option α)
    (dim : Nat) (hwf : InRange vectors target lib pred dim) (hsvd : SVDShapedOn ext dim) :
    ∃ r, SMapPrediction ext vectors target lib pred nn theta = .ok r ∧
      r.length = target.length := by
  by_cases hd : nn ≤ 0 ∨ lib = [] ∨ pred = []
  · exact ⟨_, SMapPrediction_degenerate_eq ext vectors target lib pred nn theta hd,
      List.length_replicate _ _⟩
  · have hd2 : 0 < nn ∧ lib ≠ [] ∧ pred ≠ [] := by
      refine ⟨?_, ?_, ?_⟩
      · by_contra hc
        exact hd (Or.inl (by omega))
      · exact fun hc => hd (Or.inr (Or.inl hc))
      · exact fun hc => hd (Or.inr (Or.inr hc))
    obtain ⟨r, hr, hlen, -⟩ := SMapPrediction_inRange ext vectors target lib pred nn theta dim
      hd2.1 hd2.2.1 hd2.2.2 hwf hsvd
    exact ⟨r, hr, hlen⟩

/-- Two calls whose targets have equal length and agree outside position `p`
leave the same entry at `p`. -/
theorem SMapPrediction_entry_congr (ext : Externals α) (vectors : List (List (Option α)))
    (t1 t2 : List (Option α)) (lib pred : List Int) (nn : Int) (theta : Option α) (p : Nat)
    (hlen : t1.length = t2.length) (hagree : ∀ i : Nat, i ≠ p → t1[i]? = t2[i]?)
    (r1 r2 : List (Option α))
    (h1 : SMapPrediction ext vectors t1 lib pred nn theta = .ok r1)
    (h2 : SMapPrediction ext vectors t2 lib pred nn theta = .ok r2) :
    r1[p]? = r2[p]? := by
  obtain ⟨hl1, he1⟩ := SMapPrediction_entry_of_ok ext vectors t1 lib pred nn theta r1 h1
  obtain ⟨hl2, he2⟩ := SMapPrediction_entry_of_ok ext vectors t2 lib pred nn theta r2 h2
  by_cases hp : p < t1.length
  · rw [he1 p hp, he2 p (by omega)]
    rw [storedEntry_congr_at _ _ pred none p
      (predictAt_congr_target ext vectors t1 t2 lib nn theta p hagree)]
  · rw [List.getElem?_eq_none (by omega), List.getElem?_eq_none (by omega)]

/-! ### Runs on two targets of equal length -/

theorem SameOutcome_refl {β : Type} (R : β → β → Prop) (hR : ∀ a, R a a) (x : Except Fault β) :
    SameOutcome R x x := by
  cases x with
  | error e => trivial
  | ok a => exact hR a

theorem SameOutcome_bind {β β' γ γ' : Type} (R : β → β' → Prop) (S : γ → γ' → Prop)
    (x : Except Fault β) (y : Except Fault β') (k : β → Except Fault γ)
    (k' : β' → Except Fault γ') (hxy : SameOutcome R x y)
    (hk : ∀ a b, R a b → SameOutcome S (k a) (k' b)) :
    SameOutcome S (x >>= k) (y >>= k') := by
  cases x with
  | error e =>
    cases y with
    | error e' => trivial
    | ok b => exact absurd hxy (by simp [SameOutcome])
  | ok a =>
    cases y with
    | error e' => exact absurd hxy (by simp [SameOutcome])
    | ok b => exact hk a b hxy

/-- A common first step of two runs. -/
theorem SameOutcome_bind_same {β γ γ' : Type} (S : γ → γ' → Prop)
    (x : Except Fault β) (k : β → Except Fault γ) (k' : β → Except Fault γ')
    (hk : ∀ a, x = .ok a → SameOutcome S (k a) (k' a)) :
    SameOutcome S (x >>= k) (x >>= k') := by
  cases x with
  | error e => trivial
  | ok a => exact hk a rfl

theorem SameOutcome_foldlM {β β' γ : Type} (R : β → β' → Prop)
    (f : β → γ → Except Fault β) (g : β' → γ → Except Fault β') (l : List γ)
    (hstep : ∀ b b' x, x ∈ l → R b b' → SameOutcome R (f b x) (g b' x)) :
    ∀ b b', R b b' → SameOutcome R (l.foldlM f b) (l.foldlM g b') := by
  induction l with
  | nil => intro b b' h; exact h
  | cons x xs ih =>
    intro b b' h
    rw [List.foldlM_cons, List.foldlM_cons]
    exact SameOutcome_bind R R _ _ _ _ (hstep b b' x (List.mem_cons_self _ _) h)
      (fun a a' ha => ih (fun c c' y hy hc => hstep c c' y (List.mem_cons_of_mem _ hy) hc) a a' ha)

theorem SameOutcome_readNat {β : Type} (v w : List β) (i : Nat) (h : v.length = w.length) :
    SameOutcome (fun _ _ => True) (readNat v i) (readNat w i) := by
  unfold readNat
  rw [List.get?_eq_getElem?, List.get?_eq_getElem?]
  by_cases hi : i < v.length
  · rw [List.getElem?_eq_getElem hi, List.getElem?_eq_getElem (by omega)]
    trivial
  · rw [List.getElem?_eq_none (by omega), List.getElem?_eq_none (by omega)]
    trivial

theorem SameOutcome_readInt {β : Type} (v w : List β) (i : Int) (h : v.length = w.length) :
    SameOutcome (fun _ _ => True) (readInt v i) (readInt w i) := by
  unfold readInt
  by_cases h0 : i < 0
  · rw [if_pos h0, if_pos h0]
    trivial
  · rw [if_neg h0, if_neg h0]
    exact SameOutcome_readNat v w _ h

/-- The systems built from two targets of equal length have the same matrix
`A` and vectors `b` of the same length. -/
theorem SameOutcome_buildSystem (vectors : List (List (Option α)))
    (t1 t2 : List (Option α)) (valid_libs : List Int) (weights : List (Option α))
    (neighbor_indices : List Nat) (k dim : Nat) (h : t1.length = t2.length) :
    SameOutcome (fun s s' => s.1 = s'.1 ∧ s.2.length = s'.2.length)
      (buildSystem vectors t1 valid_libs weights neighbor_indices k dim)
      (buildSystem vectors t2 valid_libs weights neighbor_indices k dim) := by
  unfold buildSystem
  apply SameOutcome_foldlM
  · intro acc acc' i _ hacc
    apply SameOutcome_bind_same
    intro ni _
    apply SameOutcome_bind_same
    intro idx _
    apply SameOutcome_bind_same
    intro w _
    apply SameOutcome_bind_same
    intro row _
    apply SameOutcome_bind _ _ _ _ _ _ (SameOutcome_readInt t1 t2 idx h)
    intro a b _
    exact ⟨by show acc.1 ++ _ = acc'.1 ++ _; rw [hacc.1], by
      show (acc.2 ++ _).length = (acc'.2 ++ _).length
      rw [List.length_append, List.length_append, hacc.2]
      rfl⟩
  · exact ⟨rfl, rfl⟩

theorem SameOutcome_coeffEntry (U : List (List (Option α))) (S_inv : List (Option α))
    (V : List (List (Option α))) (b b' : List (Option α)) (k : Nat)
    (h : b.length = b'.length) :
    SameOutcome (fun _ _ => True) (coeffEntry U S_inv V b k) (coeffEntry U S_inv V b' k) := by
  unfold coeffEntry
  apply SameOutcome_foldlM
  · intro temp temp' j _ _
    apply SameOutcome_foldlM
    · intro t t' i _ _
      apply SameOutcome_bind_same
      intro vk _
      apply SameOutcome_bind_same
      intro vkj _
      apply SameOutcome_bind_same
      intro sj _
      apply SameOutcome_bind_same
      intro ui _
      apply SameOutcome_bind_same
      intro uij _
      apply SameOutcome_bind _ _ _ _ _ _ (SameOutcome_readNat b b' i h)
      intro _ _ _
      trivial
    · trivial
  · trivial

theorem SameOutcome_writeNat {β : Type} (v w : List β) (i : Nat) (x y : β)
    (h : v.length = w.length) :
    SameOutcome (fun (c c' : List β) => c.length = c'.length) (writeNat v i x)
      (writeNat w i y) := by
  unfold writeNat
  by_cases hi : i < v.length
  · rw [if_pos hi, if_pos (by omega)]
    show (v.set i x).length = (w.set i y).length
    rw [List.length_set, List.length_set, h]
  · rw [if_neg hi, if_neg (by omega)]
    trivial

theorem SameOutcome_coefficients (U : List (List (Option α))) (S_inv : List (Option α))
    (V : List (List (Option α))) (b b' : List (Option α)) (dim : Nat)
    (h : b.length = b'.length) :
    SameOutcome (fun (c c' : List (Option α)) => c.length = c'.length)
      (coefficients U S_inv V b dim) (coefficients U S_inv V b' dim) := by
  unfold coefficients
  apply SameOutcome_foldlM
  · intro coeff coeff' k _ hc
    apply SameOutcome_bind _ _ _ _ _ _ (SameOutcome_coeffEntry U S_inv V b b' k h)
    intro x y _
    exact SameOutcome_writeNat coeff coeff' k x y hc
  · rfl

theorem SameOutcome_predictionValue (coeff coeff' : List (Option α))
    (vectors : List (List (Option α))) (p : Int) (dim : Nat)
    (h : coeff.length = coeff'.length) :
    SameOutcome (fun _ _ => True) (predictionValue coeff vectors p dim)
      (predictionValue coeff' vectors p dim) := by
  unfold predictionValue
  apply SameOutcome_bind (fun _ _ => True)
  · apply SameOutcome_foldlM
    · intro acc acc' i _ _
      apply SameOutcome_bind _ _ _ _ _ _ (SameOutcome_readNat coeff coeff' i h)
      intro _ _ _
      apply SameOutcome_bind_same
      intro v _
      apply SameOutcome_bind_same
      intro x _
      trivial
    · trivial
  · intro _ _ _
    apply SameOutcome_bind _ _ _ _ _ _ (SameOutcome_readNat coeff coeff' dim h)
    intro _ _ _
    trivial

/-- The iterations for two targets of equal length end alike: both fault, both
end at `continue`, or both reach the store. -/
theorem SameOutcome_predictAt (ext : Externals α) (vectors : List (List (Option α)))
    (t1 t2 : List (Option α)) (lib : List Int) (nn : Int) (theta : Option α) (q : Int)
    (h : t1.length = t2.length) :
    SameOutcome (fun (r r' : Option (Option α)) => r.isSome = r'.isSome)
      (predictAt ext vectors t1 lib nn theta q) (predictAt ext vectors t2 lib nn theta q) := by
  unfold predictAt
  apply SameOutcome_bind_same
  intro found _
  by_cases he : found.1.isEmpty = true
  · simp only [he, if_true]
    rfl
  · simp only [he]
    apply SameOutcome_bind_same
    intro rowP _
    apply SameOutcome_bind _ _ _ _ _ _ (SameOutcome_buildSystem vectors t1 t2 found.2 _ _ _ _ h)
    intro sys sys' hsys
    rw [hsys.1]
    apply SameOutcome_bind_same
    intro max_s _
    apply SameOutcome_bind _ _ _ _ _ _
      (SameOutcome_coefficients _ _ _ sys.2 sys'.2 rowP.length hsys.2)
    intro coeff coeff' hc
    apply SameOutcome_bind _ _ _ _ _ _
      (SameOutcome_predictionValue coeff coeff' vectors q rowP.length hc)
    intro _ _ _
    rfl

theorem iterationFaults_congr {β : Type} (f g : Int → Except Fault (Option β)) (N : Nat)
    (q : Int) (h : SameOutcome (fun (r r' : Option β) => r.isSome = r'.isSome) (f q) (g q)) :
    iterationFaults f N q → iterationFaults g N q := by
  unfold iterationFaults
  cases hf : f q with
  | error e =>
    cases hg : g q with
    | error e' =>
      intro _
      exact Or.inl (by rw [except_error_eq e'])
    | ok b => rw [hf, hg] at h; exact absurd h (by simp [SameOutcome])
  | ok a =>
    cases hg : g q with
    | error e' => rw [hf, hg] at h; exact absurd h (by simp [SameOutcome])
    | ok b =>
      rw [hf, hg] at h
      rintro (hx | ⟨v, hv, hr⟩)
      · cases hx
      · cases hv
        have hb : b.isSome = true := by
          rw [← show (some v : Option β).isSome = b.isSome from h]
          rfl
        obtain ⟨w, rfl⟩ := Option.isSome_iff_exists.mp hb
        exact Or.inr ⟨w, rfl, hr⟩

/-- If the call for one target returns, so does the call for a target of the
same length. -/
theorem SMapPrediction_returns_congr (ext : Externals α) (vectors : List (List (Option α)))
    (t1 t2 : List (Option α)) (lib pred : List Int) (nn : Int) (theta : Option α)
    (hlen : t1.length = t2.length) (r1 : List (Option α))
    (h1 : SMapPrediction ext vectors t1 lib pred nn theta = .ok r1) :
    ∃ r2, SMapPrediction ext vectors t2 lib pred nn theta = .ok r2 := by
  by_cases hd : nn ≤ 0 ∨ lib = [] ∨ pred = []
  · exact ⟨_, SMapPrediction_degenerate_eq ext vectors t2 lib pred nn theta hd⟩
  · have hd2 : 0 < nn ∧ lib ≠ [] ∧ pred ≠ [] := by
      refine ⟨?_, ?_, ?_⟩
      · by_contra hc
        exact hd (Or.inl (by omega))
      · exact fun hc => hd (Or.inr (Or.inl hc))
      · exact fun hc => hd (Or.inr (Or.inr hc))
    rw [SMapPrediction_eq_fold ext vectors t1 lib pred nn theta hd2.1 hd2.2.1 hd2.2.2] at h1
    obtain ⟨hok, -, -⟩ := foldlM_storeStep_of_ok _ pred _ r1 h1
    have hok2 : ∀ q ∈ pred, ¬ iterationFaults (predictAt ext vectors t2 lib nn theta)
        (List.replicate t2.length (none : Option α)).length q := by
      intro q hq hx
      apply hok q hq
      rw [List.length_replicate] at hx ⊢
      rw [hlen]
      exact iterationFaults_congr _ _ _ q
        (SameOutcome_predictAt ext vectors t2 t1 lib nn theta q hlen.symm) hx
    obtain ⟨r2, hr2, -, -⟩ := foldlM_storeStep_ok _ pred _ hok2
    exact ⟨r2, by rw [SMapPrediction_eq_fold ext vectors t2 lib pred nn theta hd2.1 hd2.2.1
      hd2.2.2, hr2]⟩

/-! ### Rounded arithmetic -/

theorem sumSqCountFl_ok (fl : α → α) (hfl0 : fl 0 = 0) (hmono : Monotone fl)
    (vectors : List (List (Option α))) (dim : Nat) (p i : Int)
    (hrect : ∀ row ∈ vectors, row.length = dim)
    (hp0 : 0 ≤ p) (hp : p.toNat < vectors.length)
    (hi0 : 0 ≤ i) (hi : i.toNat < vectors.length) :
    ∃ sc, sumSqCountFl fl vectors p i = .ok sc ∧ 0 ≤ sc.1 := by
  unfold sumSqCountFl
  rw [readInt_ok vectors p hp0 hp, bind_ok]
  have hlenP : (vectors[p.toNat]).length = dim := hrect _ (List.getElem_mem hp)
  have hlenI : (vectors[i.toNat]).length = dim := hrect _ (List.getElem_mem hi)
  obtain ⟨sc, hsc, hinv⟩ := foldlM_range_inv
    (fun (acc : α × Nat) j => do
      let rowI ← readInt vectors i
      let vi ← readNat rowI j
      let vj ← readNat vectors[p.toNat] j
      match vi, vj with
      | some x, some y => pure (fl (acc.1 + fl (fl (x - y) * fl (x - y))), acc.2 + 1)
      | _, _ => pure acc)
    (fun _ acc => 0 ≤ acc.1) (vectors[p.toNat]).length (0, 0) (le_refl _)
    (by
      intro j b hj hb
      beta_reduce
      rw [readInt_ok vectors i hi0 hi, bind_ok, readNat_ok _ j (by omega), bind_ok,
        readNat_ok _ j hj, bind_ok]
      split
      · rename_i x y _ _
        refine ⟨_, rfl, ?_⟩
        have h1 : 0 ≤ fl (fl (x - y) * fl (x - y)) := by
          have := hmono (mul_self_nonneg (fl (x - y)))
          rwa [hfl0] at this
        have h2 := hmono (add_nonneg hb h1)
        rwa [hfl0] at h2
      · exact ⟨_, rfl, hb⟩)
  exact ⟨sc, hsc, hinv⟩

/-- The search in rounded arithmetic returns, and every distance is `≥ 0`. -/
theorem neighborSearchFl_ok (fl : α → α) (hfl0 : fl 0 = 0) (hmono : Monotone fl)
    (ext : Externals α) (hsqrt : SqrtNonneg ext)
    (vectors : List (List (Option α))) (dim : Nat) (lib : List Int) (p : Int)
    (hrect : ∀ row ∈ vectors, row.length = dim)
    (hp0 : 0 ≤ p) (hp : p.toNat < vectors.length)
    (hlib : ∀ i ∈ lib, 0 ≤ i ∧ i.toNat < vectors.length) :
    ∃ c, neighborSearchFl fl ext vectors lib p = .ok c ∧ c.1.length = c.2.length ∧
      (∀ i ∈ c.2, i ∈ lib ∧ i ≠ p) ∧ (∀ d ∈ c.1, 0 ≤ d) ∧
      (∀ d ∈ c.1, ∃ x, d = ext.sqrt x) := by
  unfold neighborSearchFl
  apply foldlM_list_inv _ (fun c : List α × List Int =>
    c.1.length = c.2.length ∧ (∀ i ∈ c.2, i ∈ lib ∧ i ≠ p) ∧ (∀ d ∈ c.1, 0 ≤ d) ∧
      (∀ d ∈ c.1, ∃ x, d = ext.sqrt x)) lib ([], [])
  · refine ⟨rfl, ?_, ?_, ?_⟩
    · intro i hi
      cases hi
    · intro d hd
      cases hd
    · intro d hd
      cases hd
  · intro i acc hi hinv
    by_cases hip : i = p
    · rw [if_pos hip]
      exact ⟨acc, rfl, hinv⟩
    · rw [if_neg hip]
      obtain ⟨sc, hsc, hnn⟩ := sumSqCountFl_ok fl hfl0 hmono vectors dim p i hrect hp0 hp
        (hlib i hi).1 (hlib i hi).2
      rw [hsc, bind_ok]
      by_cases hpos : sc.2 > 0
      · rw [if_pos hpos]
        refine ⟨_, rfl, ?_, ?_, ?_, ?_⟩
        · simp [hinv.1]
        · intro k hk
          rcases List.mem_append.mp hk with hk | hk
          · exact hinv.2.1 k hk
          · rw [List.mem_singleton.mp hk]
            exact ⟨hi, hip⟩
        · intro d hd
          rcases List.mem_append.mp hd with hd | hd
          · exact hinv.2.2.1 d hd
          · rw [List.mem_singleton.mp hd]
            have h1 : 0 ≤ fl (sc.1 / (sc.2 : α)) := by
              have := hmono (div_nonneg hnn (Nat.cast_nonneg sc.2))
              rwa [hfl0] at this
            exact (hsqrt _ h1).1
        · intro d hd
          rcases List.mem_append.mp hd with hd | hd
          · exact hinv.2.2.2 d hd
          · exact ⟨_, List.mem_singleton.mp hd⟩
      · rw [if_neg hpos]
        exact ⟨acc, rfl, hinv⟩

/-- The rounded running sum of non-negative doubles is a non-negative double
that is at least every summand and at least the initial value. -/
theorem foldl_fl_ge (fl : α → α) (hmono : Monotone fl) (hidem : ∀ x, fl (fl x) = fl x) :
    ∀ (l : List α) (s : α), 0 ≤ s → fl s = s → (∀ d ∈ l, 0 ≤ d ∧ fl d = d) →
      s ≤ l.foldl (fun s d => fl (s + d)) s ∧
        (∀ d ∈ l, d ≤ l.foldl (fun s d => fl (s + d)) s) := by
  intro l
  induction l with
  | nil => intro s _ _ _; exact ⟨le_refl _, fun d hd => by cases hd⟩
  | cons a l ih =>
    intro s hs hfs hl
    have ha := hl a (List.mem_cons_self _ _)
    have h1 : s ≤ fl (s + a) := by
      have := hmono (show s ≤ s + a by linarith [ha.1])
      rwa [hfs] at this
    have h2 : a ≤ fl (s + a) := by
      have := hmono (show a ≤ s + a by linarith)
      rwa [ha.2] at this
    obtain ⟨h3, h4⟩ := ih (fl (s + a)) (le_trans hs h1) (hidem _)
      (fun d hd => hl d (List.mem_cons_of_mem _ hd))
    rw [List.foldl_cons]
    refine ⟨le_trans h1 h3, ?_⟩
    intro d hd
    rcases List.mem_cons.mp hd with rfl | hd
    · exact le_trans h2 h3
    · exact h4 d hd

theorem foldl_fl_nonneg (fl : α → α) (hfl0 : fl 0 = 0) (hmono : Monotone fl) :
    ∀ (l : List α) (s : α), 0 ≤ s → (∀ d ∈ l, 0 ≤ d) →
      0 ≤ l.foldl (fun s d => fl (s + d)) s := by
  intro l
  induction l with
  | nil => intro s hs _; exact hs
  | cons a l ih =>
    intro s hs hl
    rw [List.foldl_cons]
    apply ih _ _ (fun d hd => hl d (List.mem_cons_of_mem _ hd))
    have := hmono (add_nonneg hs (hl a (List.mem_cons_self _ _)))
    rwa [hfl0] at this

theorem foldl_fl_zero (fl : α → α) (hfl0 : fl 0 = 0) :
    ∀ (l : List α), (∀ d ∈ l, d = 0) → l.foldl (fun s d => fl (s + d)) 0 = 0 := by
  intro l
  induction l with
  | nil => intro _; rfl
  | cons a l ih =>
    intro hl
    rw [List.foldl_cons, hl a (List.mem_cons_self _ _), add_zero, hfl0]
    exact ih (fun d hd => hl d (List.mem_cons_of_mem _ hd))

theorem meanDistanceFl_nonneg (fl : α → α) (hfl0 : fl 0 = 0) (hmono : Monotone fl)
    (l : List α) (h : ∀ d ∈ l, 0 ≤ d) : 0 ≤ meanDistanceFl fl l := by
  unfold meanDistanceFl
  have := hmono (div_nonneg (foldl_fl_nonneg fl hfl0 hmono l 0 (le_refl _) h)
    (Nat.cast_nonneg l.length))
  rwa [hfl0] at this

theorem meanDistanceFl_of_zero (fl : α → α) (hfl0 : fl 0 = 0) (l : List α)
    (h : ∀ d ∈ l, d = 0) : meanDistanceFl fl l = 0 := by
  unfold meanDistanceFl
  rw [foldl_fl_zero fl hfl0 l h, zero_div, hfl0]

/-- When the quotient of a non-zero distance by the number of candidates does
not underflow, a non-zero distance gives a positive mean. -/
theorem meanDistanceFl_pos (fl : α → α) (hfl0 : fl 0 = 0) (hmono : Monotone fl)
    (hidem : ∀ x, fl (fl x) = fl x) (l : List α) (h : ∀ d ∈ l, 0 ≤ d)
    (hrep : ∀ d ∈ l, fl d = d)
    (hquot : ∀ d ∈ l, 0 < d → 0 < fl (d / (l.length : α)))
    (hx : ∃ d ∈ l, d ≠ 0) : 0 < meanDistanceFl fl l := by
  obtain ⟨d, hd, hd0⟩ := hx
  have hdpos : 0 < d := lt_of_le_of_ne (h d hd) (Ne.symm hd0)
  have hge := (foldl_fl_ge fl hmono hidem l 0 (le_refl _) hfl0
    (fun x hx => ⟨h x hx, hrep x hx⟩)).2 d hd
  have hn : (0 : α) < (l.length : α) := by
    have : 0 < l.length := List.length_pos.mpr (List.ne_nil_of_mem hd)
    exact_mod_cast this
  unfold meanDistanceFl
  exact lt_of_lt_of_le (hquot d hd hdpos) (hmono (div_le_div_of_nonneg_right hge (le_of_lt hn)))

theorem kernelWeightsFl_of_mean_zero (fl : α → α) (ext : Externals α) (theta : Option α)
    (distances : List α) (h : meanDistanceFl fl distances = 0) :
    ∀ w ∈ kernelWeightsFl fl ext theta distances, w = none := by
  intro w hw
  unfold kernelWeightsFl at hw
  obtain ⟨d, -, rfl⟩ := List.mem_map.mp hw
  cases theta <;> simp [dneg, dmul, ddiv, h]

theorem kernelWeightsFl_of_mean_ne_zero (fl : α → α) (ext : Externals α) (t : α)
    (distances : List α) (h : meanDistanceFl fl distances ≠ 0) :
    kernelWeightsFl fl ext (some t) distances =
      distances.map fun d =>
        some (ext.exp (fl (fl (-t * d) / meanDistanceFl fl distances))) := by
  unfold kernelWeightsFl
  apply List.map_congr_left
  intro d _
  simp [dneg, dmul, ddiv, h]

theorem sumSqCountFl_id (vectors : List (List (Option α))) (p i : Int) :
    sumSqCountFl id vectors p i = sumSqCount vectors p i := by
  unfold sumSqCountFl sumSqCount
  congr 1

/-- Without rounding the search in rounded arithmetic is `neighborSearch`. -/
theorem neighborSearchFl_id (ext : Externals α) (vectors : List (List (Option α)))
    (lib : List Int) (p : Int) :
    neighborSearchFl id ext vectors lib p = neighborSearch ext vectors lib p := by
  unfold neighborSearchFl neighborSearch
  simp only [sumSqCountFl_id, id]

/-- Without rounding the weights in rounded arithmetic are `kernelWeights`. -/
theorem kernelWeightsFl_id (ext : Externals α) (theta : Option α) (distances : List α) :
    kernelWeightsFl id ext theta distances = kernelWeights ext theta distances := by
  unfold kernelWeightsFl kernelWeights meanDistanceFl
  apply List.map_congr_left
  intro d _
  simp only [Option.map_id, id]

end SMapFacts

/-! ## Evaluation of the rational examples -/

section Evaluation

set_option maxRecDepth 4000 in
theorem demo_found :
    neighborSearch tableExt demoVectors [1, 2] 0 = .ok ([3/4, 4/3], [1, 2]) := by
  simp [neighborSearch, sumSqCount, readInt, readNat, demoVectors, tableExt, List.foldlM, bind,
    Except.bind, pure, Except.pure, List.range, List.range.loop]
  norm_num

set_option maxRecDepth 4000 in
theorem cex_found :
    neighborSearch tableExt cexVectors [1, 2, 3, 4] 0 = .ok ([1, 1, 1, 1], [1, 2, 3, 4]) := by
  simp [neighborSearch, sumSqCount, readInt, readNat, cexVectors, tableExt, List.foldlM, bind,
    Except.bind, pure, Except.pure, List.range, List.range.loop]
  norm_num

set_option maxRecDepth 4000 in
theorem demo_neighbors :
    queryNeighbors tableExt (some 0) 2 ([3/4, 4/3], [1, 2]) = [(1, some 1), (2, some 1)] := by
  simp [queryNeighbors, selectedNeighbors, kernelWeights, sortedNeighborIndices, closer,
    List.insertionSort, List.orderedInsert, List.range, List.range.loop, dneg, dmul, ddiv,
    tableExt]
  norm_num

set_option maxRecDepth 4000 in
theorem cex_neighbors :
    queryNeighbors tableExt (some 0) 4 ([1, 1, 1, 1], [1, 2, 3, 4]) =
      [(1, some 1), (2, some 1), (3, some 1), (4, some 1)] := by
  simp [queryNeighbors, selectedNeighbors, kernelWeights, sortedNeighborIndices, closer,
    List.insertionSort, List.orderedInsert, List.range, List.range.loop, dneg, dmul, ddiv,
    tableExt]
  norm_num

theorem demo_design :
    specDesignMatrix demoVectors [(1, some 1), (2, some 1)] = demoDesign := by
  simp [specDesignMatrix, demoVectors, demoDesign, dmul]

theorem cex_design :
    specDesignMatrix cexVectors [(1, some 1), (2, some 1), (3, some 1), (4, some 1)] =
      cexDesign := by
  simp [specDesignMatrix, cexVectors, cexDesign, dmul]

theorem demo_isSVD : IsSVD demoDesign demoSVD 2 2 := by
  refine ⟨rfl, ?_, ?_, ?_⟩
  · intro i hi l hl
    interval_cases i <;> interval_cases l <;>
      simp [entry, demoDesign, demoSVD, dsum, dmul, dadd, List.range, List.range.loop]
  · intro j hj j' hj'
    interval_cases j <;> interval_cases j' <;>
      simp [entry, demoSVD, dsum, dmul, dadd, List.range, List.range.loop]
  · intro k hk l hl
    interval_cases k <;> interval_cases l <;>
      simp [entry, demoSVD, dsum, dmul, dadd, List.range, List.range.loop] <;>
      norm_num

theorem cex_isSVD : IsSVD cexDesign cexSVD 4 2 := by
  refine ⟨rfl, ?_, ?_, ?_⟩
  · intro i hi l hl
    interval_cases i <;> interval_cases l <;>
      simp [entry, cexDesign, cexSVD, dsum, dmul, dadd, List.range, List.range.loop]
  · intro j hj j' hj'
    interval_cases j <;> interval_cases j' <;>
      simp [entry, cexSVD, dsum, dmul, dadd, List.range, List.range.loop] <;>
      norm_num
  · intro k hk l hl
    interval_cases k <;> interval_cases l <;>
      simp [entry, cexSVD, dsum, dmul, dadd, List.range, List.range.loop]

theorem tableExt_shaped : SVDShapedOn tableExt 1 := by
  intro A hA hrows
  show SVDShaped (tableSVD A) A.length 2
  unfold tableSVD
  split
  · rename_i h
    rw [h]
    refine ⟨by simp [demoSVD], rfl, rfl, ?_, ?_⟩ <;> simp [demoSVD]
  split
  · rename_i h
    rw [h]
    refine ⟨by simp [cexSVD], rfl, rfl, ?_, ?_⟩ <;> simp [cexSVD]
  · obtain ⟨row, rest, rfl⟩ := List.exists_cons_of_ne_nil hA
    have hrow : row.length = 2 := hrows row (List.mem_cons_self _ _)
    refine ⟨?_, by simp, by simp [hrow], ?_, ?_⟩
    · simp [hrow]
    · intro u hu
      rw [(List.mem_replicate.mp hu).2]
      simp
    · intro v hv
      rw [(List.mem_replicate.mp hv).2]
      simp [hrow]

theorem demo_inRange : InRange demoVectors demoTarget [1, 2] [0] 1 := by
  refine ⟨?_, ?_, ?_⟩
  · intro row hrow
    simp only [demoVectors, List.mem_cons, List.mem_singleton, List.not_mem_nil, or_false] at hrow
    rcases hrow with rfl | rfl | rfl <;> rfl
  · intro i hi
    simp only [List.mem_cons, List.mem_singleton, List.not_mem_nil, or_false] at hi
    rcases hi with rfl | rfl <;> simp [demoVectors, demoTarget]
  · intro p hp
    simp only [List.mem_singleton] at hp
    subst hp
    simp [demoVectors, demoTarget]

theorem cex_inRange : InRange cexVectors cexTarget [1, 2, 3, 4] [0] 1 := by
  refine ⟨?_, ?_, ?_⟩
  · intro row hrow
    simp only [cexVectors, List.mem_cons, List.mem_singleton, List.not_mem_nil, or_false] at hrow
    rcases hrow with rfl | rfl | rfl | rfl | rfl <;> rfl
  · intro i hi
    simp only [List.mem_cons, List.mem_singleton, List.not_mem_nil, or_false] at hi
    rcases hi with rfl | rfl | rfl | rfl <;> simp [cexVectors, cexTarget]
  · intro p hp
    simp only [List.mem_singleton] at hp
    subst hp
    simp [cexVectors, cexTarget]

theorem demo_linear : IsLinearTarget demoVectors demoTarget 1 (fun _ => 2) 1 := by
  intro i hi
  simp only [demoVectors, List.length_cons, List.length_nil] at hi
  interval_cases i <;>
    simp [demoVectors, demoTarget, entry, dsum, dmul, dadd, List.range, List.range.loop] <;>
    norm_num

theorem cex_linear : IsLinearTarget cexVectors cexTarget 1 (fun _ => 1) 0 := by
  intro i hi
  simp only [cexVectors, List.length_cons, List.length_nil] at hi
  interval_cases i <;>
    simp [cexVectors, cexTarget, entry, dsum, dmul, dadd, List.range, List.range.loop]

theorem demo_threshold : ∀ s ∈ demoSVD.S,
    s ≠ some 0 ∧ ∀ t ∈ demoSVD.S, dge s (dmul (some tol) t) = true := by
  simp [demoSVD, dge, dmul, tol]
  norm_num

theorem tableSVD_demo : tableExt.CppSVD demoDesign = demoSVD := by
  simp [tableExt, tableSVD]

theorem tableSVD_cex : tableExt.CppSVD cexDesign = cexSVD := by
  simp [tableExt, tableSVD, cexDesign, demoDesign]

theorem list_eq_of_entries (r : List (Option ℚ)) (l : List (Option ℚ))
    (hlen : r.length = l.length) (h : ∀ i, i < l.length → r[i]? = l[i]?) : r = l := by
  apply List.ext_getElem? 
  intro i
  by_cases hi : i < l.length
  · exact h i hi
  · rw [List.getElem?_eq_none (by omega), List.getElem?_eq_none (by omega)]

/-- The call on the first example returns the target value `1` at index `0`. -/
theorem demo_prediction :
    SMapPrediction tableExt demoVectors demoTarget [1, 2] [0] 2 (some 0) =
      .ok [some 1, none, none] := by
  obtain ⟨r, hr, hlen, hent⟩ := SMapPrediction_inRange tableExt demoVectors demoTarget [1, 2]
    [0] 2 (some 0) 1 (by decide) (by simp) (by simp) demo_inRange tableExt_shaped
  obtain ⟨max_s, hmax, -, hval, -⟩ := SMapPrediction_stored tableExt demoVectors demoTarget
    [1, 2] [0] 2 (some 0) 1 0 ([3/4, 4/3], [1, 2]) (by decide) demo_inRange tableExt_shaped
    (by simp) demo_found (by rw [demo_neighbors]; simp)
  have hlinear := specLocalPrediction_linear tableExt demoVectors demoTarget 2 1 (fun _ => 2) 1
    0 ([3/4, 4/3], [1, 2]) max_s (by simp [tableExt]) demo_inRange.1 (by simp [demoVectors])
    rfl (by simp [demoVectors]) demo_linear (by rw [demo_neighbors]; simp)
    (by rw [demo_neighbors, demo_design, tableSVD_demo]; rfl)
    (by rw [demo_neighbors, demo_design, tableSVD_demo]; exact demo_isSVD)
    hmax (by rw [demo_neighbors, demo_design, tableSVD_demo]; exact demo_threshold)
  rw [hr]
  congr 1
  apply list_eq_of_entries r _ (by rw [hlen]; rfl)
  intro i hi
  simp only [List.length_cons, List.length_nil] at hi
  rw [hent i (by simp only [demoTarget, List.length_cons, List.length_nil]; omega)]
  interval_cases i
  · unfold storedEntry
    rw [if_pos (by simp), hval, hlinear]
    rfl
  · simp [storedEntry]
  · simp [storedEntry]

set_option maxRecDepth 8000 in
theorem cex_local_prediction :
    specLocalPrediction tableExt cexVectors cexTarget
      [(1, some 1), (2, some 1), (3, some 1), (4, some 1)] (some 2) (cexVectors.getD 0 []) =
      some 0 := by
  unfold specLocalPrediction
  rw [cex_design, tableSVD_cex]
  simp [specPrediction, specCoeff, specSinv, transposeMulVec, specResponse, entry, cexSVD,
    cexTarget, cexVectors, dsum, dmul, dadd, dge, ddiv, tol, List.range, List.range.loop]
  norm_num

/-- The call on the second example returns `0` at index `0`, where the target
is `1`. -/
theorem cex_prediction :
    SMapPrediction tableExt cexVectors cexTarget [1, 2, 3, 4] [0] 4 (some 0) =
      .ok [some 0, none, none, none, none] := by
  obtain ⟨r, hr, hlen, hent⟩ := SMapPrediction_inRange tableExt cexVectors cexTarget
    [1, 2, 3, 4] [0] 4 (some 0) 1 (by decide) (by simp) (by simp) cex_inRange tableExt_shaped
  obtain ⟨max_s, hmax, hgreatest, hval, -⟩ := SMapPrediction_stored tableExt cexVectors
    cexTarget [1, 2, 3, 4] [0] 4 (some 0) 1 0 ([1, 1, 1, 1], [1, 2, 3, 4]) (by decide)
    cex_inRange tableExt_shaped (by simp) cex_found (by rw [cex_neighbors]; simp)
  rw [cex_neighbors, cex_design, tableSVD_cex] at hmax hgreatest
  rw [cex_neighbors] at hval
  have hm : max_s = some 2 := by
    simp only [cexSVD, List.mem_cons, List.mem_singleton, List.not_mem_nil, or_false] at hmax
    rcases hmax with rfl | rfl
    · rfl
    · have := hgreatest (some 2) (by simp [cexSVD])
      simp [dlt] at this
  rw [hm, cex_local_prediction] at hval
  rw [hr]
  congr 1
  apply list_eq_of_entries r _ (by rw [hlen]; rfl)
  intro i hi
  simp only [List.length_cons, List.length_nil] at hi
  rw [hent i (by simp only [cexTarget, List.length_cons, List.length_nil]; omega)]
  interval_cases i
  · unfold storedEntry
    rw [if_pos (by simp), hval]
    rfl
  all_goals simp [storedEntry]

set_option maxRecDepth 4000 in
theorem tie_found :
    neighborSearch tableExt tieVectors [2, 1] 0 = .ok ([1, 1], [2, 1]) := by
  simp [neighborSearch, sumSqCount, readInt, readNat, tieVectors, tableExt, List.foldlM, bind,
    Except.bind, pure, Except.pure, List.range, List.range.loop]
  norm_num

set_option maxRecDepth 4000 in
theorem tie_sorted : sortedNeighborIndices ([1, 1] : List ℚ) = [0, 1] := by
  simp [sortedNeighborIndices, closer, List.insertionSort, List.orderedInsert, List.range,
    List.range.loop]

set_option maxRecDepth 4000 in
theorem tie_neighbors :
    queryNeighbors tableExt (some 0) 1 ([1, 1], [2, 1]) = [(2, some 1)] := by
  simp [queryNeighbors, selectedNeighbors, kernelWeights, sortedNeighborIndices, closer,
    List.insertionSort, List.orderedInsert, List.range, List.range.loop, dneg, dmul, ddiv,
    tableExt]

set_option maxRecDepth 4000 in
theorem dup_found :
    neighborSearch tableExt dupVectors [1] 0 = .ok ([0], [1]) := by
  simp [neighborSearch, sumSqCount, readInt, readNat, dupVectors, tableExt, List.foldlM, bind,
    Except.bind, pure, Except.pure, List.range, List.range.loop]
  norm_num

theorem dup_weights : kernelWeights tableExt (some 0) ([0] : List ℚ) = [none] := by
  simp [kernelWeights, dneg, dmul, ddiv]

theorem dup_neighbors :
    queryNeighbors tableExt (some 0) 1 ([0], [1]) = [(1, none)] := by
  simp [queryNeighbors, selectedNeighbors, kernelWeights, sortedNeighborIndices,
    List.insertionSort, List.orderedInsert, List.range, List.range.loop, dneg, dmul, ddiv]

theorem rootExt_sqrt : SqrtNonneg rootExt := by
  intro x hx
  simp only [rootExt]
  by_cases h1 : x = 9/16
  · subst h1; norm_num
  · by_cases h2 : x = 16/9
    · subst h2; norm_num
    · simp [h1, h2, hx]

theorem demo_search_inRange :
    (∀ row ∈ demoVectors, row.length = 1) ∧
      (0 ≤ (0 : Int) ∧ (0 : Int) < (demoVectors.length : Int)) ∧
      ∀ i ∈ ([0, 1, 2] : List Int), 0 ≤ i ∧ i < (demoVectors.length : Int) := by
  refine ⟨demo_inRange.1, by simp [demoVectors], ?_⟩
  intro i hi
  simp only [List.mem_cons, List.mem_singleton, List.not_mem_nil, or_false] at hi
  rcases hi with rfl | rfl | rfl <;> simp [demoVectors]

theorem tie_search_inRange :
    (∀ row ∈ tieVectors, row.length = 1) ∧
      (0 ≤ (0 : Int) ∧ (0 : Int) < (tieVectors.length : Int)) ∧
      ∀ i ∈ ([1, 2] : List Int), 0 ≤ i ∧ i < (tieVectors.length : Int) := by
  refine ⟨?_, by simp [tieVectors], ?_⟩
  · intro row hrow
    simp only [tieVectors, List.mem_cons, List.mem_singleton, List.not_mem_nil, or_false] at hrow
    rcases hrow with rfl | rfl | rfl <;> rfl
  · intro i hi
    simp only [List.mem_cons, List.mem_singleton, List.not_mem_nil, or_false] at hi
    rcases hi with rfl | rfl <;> simp [tieVectors]

theorem dup_meanDistance : meanDistance ([0] : List ℚ) = 0 := by
  simp [meanDistance]

theorem dup_inRange : InRange dupVectors dupTarget [1] [0] 1 := by
  refine ⟨?_, ?_, ?_⟩
  · intro row hrow
    simp only [dupVectors, List.mem_cons, List.mem_singleton, List.not_mem_nil, or_false] at hrow
    rcases hrow with rfl | rfl <;> rfl
  · intro i hi
    simp only [List.mem_singleton] at hi
    subst hi
    simp [dupVectors, dupTarget]
  · intro p hp
    simp only [List.mem_singleton] at hp
    subst hp
    simp [dupVectors, dupTarget]

set_option maxRecDepth 8000 in
theorem dup_local_prediction (max_s : Option ℚ) :
    specLocalPrediction tableExt dupVectors dupTarget [(1, none)] max_s
      (dupVectors.getD 0 []) = none := by
  simp [specLocalPrediction, specPrediction, specCoeff, specSinv, transposeMulVec, specResponse,
    specDesignMatrix, entry, tableExt, tableSVD, demoDesign, cexDesign, dupTarget, dupVectors,
    dsum, dmul, dadd, List.range, List.range.loop]

/-- The call on `dupVectors`: the search for the query `0` finds the candidate
`1`, and the entry at `0` is NaN. -/
theorem dup_prediction :
    SMapPrediction tableExt dupVectors dupTarget [1] [0] 1 (some 0) = .ok [none, none] := by
  obtain ⟨r, hr, hlen, hent⟩ := SMapPrediction_inRange tableExt dupVectors dupTarget [1]
    [0] 1 (some 0) 1 (by decide) (by simp) (by simp) dup_inRange tableExt_shaped
  obtain ⟨max_s, -, -, hval, -⟩ := SMapPrediction_stored tableExt dupVectors dupTarget
    [1] [0] 1 (some 0) 1 0 ([0], [1]) (by decide) dup_inRange tableExt_shaped
    (by simp) dup_found (by rw [dup_neighbors]; simp)
  rw [dup_neighbors, dup_local_prediction] at hval
  rw [hr]
  congr 1
  apply list_eq_of_entries r _ (by rw [hlen]; rfl)
  intro i hi
  simp only [List.length_cons, List.length_nil] at hi
  rw [hent i (by simp only [dupTarget, List.length_cons, List.length_nil]; omega)]
  interval_cases i
  · unfold storedEntry
    rw [if_pos (by simp), hval]
    rfl
  · simp [storedEntry]

theorem flushFl_zero : flushFl 0 = 0 := by
  simp [flushFl]

theorem flushFl_mono : Monotone flushFl := by
  intro x y hxy
  have hc : (0 : ℚ) < 1 / 2 ^ 1075 := by positivity
  unfold flushFl
  split_ifs with hx hy hy
  · exact le_refl _
  · have h1 := (abs_le.mp hx).1
    rcases le_or_lt 0 y with h | h
    · exact h
    · rw [abs_of_neg h] at hy
      linarith
  · rcases le_or_lt x 0 with h | h
    · exact h
    · rw [abs_of_pos h] at hx
      have h2 := (abs_le.mp hy).2
      linarith
  · exact hxy

theorem flushFl_tiny : flushFl tiny = tiny := by
  unfold flushFl tiny
  rw [if_neg]
  rw [abs_of_nonneg (by positivity)]
  norm_num

theorem flushFl_tiny_sq : flushFl (tiny * tiny) = 0 := by
  unfold flushFl tiny
  rw [if_pos]
  rw [abs_of_nonneg (by positivity)]
  norm_num

theorem tiny_ne_zero : tiny ≠ 0 := by
  unfold tiny
  positivity

set_option maxRecDepth 8000 in
theorem tiny_found :
    neighborSearchFl flushFl rootExt tinyVectors [1] 0 = .ok ([0], [1]) := by
  simp [neighborSearchFl, sumSqCountFl, readInt, readNat, tinyVectors, rootExt,
    List.foldlM, bind, Except.bind, pure, Except.pure, List.range, List.range.loop,
    flushFl_zero, flushFl_tiny, flushFl_tiny_sq]
  norm_num

theorem tiny_meanDistance : meanDistanceFl flushFl ([0] : List ℚ) = 0 := by
  simp [meanDistanceFl, flushFl_zero]

theorem tiny_weights (theta : Option ℚ) :
    kernelWeightsFl flushFl rootExt theta ([0] : List ℚ) = [none] := by
  cases theta <;> simp [kernelWeightsFl, meanDistanceFl, flushFl_zero, dneg, dmul, ddiv]

end Evaluation

/-! ## Claims about `Embed` -/

section EmbedClaims

variable {α : Type}

/-- C2 as stated fails: for `E = 2`, `tau = 2147483647`, `style = 1` and a
series of length `5` the largest lag of the schedule is `E*tau = 4294967294 ≥
5`, but the product overflows, `max_lag` is `-2`, the pre-check passes and
`Embed` returns a matrix. -/
theorem embed_overflow_counterexample :
    (1 : Int) ≤ 2 ∧ (0 : Int) ≤ 2147483647 ∧
      maxLag 2 2147483647 1 = 2 * 2147483647 ∧
      (([some (1 : Int), some 2, some 3, some 4, some 5].length : Nat) : Int) ≤
        maxLag 2 2147483647 1 ∧
      maxLag32 2 2147483647 1 = -2 ∧
      Embed32 [some (1 : Int), some 2, some 3, some 4, some 5] 2 2147483647 1 =
        .ok [[some 3], [some 4], [some 5], [none], [none]] :=
  ⟨by decide, by decide, by decide, by decide, by decide, rfl⟩

/-- C2 (amended): for `E ≥ 1` and `tau ≥ 0` such that the length of the series
and `max_lag` are values of `int` (no product overflows), `Embed` fails with
the `InvalidParameters` error if and only if `max_lag ≥ N`, where `max_lag` is
the largest lag of the schedule (`E-1` when `tau = 0`, `E*tau` when `tau > 0`
and `style = 1`, `(E-1)*tau` when `tau > 0` and `style = 0`); the outcome of
the check depends on the length of the series only, not on any cell. -/
theorem embed_invalid_parameters_iff (vec : List (Option α)) (E tau style : Int)
    (hE : 1 ≤ E) (htau : 0 ≤ tau) (hno : NoOverflow vec.length E tau style) :
    (Embed32 vec E tau style = .error .invalidParameters ↔
        (vec.length : Int) ≤ maxLag E tau style) ∧
      maxLag32 E tau style = maxLag E tau style ∧
      (∀ j : Nat, (j : Int) < E → lagOf32 tau style j = lagOf tau style j) ∧
      (∀ j : Nat, (j : Int) < E → lagOf tau style j ≤ maxLag E tau style) ∧
      (∃ j : Nat, (j : Int) < E ∧ lagOf tau style j = maxLag E tau style) ∧
      (tau = 0 → maxLag E tau style = E - 1) ∧
      (0 < tau → style = 1 → maxLag E tau style = E * tau) ∧
      (0 < tau → style = 0 → maxLag E tau style = (E - 1) * tau) ∧
      (∀ vec2 : List (Option α), vec2.length = vec.length →
        (vec.length : Int) ≤ maxLag E tau style →
        Embed32 vec2 E tau style = .error .invalidParameters) := by
  have hm := maxLag32_eq vec.length E tau style hno
  have hN : wrapInt (vec.length : Int) = (vec.length : Int) :=
    wrapInt_eq _ (by have := hno.1; unfold InInt; omega)
  have key : ∀ v : List (Option α), v.length = vec.length →
      (Embed32 v E tau style = .error .invalidParameters ↔
        (v.length : Int) ≤ maxLag E tau style) := by
    intro v hv
    rw [Embed32_eq, hm, hv, hN]
    constructor
    · intro h
      by_contra hn
      rw [if_neg hn] at h
      split at h
      · cases h
      split at h
      · cases h
      · cases h
    · intro h
      rw [if_pos h]
  refine ⟨key vec rfl, hm, fun j hj => lagOf32_eq vec.length E tau style hno j hj,
    fun j hj => lagOf_le_maxLag E tau style htau j hj,
    ⟨(E - 1).toNat, by omega, (maxLag_eq_lagOf E tau style hE).symm⟩, ?_, ?_, ?_, ?_⟩
  · intro h; simp [maxLag, h]
  · intro h1 h2
    have : tau ≠ 0 := by omega
    simp [maxLag, this, h2]
  · intro h1 h2
    have : tau ≠ 0 := by omega
    simp [maxLag, this, h2]
  · intro vec2 hlen h
    exact (key vec2 hlen).mpr (by rw [hlen]; exact h)

/-- C2 (amended), evaluated on the documented example: `Embed([1,2,3], E=5,
tau=1, style=1)` fails because `max_lag = 5 ≥ 3`. -/
theorem embed_invalid_parameters_iff_witness :
    (1 : Int) ≤ 5 ∧ (0 : Int) ≤ 1 ∧
      NoOverflow [some (1 : Int), some 2, some 3].length 5 1 1 ∧
      Embed32 [some (1 : Int), some 2, some 3] 5 1 1 = .error .invalidParameters ∧
      maxLag 5 1 1 = 5 :=
  ⟨by decide, by decide, by decide,
    (embed_invalid_parameters_iff [some (1 : Int), some 2, some 3] 5 1 1
      (by decide) (by decide) (by decide)).1.mpr (by decide),
    by decide⟩

/-- C4 as stated fails: `E = -1`, `tau = 0` passes the pre-check (`max_lag = -2 <
3`), there is no column that is not missing, and `Embed` neither fails with the
`InsufficientEmbeddingDimension` error nor returns a matrix: allocating rows of
`E` cells throws `std::length_error`. -/
theorem embed_negative_dimension_counterexample :
    maxLag32 (-1) 0 0 < wrapInt (([some (1 : Int), some 2, some 3].length : Nat) : Int) ∧
      (∀ t j : Nat, t < [some (1 : Int), some 2, some 3].length → (j : Int) < -1 →
        cellAt (lagMatrix32 [some (1 : Int), some 2, some 3] (-1 : Int).toNat 0 0) t j = none) ∧
      Embed32 [some (1 : Int), some 2, some 3] (-1) 0 0 = .error .lengthError ∧
      Embed32 [some (1 : Int), some 2, some 3] (-1) 0 0 ≠
        .error .insufficientEmbeddingDimension ∧
      ¬ ∃ M, Embed32 [some (1 : Int), some 2, some 3] (-1) 0 0 = .ok M := by
  refine ⟨by decide, ?_, rfl, ?_, ?_⟩
  · intro t j _ hj
    omega
  · intro h
    cases h
  · rintro ⟨M, h⟩
    cases h

/-- C4 (amended): for `E ≥ 0` and an input that passes the `max_lag < N`
pre-check (as the code evaluates it, in `int` arithmetic), `Embed` fails with
the `InsufficientEmbeddingDimension` error if and only if every cell of the
unpruned `N × E` lag matrix is missing (all `E` columns would be pruned);
otherwise it returns a matrix. -/
theorem embed_insufficient_dimension_iff (vec : List (Option α)) (E tau style : Int)
    (hE : 0 ≤ E) (hpre : maxLag32 E tau style < wrapInt (vec.length : Int)) :
    (Embed32 vec E tau style = .error .insufficientEmbeddingDimension ↔
        ∀ t j : Nat, t < vec.length → (j : Int) < E →
          cellAt (lagMatrix32 vec E.toNat tau style) t j = none) ∧
      ((¬ ∀ t j : Nat, t < vec.length → (j : Int) < E →
          cellAt (lagMatrix32 vec E.toNat tau style) t j = none) →
        ∃ M, Embed32 vec E tau style = .ok M) := by
  have hall : (∀ t j : Nat, t < vec.length → (j : Int) < E →
      cellAt (lagMatrix32 vec E.toNat tau style) t j = none) ↔
      nonMissingColumns32 vec E.toNat tau style = [] := by
    rw [nonMissingColumns32_eq_nil]
    constructor
    · intro h t j ht hj
      rw [← cellAt_lagMatrix32 vec E.toNat tau style t j ht hj]
      exact h t j ht (by omega)
    · intro h t j ht hj
      rw [cellAt_lagMatrix32 vec E.toNat tau style t j ht (by omega)]
      exact h t j ht (by omega)
  rw [hall, Embed32_eq, if_neg (by omega), if_neg (by omega)]
  constructor
  · constructor
    · intro h
      by_contra hn
      rw [if_neg hn] at h
      cases h
    · intro h
      rw [if_pos h]
  · intro hn
    rw [if_neg hn]
    exact ⟨_, rfl⟩

/-- C4 (amended), evaluated on a series that is missing throughout. -/
theorem embed_insufficient_dimension_iff_witness :
    (0 : Int) ≤ 1 ∧
      maxLag32 1 0 0 < wrapInt ((([none, none] : List (Option Int)).length : Nat) : Int) ∧
      Embed32 ([none, none] : List (Option Int)) 1 0 0 =
        .error .insufficientEmbeddingDimension :=
  ⟨by decide, by decide,
    (embed_insufficient_dimension_iff ([none, none] : List (Option Int)) 1 0 0
      (by decide) (by decide)).1.mpr (by
        intro t j ht hj
        have hj0 : j = 0 := by omega
        subst hj0
        simp only [List.length_cons, List.length_nil] at ht
        interval_cases t <;> rfl)⟩

/-- C11 as stated fails: the call `Embed(vec, E, tau)` without a `style`
argument, on `vec = [1,2,3,4,5]`, `E = 2`, `tau = 1`, returns the columns of
the lags `0, 1` (`style = 0`), not those of the lags `1, 2` (the result of
`style = 1`); cell `(0, 0)` of the unpruned matrix holds `vec[0]` although
`0 - (0+1)*tau` is not an index. -/
theorem embed_default_style_counterexample :
    EmbedDefaultStyle [some (1 : Int), some 2, some 3, some 4, some 5] 2 1 =
        .ok [[some 1, none], [some 2, some 1], [some 3, some 2], [some 4, some 3],
          [some 5, some 4]] ∧
      Embed32 [some (1 : Int), some 2, some 3, some 4, some 5] 2 1 1 =
        .ok [[none, none], [some 1, none], [some 2, some 1], [some 3, some 2],
          [some 4, some 3]] ∧
      cellAt (lagMatrix32 [some (1 : Int), some 2, some 3, some 4, some 5] 2 1 0) 0 0 =
        some 1 ∧
      ¬ (0 ≤ ((0 : Nat) : Int) - (((0 : Nat) : Int) + 1) * 1) :=
  ⟨rfl, rfl, rfl, by decide⟩

/-- C11 (amended): for `E ≥ 1` and `tau > 0` such that the length of the series
and `(E-1)*tau` are values of `int`, the call `Embed(vec, E, tau)` that passes
no `style` argument is the call with `style = 0`; it uses the lags `0, tau, ...,
(E-1)*tau`: `max_lag` is `(E-1)*tau`, and cell `(t, j)` of the unpruned matrix
is `vec[t - j*tau]` when that index is in range and missing otherwise. -/
theorem embed_default_style_lags (vec : List (Option α)) (E tau : Int)
    (hE : 1 ≤ E) (htau : 0 < tau) (hno : NoOverflow vec.length E tau 0) :
    EmbedDefaultStyle vec E tau = Embed32 vec E tau 0 ∧
      maxLag32 E tau 0 = (E - 1) * tau ∧
      (∀ j : Nat, (j : Int) < E → lagOf32 tau 0 j = (j : Int) * tau) ∧
      (∀ t j : Nat, t < vec.length → (j : Int) < E →
        cellAt (lagMatrix32 vec E.toNat tau 0) t j =
          if 0 ≤ (t : Int) - (j : Int) * tau ∧ (t : Int) - (j : Int) * tau < (vec.length : Int)
          then vec.getD ((t : Int) - (j : Int) * tau).toNat none else none) := by
  have ht0 : tau ≠ 0 := by omega
  have hlag : ∀ j : Nat, lagOf tau 0 j = (j : Int) * tau := by
    intro j
    simp [lagOf, ht0]
  refine ⟨rfl, ?_, ?_, ?_⟩
  · rw [maxLag32_eq vec.length E tau 0 hno]
    simp [maxLag, ht0]
  · intro j hj
    rw [lagOf32_eq vec.length E tau 0 hno j hj, hlag]
  · intro t j ht hj
    rw [cellAt_lagMatrix32 vec E.toNat tau 0 t j ht (by omega),
      lagCell32_eq vec E tau 0 hno t j ht hj]
    unfold lagCell
    simp only [hlag]

/-- C11 (amended), evaluated on `vec = [1,2,3,4,5]`, `E = 2`, `tau = 1`. -/
theorem embed_default_style_lags_witness :
    (1 : Int) ≤ 2 ∧ (0 : Int) < 1 ∧
      NoOverflow [some (1 : Int), some 2, some 3, some 4, some 5].length 2 1 0 ∧
      maxLag32 2 1 0 = (2 - 1) * 1 :=
  ⟨by decide, by decide, by decide,
    (embed_default_style_lags [some (1 : Int), some 2, some 3, some 4, some 5] 2 1
      (by decide) (by decide) (by decide)).2.1⟩

/-- C12 as stated fails: with `tau = 1`, `style = 2` and `style = -1` are not
rejected; `Embed` returns the matrix of `style = 0`. -/
theorem embed_style_two_counterexample :
    Embed32 [some (1 : Int), some 2, some 3] 2 1 2 =
        .ok [[some 1, none], [some 2, some 1], [some 3, some 2]] ∧
      Embed32 [some (1 : Int), some 2, some 3] 2 1 (-1) =
        .ok [[some 1, none], [some 2, some 1], [some 3, some 2]] ∧
      Embed32 [some (1 : Int), some 2, some 3] 2 1 0 =
        .ok [[some 1, none], [some 2, some 1], [some 3, some 2]] :=
  ⟨rfl, rfl, rfl⟩

/-- C12 (amended): a `style` value outside `{0, 1}` is not rejected: `Embed`
behaves exactly as with `style = 0`, with the same `max_lag`, the same lags
(`0, tau, ..., (E-1)*tau` for `tau ≠ 0`, in `int` arithmetic) and the same
result or error. -/
theorem embed_unknown_style_as_zero (vec : List (Option α)) (E tau style : Int)
    (hstyle : style ≠ 0 ∧ style ≠ 1) :
    Embed32 vec E tau style = Embed32 vec E tau 0 ∧
      maxLag32 E tau style = maxLag32 E tau 0 ∧
      (maxLag32 E tau style =
        if tau = 0 then wrapInt (E - 1) else wrapInt (wrapInt (E - 1) * tau)) ∧
      (∀ j : Nat, lagOf32 tau style j =
        if tau = 0 then (j : Int) else wrapInt ((j : Int) * tau)) ∧
      (∀ j : Nat, tau ≠ 0 → InInt ((j : Int) * tau) →
        lagOf32 tau style j = (j : Int) * tau) := by
  refine ⟨Embed32_style_eq vec E tau style hstyle.2, ?_, ?_, ?_, ?_⟩
  · simp [maxLag32, hstyle.2]
  · simp [maxLag32, hstyle.2]
  · intro j
    simp [lagOf32, hstyle.2]
  · intro j h0 hj
    simp only [lagOf32, h0, hstyle.2, if_false]
    exact wrapInt_eq _ hj

/-- C12 (amended), evaluated for `style = 2`. -/
theorem embed_unknown_style_as_zero_witness :
    ((2 : Int) ≠ 0 ∧ (2 : Int) ≠ 1) ∧
      Embed32 [some (1 : Int), some 2, some 3] 2 1 2 =
        Embed32 [some (1 : Int), some 2, some 3] 2 1 0 :=
  ⟨by decide, (embed_unknown_style_as_zero [some (1 : Int), some 2, some 3] 2 1 2
    (by decide)).1⟩

end EmbedClaims

/-! ## Claims about `SMap.cpp` -/

section SMapClaims

variable {α : Type} [LinearOrderedField α]

/-- C5: if `num_neighbors ≤ 0`, or `lib_indices` is empty, or `pred_indices` is
empty, `SMapPrediction` returns (it does not fail) a vector of length
`len(target)` in which every entry is missing. -/
theorem smap_prediction_degenerate (ext : Externals α) (vectors : List (List (Option α)))
    (target : List (Option α)) (lib_indices pred_indices : List Int) (num_neighbors : Int)
    (theta : Option α)
    (h : num_neighbors ≤ 0 ∨ lib_indices = [] ∨ pred_indices = []) :
    ∃ r, SMapPrediction ext vectors target lib_indices pred_indices num_neighbors theta = .ok r ∧
      r.length = target.length ∧ ∀ x ∈ r, x = none := by
  refine ⟨List.replicate target.length none, ?_, by simp, ?_⟩
  · unfold SMapPrediction
    have h' : num_neighbors ≤ 0 ∨ lib_indices.isEmpty = true ∨ pred_indices.isEmpty = true := by
      simpa only [List.isEmpty_iff] using h
    simp only [h', if_true]
  · intro x hx
    exact (List.mem_replicate.mp hx).2

/-- C6 as stated fails: in the call on `dupVectors` the index `0` occurs in
`pred_indices` and its neighbour search leaves the usable candidate `1` (at
distance `0`), yet the entry at `0` is missing: the value the regression stores
is NaN. -/
theorem smap_missing_with_candidate_counterexample :
    InRange dupVectors dupTarget [1] [0] 1 ∧
      neighborSearch tableExt dupVectors [1] 0 = .ok ([0], [1]) ∧
      (∃ v, predictAt tableExt dupVectors dupTarget [1] 1 (some 0) 0 = .ok (some v)) ∧
      SMapPrediction tableExt dupVectors dupTarget [1] [0] 1 (some 0) = .ok [none, none] := by
  refine ⟨dup_inRange, dup_found, ?_, dup_prediction⟩
  obtain ⟨max_s, -, -, hval, -⟩ := SMapPrediction_stored tableExt dupVectors dupTarget
    [1] [0] 1 (some 0) 1 0 ([0], [1]) (by decide) dup_inRange tableExt_shaped
    (by simp) dup_found (by rw [dup_neighbors]; simp)
  exact ⟨_, hval⟩

/-- C6 (amended): a non-degenerate call of `SMapPrediction` with in-range
indices (and an SVD result of the usual shape) returns a vector `r` of length
`len(target)`; an entry whose index is outside `pred_indices` is missing; for
an index `i` of `pred_indices` whose neighbour search yields no usable
candidate the iteration ends without a store and the entry is missing; the
iteration for `i` reaches the store if and only if the search leaves at least
one candidate, and entry `i` then holds the stored value, which is the value of
the local regression over the selected neighbours (a value that can itself be
NaN).  The call never aborts. -/
theorem smap_prediction_entries (ext : Externals α) (vectors : List (List (Option α)))
    (target : List (Option α)) (lib_indices pred_indices : List Int) (num_neighbors : Int)
    (theta : Option α) (dim : Nat)
    (hnn : 0 < num_neighbors) (hlib : lib_indices ≠ []) (hpred : pred_indices ≠ [])
    (hwf : InRange vectors target lib_indices pred_indices dim)
    (hsvd : SVDShapedOn ext dim) :
    ∃ r, SMapPrediction ext vectors target lib_indices pred_indices num_neighbors theta = .ok r ∧
      r.length = target.length ∧
      ∀ i : Nat, i < target.length →
        ((i : Int) ∉ pred_indices → r[i]? = some none) ∧
        ((i : Int) ∈ pred_indices →
          ∃ found, neighborSearch ext vectors lib_indices (i : Int) = .ok found ∧
            ((∃ v, predictAt ext vectors target lib_indices num_neighbors theta (i : Int) =
              .ok (some v)) ↔ found.1 ≠ []) ∧
            (found.1 = [] →
              predictAt ext vectors target lib_indices num_neighbors theta (i : Int) = .ok none ∧
              r[i]? = some none) ∧
            (found.1 ≠ [] → ∃ max_s,
              max_s ∈ (ext.CppSVD (specDesignMatrix vectors
                (queryNeighbors ext theta num_neighbors found))).S ∧
              (∀ s ∈ (ext.CppSVD (specDesignMatrix vectors
                (queryNeighbors ext theta num_neighbors found))).S, dlt max_s s = false) ∧
              predictAt ext vectors target lib_indices num_neighbors theta (i : Int) =
                .ok (some (specLocalPrediction ext vectors target
                  (queryNeighbors ext theta num_neighbors found) max_s (vectors.getD i []))) ∧
              r[i]? = some (specLocalPrediction ext vectors target
                (queryNeighbors ext theta num_neighbors found) max_s (vectors.getD i [])))) := by
  obtain ⟨r, hr, hlen, hent⟩ := SMapPrediction_inRange ext vectors target lib_indices
    pred_indices num_neighbors theta dim hnn hlib hpred hwf hsvd
  refine ⟨r, hr, hlen, ?_⟩
  intro i hi
  have hei := hent i hi
  constructor
  · intro hni
    rw [hei]
    simp [storedEntry, hni]
  · intro hip
    obtain ⟨found, hfound, hnone, hsome⟩ :=
      predictAt_inRange ext vectors target lib_indices pred_indices num_neighbors theta dim i
        hnn hwf hsvd hip
    refine ⟨found, hfound, ?_, ?_, ?_⟩
    · constructor
      · rintro ⟨v, hv⟩ hf
        rw [hnone hf] at hv
        cases hv
      · intro hf
        obtain ⟨m, -, -, hm⟩ := hsome hf
        exact ⟨_, hm⟩
    · intro hf
      refine ⟨hnone hf, ?_⟩
      rw [hei]
      simp [storedEntry, hip, hnone hf]
    · intro hf
      obtain ⟨m, hm1, hm2, hm⟩ := hsome hf
      have hq : vectors.getD ((i : Int)).toNat [] = vectors.getD i [] := by
        rw [Int.toNat_ofNat]
      rw [hq] at hm
      refine ⟨m, hm1, hm2, hm, ?_⟩
      rw [hei]
      simp [storedEntry, hip, hm]

/-- C7: for a prediction index `p` with `k ≥ 1` selected neighbours `(n_i, w_i)`
(call with in-range indices), the value `SMapPrediction` stores at `p` is
`dot(coeff[0..dim), vectors[p]) + coeff[dim]`, where `A` has the rows
`w_i · [vectors[n_i] ; 1]`, `b_i = w_i · target[n_i]`, `(U, S, V)` is the SVD
returned for `A`, `S_inv_j` is `1/S_j` when `S_j ≥ 1e-5 · max(S)` and `0`
otherwise, and `coeff = V · diag(S_inv) · Uᵗ · b`; `max(S)` is an entry of `S`
that no entry of `S` exceeds. -/
theorem smap_stored_value (ext : Externals α) (vectors : List (List (Option α)))
    (target : List (Option α)) (lib_indices pred_indices : List Int) (num_neighbors : Int)
    (theta : Option α) (dim : Nat) (p : Nat) (found : List α × List Int)
    (hnn : 0 < num_neighbors)
    (hwf : InRange vectors target lib_indices pred_indices dim)
    (hsvd : SVDShapedOn ext dim)
    (hp : (p : Int) ∈ pred_indices)
    (hfound : neighborSearch ext vectors lib_indices (p : Int) = .ok found)
    (hk : 1 ≤ (queryNeighbors ext theta num_neighbors found).length) :
    ∃ max_s,
      max_s ∈ (ext.CppSVD (specDesignMatrix vectors
        (queryNeighbors ext theta num_neighbors found))).S ∧
      (∀ s ∈ (ext.CppSVD (specDesignMatrix vectors
        (queryNeighbors ext theta num_neighbors found))).S, dlt max_s s = false) ∧
      predictAt ext vectors target lib_indices num_neighbors theta (p : Int) =
        .ok (some (specLocalPrediction ext vectors target
          (queryNeighbors ext theta num_neighbors found) max_s (vectors.getD p []))) ∧
      ∃ r, SMapPrediction ext vectors target lib_indices pred_indices num_neighbors theta =
          .ok r ∧
        r[p]? = some (specLocalPrediction ext vectors target
          (queryNeighbors ext theta num_neighbors found) max_s (vectors.getD p [])) :=
  SMapPrediction_stored ext vectors target lib_indices pred_indices num_neighbors theta dim p
    found hnn hwf hsvd hp hfound hk

/-- C8: the result of `SMapPrediction` depends on the set of prediction indices
only: two lists `P`, `Q` with the same elements (any order, any repetition)
give the same result; and when the call for `P` returns, the entry at an index
`i` of `P` is the entry at `i` of the call for the single index `[i]`. -/
theorem smap_prediction_order_independent (ext : Externals α)
    (vectors : List (List (Option α))) (target : List (Option α)) (lib_indices : List Int)
    (num_neighbors : Int) (theta : Option α) (P Q : List Int)
    (hset : ∀ x, x ∈ P ↔ x ∈ Q) :
    SMapPrediction ext vectors target lib_indices P num_neighbors theta =
        SMapPrediction ext vectors target lib_indices Q num_neighbors theta ∧
      ∀ i : Nat, (i : Int) ∈ P → ∀ r,
        SMapPrediction ext vectors target lib_indices P num_neighbors theta = .ok r →
        ∃ r1, SMapPrediction ext vectors target lib_indices [(i : Int)] num_neighbors theta =
            .ok r1 ∧ r[i]? = r1[i]? := by
  have hdeg : ∀ R : List Int, (num_neighbors ≤ 0 ∨ lib_indices = []) →
      SMapPrediction ext vectors target lib_indices R num_neighbors theta =
        .ok (List.replicate target.length none) := by
    intro R h
    unfold SMapPrediction
    have h' : num_neighbors ≤ 0 ∨ lib_indices.isEmpty = true ∨ R.isEmpty = true := by
      rcases h with h | h
      · exact Or.inl h
      · exact Or.inr (Or.inl (by simpa only [List.isEmpty_iff] using h))
    simp only [h', if_true]
  constructor
  · by_cases h : num_neighbors ≤ 0 ∨ lib_indices = []
    · rw [hdeg P h, hdeg Q h]
    · have hnn : 0 < num_neighbors := by
        by_contra hn; exact h (Or.inl (by omega))
      have hlib : lib_indices ≠ [] := fun hl => h (Or.inr hl)
      by_cases hP : P = []
      · have hQ : Q = [] := by
          apply List.eq_nil_iff_forall_not_mem.mpr
          intro x hx
          have := (hset x).mpr hx
          rw [hP] at this
          cases this
        rw [hP, hQ]
      · have hQ : Q ≠ [] := by
          intro hq
          obtain ⟨x, hx⟩ := List.exists_mem_of_ne_nil P hP
          have := (hset x).mp hx
          rw [hq] at this
          cases this
        rw [SMapPrediction_eq_fold ext vectors target lib_indices P num_neighbors theta hnn hlib hP,
          SMapPrediction_eq_fold ext vectors target lib_indices Q num_neighbors theta hnn hlib hQ]
        exact foldlM_storeStep_congr _ P Q hset _
  · intro i hi r hr
    by_cases h : num_neighbors ≤ 0 ∨ lib_indices = []
    · rw [hdeg P h] at hr
      cases hr
      exact ⟨_, hdeg _ h, rfl⟩
    · have hnn : 0 < num_neighbors := by
        by_contra hn; exact h (Or.inl (by omega))
      have hlib : lib_indices ≠ [] := fun hl => h (Or.inr hl)
      have hP : P ≠ [] := List.ne_nil_of_mem hi
      rw [SMapPrediction_eq_fold ext vectors target lib_indices P num_neighbors theta hnn hlib hP]
        at hr
      obtain ⟨hnf, hlen, hent⟩ := foldlM_storeStep_of_ok _ P _ r hr
      have hnf1 : ∀ p ∈ [(i : Int)], ¬ iterationFaults
          (predictAt ext vectors target lib_indices num_neighbors theta)
          (List.replicate target.length (none : Option α)).length p := by
        intro p hp
        rw [List.mem_singleton.mp hp]
        exact hnf _ hi
      obtain ⟨r1, hr1, hlen1, hent1⟩ := foldlM_storeStep_ok
        (predictAt ext vectors target lib_indices num_neighbors theta) [(i : Int)]
        (List.replicate target.length none) hnf1
      refine ⟨r1, by rw [SMapPrediction_eq_fold ext vectors target lib_indices _ num_neighbors
        theta hnn hlib (by simp), hr1], ?_⟩
      by_cases hiN : i < (List.replicate target.length (none : Option α)).length
      · rw [hent i hiN, hent1 i hiN]
        simp [storedEntry, hi]
      · rw [List.getElem?_eq_none (by omega), List.getElem?_eq_none (by omega)]

/-- C9: when the prediction vector `r` has fewer than 3 non-missing entries,
`SMap` returns missing and `SMapBehavior` returns `(missing, missing, missing)`
whatever the statistics routines are; this is the case whenever `pred_indices`
has fewer than 3 distinct indices; and when the count is at least 3 the results
are the values of `PearsonCor`, `CppMAE` and `CppRMSE` on `(prediction, target)`
with missing-skipping enabled. -/
theorem smap_scores_gated (ext : Externals α) (vectors : List (List (Option α)))
    (target : List (Option α)) (lib_indices pred_indices : List Int) (num_neighbors : Int)
    (theta : Option α) (r : List (Option α))
    (hr : SMapPrediction ext vectors target lib_indices pred_indices num_neighbors theta =
      .ok r) :
    ((r.filter fun x => x.isSome).length < 3 →
        ∀ ext' : Externals α, ext'.sqrt = ext.sqrt → ext'.exp = ext.exp →
          ext'.CppSVD = ext.CppSVD →
          SMap ext' vectors target lib_indices pred_indices num_neighbors theta = .ok none ∧
          SMapBehavior ext' vectors target lib_indices pred_indices num_neighbors theta =
            .ok [none, none, none]) ∧
      (pred_indices.dedup.length < 3 → (r.filter fun x => x.isSome).length < 3) ∧
      (3 ≤ (r.filter fun x => x.isSome).length →
        SMap ext vectors target lib_indices pred_indices num_neighbors theta =
          .ok (ext.PearsonCor r target true) ∧
        SMapBehavior ext vectors target lib_indices pred_indices num_neighbors theta =
          .ok [ext.PearsonCor r target true, ext.CppMAE r target true,
            ext.CppRMSE r target true]) := by
  refine ⟨?_, ?_, ?_⟩
  · intro hlt ext' h1 h2 h3
    have hr' := SMapPrediction_congr_ext ext ext' h1 h2 h3 vectors target lib_indices
      pred_indices num_neighbors theta
    have hc : ¬ checkOneDimVectorNotNanNum r ≥ 3 := by
      unfold checkOneDimVectorNotNanNum
      omega
    constructor
    · unfold SMap
      rw [hr', hr, bind_ok, if_neg hc]
      rfl
    · unfold SMapBehavior
      rw [hr', hr, bind_ok, if_neg hc]
      rfl
  · intro hd
    have := filter_isSome_length_le r pred_indices
      (SMapPrediction_some_mem ext vectors target lib_indices pred_indices num_neighbors theta
        r hr)
    omega
  · intro hge
    have hc : checkOneDimVectorNotNanNum r ≥ 3 := by
      unfold checkOneDimVectorNotNanNum
      omega
    constructor
    · unfold SMap
      rw [hr, bind_ok, if_pos hc]
      rfl
    · unfold SMapBehavior
      rw [hr, bind_ok, if_pos hc]
      rfl

/-- C10 (amended): with `theta = 0`, `exp 0 = 1` and a noiseless linear target
`target[i] = dot(c, vectors[i]) + c0`, for a prediction index `p` (call with
in-range indices) whose selected neighbours number at least `dim + 1`, if the
triple returned for the design matrix `A` is an exact SVD of `A` and every
singular value is non-zero and at least `1e-5` times every singular value (full
column rank, nothing under the threshold), then `SMapPrediction` returns and its
entry at `p` is `target[p] = dot(c, vectors[p]) + c0`. -/
theorem smap_recovers_linear_target (ext : Externals α) (vectors : List (List (Option α)))
    (target : List (Option α)) (lib_indices pred_indices : List Int) (num_neighbors : Int)
    (dim : Nat) (c : Nat → α) (c0 : α) (p : Nat) (found : List α × List Int)
    (hexp : ext.exp 0 = 1)
    (hnn : 0 < num_neighbors)
    (hwf : InRange vectors target lib_indices pred_indices dim)
    (hshape : SVDShapedOn ext dim)
    (hlin : IsLinearTarget vectors target dim c c0)
    (hp : (p : Int) ∈ pred_indices)
    (hfound : neighborSearch ext vectors lib_indices (p : Int) = .ok found)
    (hk : dim + 1 ≤ (queryNeighbors ext (some 0) num_neighbors found).length)
    (hsvd : IsSVD (specDesignMatrix vectors (queryNeighbors ext (some 0) num_neighbors found))
      (ext.CppSVD (specDesignMatrix vectors (queryNeighbors ext (some 0) num_neighbors found)))
      (queryNeighbors ext (some 0) num_neighbors found).length (dim + 1))
    (hthr : ∀ s ∈ (ext.CppSVD (specDesignMatrix vectors
        (queryNeighbors ext (some 0) num_neighbors found))).S,
      s ≠ some 0 ∧ ∀ t ∈ (ext.CppSVD (specDesignMatrix vectors
        (queryNeighbors ext (some 0) num_neighbors found))).S,
          dge s (dmul (some tol) t) = true) :
    ∃ r, SMapPrediction ext vectors target lib_indices pred_indices num_neighbors (some 0) =
        .ok r ∧
      r[p]? = some (target.getD p none) ∧
      target.getD p none =
        dadd (dsum ((List.range dim).map fun l => dmul (some (c l)) (entry vectors p l)))
          (some c0) := by
  have hpr := hwf.2.2 p hp
  obtain ⟨found', hfound', hlen, hmem⟩ := neighborSearch_ok ext vectors dim lib_indices p
    hwf.1 hpr.1 (by omega) (fun i hi => ⟨(hwf.2.1 i hi).1, by have := hwf.2.1 i hi; omega⟩)
  rw [hfound] at hfound'
  cases hfound'
  have hvl : ∀ i ∈ found.2, 0 ≤ i ∧ i.toNat < vectors.length := by
    intro i hi
    have := hwf.2.1 i (hmem i hi).1
    omega
  obtain ⟨max_s, hmax, -, -, r, hr, hrp⟩ := SMapPrediction_stored ext vectors target
    lib_indices pred_indices num_neighbors (some 0) dim p found hnn hwf hshape hp hfound
    (by omega)
  have hshapeA := specDesignMatrix_shape vectors dim
    (queryNeighbors ext (some 0) num_neighbors found) hwf.1
    (fun nw hnw => (hvl _ (queryNeighbors_mem ext (some 0) num_neighbors found hlen nw hnw)).2)
  have hA : specDesignMatrix vectors (queryNeighbors ext (some 0) num_neighbors found) ≠ [] := by
    intro h
    have := hshapeA.1
    rw [h] at this
    simp at this
    omega
  have hU := (hshape _ hA hshapeA.2).2.1
  rw [hshapeA.1] at hU
  refine ⟨r, hr, ?_, hlin p (by omega)⟩
  rw [hrp, specLocalPrediction_linear ext vectors target num_neighbors dim c c0 p found max_s
    hexp hwf.1 (by omega) hlen hvl hlin hk hU hsvd hmax hthr]

/-- C5, evaluated for `num_neighbors = 0`: the result is `[NaN, NaN, NaN]`. -/
theorem smap_prediction_degenerate_witness :
    ((0 : Int) ≤ 0 ∨ ([1, 2] : List Int) = [] ∨ ([0] : List Int) = []) ∧
      (∃ r, SMapPrediction tableExt demoVectors demoTarget [1, 2] [0] 0 (some 0) = .ok r ∧
        r.length = demoTarget.length ∧ ∀ x ∈ r, x = none) ∧
      SMapPrediction tableExt demoVectors demoTarget [1, 2] [0] 0 (some 0) =
        .ok [none, none, none] :=
  ⟨Or.inl (le_refl 0),
    smap_prediction_degenerate tableExt demoVectors demoTarget [1, 2] [0] 0 (some 0)
      (Or.inl (le_refl 0)),
    rfl⟩

/-- C6 (amended), evaluated on the first example. -/
theorem smap_prediction_entries_witness :
    InRange demoVectors demoTarget [1, 2] [0] 1 ∧ SVDShapedOn tableExt 1 ∧
      ∃ r, SMapPrediction tableExt demoVectors demoTarget [1, 2] [0] 2 (some 0) = .ok r ∧
        r.length = demoTarget.length :=
  ⟨demo_inRange, tableExt_shaped,
    (smap_prediction_entries tableExt demoVectors demoTarget [1, 2] [0] 2 (some 0) 1
      (by decide) (by simp) (by simp) demo_inRange tableExt_shaped).imp
      fun _ h => ⟨h.1, h.2.1⟩⟩

/-- C7, evaluated on the first example. -/
theorem smap_stored_value_witness :
    neighborSearch tableExt demoVectors [1, 2] ((0 : Nat) : Int) = .ok ([3/4, 4/3], [1, 2]) ∧
      ∃ max_s,
        max_s ∈ (tableExt.CppSVD (specDesignMatrix demoVectors
          (queryNeighbors tableExt (some 0) 2 ([3/4, 4/3], [1, 2])))).S ∧
        (∀ s ∈ (tableExt.CppSVD (specDesignMatrix demoVectors
          (queryNeighbors tableExt (some 0) 2 ([3/4, 4/3], [1, 2])))).S, dlt max_s s = false) ∧
        predictAt tableExt demoVectors demoTarget [1, 2] 2 (some 0) ((0 : Nat) : Int) =
          .ok (some (specLocalPrediction tableExt demoVectors demoTarget
            (queryNeighbors tableExt (some 0) 2 ([3/4, 4/3], [1, 2])) max_s
            (demoVectors.getD 0 []))) ∧
        ∃ r, SMapPrediction tableExt demoVectors demoTarget [1, 2] [0] 2 (some 0) = .ok r ∧
          r[0]? = some (specLocalPrediction tableExt demoVectors demoTarget
            (queryNeighbors tableExt (some 0) 2 ([3/4, 4/3], [1, 2])) max_s
            (demoVectors.getD 0 [])) :=
  ⟨demo_found,
    smap_stored_value tableExt demoVectors demoTarget [1, 2] [0] 2 (some 0) 1 0
      ([3/4, 4/3], [1, 2]) (by decide) demo_inRange tableExt_shaped (by simp) demo_found
      (by rw [demo_neighbors]; simp)⟩

/-- C8, evaluated on two lists with the elements `0` and `1`. -/
theorem smap_prediction_order_independent_witness :
    SMapPrediction tableExt demoVectors demoTarget [1, 2] [0, 1] 2 (some 0) =
      SMapPrediction tableExt demoVectors demoTarget [1, 2] [1, 0, 1] 2 (some 0) :=
  (smap_prediction_order_independent tableExt demoVectors demoTarget [1, 2] 2 (some 0)
    [0, 1] [1, 0, 1] (by intro x; simp; tauto)).1

/-- C9, evaluated on the first example: one non-missing prediction. -/
theorem smap_scores_gated_witness :
    SMapPrediction tableExt demoVectors demoTarget [1, 2] [0] 2 (some 0) =
        .ok [some 1, none, none] ∧
      SMap tableExt demoVectors demoTarget [1, 2] [0] 2 (some 0) = .ok none ∧
      SMapBehavior tableExt demoVectors demoTarget [1, 2] [0] 2 (some 0) =
        .ok [none, none, none] :=
  ⟨demo_prediction,
    (smap_scores_gated tableExt demoVectors demoTarget [1, 2] [0] 2 (some 0)
      [some 1, none, none] demo_prediction).1 (by decide) tableExt rfl rfl rfl⟩

/-- C10 as stated fails: a linear target, no missing value, `theta = 0`, four
selected neighbours for `dim + 1 = 2`, an exact SVD of the design matrix, and
the entry at the prediction index is `0` where the target is `1`. -/
theorem smap_linear_target_counterexample :
    IsLinearTarget cexVectors cexTarget 1 (fun _ => 1) 0 ∧
      (cexVectors.all fun row => row.all fun x => x.isSome) = true ∧
      neighborSearch tableExt cexVectors [1, 2, 3, 4] 0 = .ok ([1, 1, 1, 1], [1, 2, 3, 4]) ∧
      (queryNeighbors tableExt (some 0) 4 ([1, 1, 1, 1], [1, 2, 3, 4])).length = 4 ∧
      specDesignMatrix cexVectors
        (queryNeighbors tableExt (some 0) 4 ([1, 1, 1, 1], [1, 2, 3, 4])) = cexDesign ∧
      IsSVD cexDesign (tableExt.CppSVD cexDesign) 4 2 ∧
      SMapPrediction tableExt cexVectors cexTarget [1, 2, 3, 4] [0] 4 (some 0) =
        .ok [some 0, none, none, none, none] ∧
      cexTarget[0]? = some (some 1) ∧
      ([some 0, none, none, none, none] : List (Option ℚ))[0]? ≠ cexTarget[0]? :=
  ⟨cex_linear, by decide, cex_found, by rw [cex_neighbors]; rfl,
    by rw [cex_neighbors, cex_design], by rw [tableSVD_cex]; exact cex_isSVD, cex_prediction,
    rfl, by simp [cexTarget]⟩

/-- C10 (amended), evaluated on the first example: the prediction at index `0`
is the target value `1`. -/
theorem smap_recovers_linear_target_witness :
    ∃ r, SMapPrediction tableExt demoVectors demoTarget [1, 2] [0] 2 (some 0) = .ok r ∧
      r[0]? = some (demoTarget.getD 0 none) :=
  (smap_recovers_linear_target tableExt demoVectors demoTarget [1, 2] [0] 2 1 (fun _ => 2) 1 0
    ([3/4, 4/3], [1, 2]) (by simp [tableExt]) (by decide) demo_inRange tableExt_shaped
    demo_linear (by simp) demo_found (by rw [demo_neighbors]; simp)
    (by rw [demo_neighbors, demo_design, tableSVD_demo]; exact demo_isSVD)
    (by rw [demo_neighbors, demo_design, tableSVD_demo]; exact demo_threshold)).imp
    fun _ h => ⟨h.1, h.2.1⟩

/-- C13: for a query index `p` of a rectangular matrix and in-range library
indices, the neighbour search returns `valid_libs` = the entries `i` of
`lib_indices`, in library order, with `i ≠ p` that share with `p` a dimension
in which both rows are non-missing; `p` is never a candidate; and the distance
of candidate `i` is `sqrt` of the sum over the shared non-missing dimensions of
`(vectors[i][j] - vectors[p][j])²`, divided by the number of these
dimensions. -/
theorem smap_neighbor_candidates (ext : Externals α) (vectors : List (List (Option α)))
    (lib_indices : List Int) (p : Int) (dim : Nat)
    (hrect : ∀ row ∈ vectors, row.length = dim)
    (hp : 0 ≤ p ∧ p < (vectors.length : Int))
    (hlib : ∀ i ∈ lib_indices, 0 ≤ i ∧ i < (vectors.length : Int)) :
    ∃ distances valid_libs,
      neighborSearch ext vectors lib_indices p = .ok (distances, valid_libs) ∧
      valid_libs = lib_indices.filter (fun i =>
        decide (i ≠ p) && decide (sharedDimensions vectors i.toNat p.toNat ≠ [])) ∧
      (∀ i, i ∈ valid_libs ↔ i ∈ lib_indices ∧ i ≠ p ∧
        ∃ j, (entry vectors i.toNat j).isSome = true ∧
          (entry vectors p.toNat j).isSome = true) ∧
      p ∉ valid_libs ∧
      distances = valid_libs.map (fun i =>
        ext.sqrt (specSumSq vectors i.toNat p.toNat /
          ((sharedDimensions vectors i.toNat p.toNat).length : α))) ∧
      (∀ i j, j ∈ sharedDimensions vectors i p.toNat ↔
        (entry vectors i j).isSome = true ∧ (entry vectors p.toNat j).isSome = true) ∧
      (∀ i, specSumSq vectors i p.toNat =
        ((sharedDimensions vectors i p.toNat).map fun j =>
          ((entry vectors i j).getD 0 - (entry vectors p.toNat j).getD 0) *
            ((entry vectors i j).getD 0 - (entry vectors p.toNat j).getD 0)).sum) := by
  have h := neighborSearch_eq ext vectors dim lib_indices p hrect hp.1 (by omega)
    (fun i hi => ⟨(hlib i hi).1, by have := hlib i hi; omega⟩)
  refine ⟨_, _, h, rfl, ?_, ?_, rfl, ?_, fun _ => rfl⟩
  · intro i
    exact mem_specCandidates vectors lib_indices p i
  · intro hmem
    exact ((mem_specCandidates vectors lib_indices p p).mp hmem).2.1 rfl
  · intro i j
    exact mem_sharedDimensions vectors i p.toNat j

/-- C14: for a query `p` of a non-degenerate call with in-range indices (and an
SVD result of the usual shape) that has at least one candidate, the regression
of `SMapPrediction` uses exactly `k = min(num_neighbors, number of candidates)`
distinct candidates (positions of the candidate list): the value the iteration
for `p` stores is the local regression over the first `k` entries of the sorted
index vector; every candidate that is not among them is at a distance `≥` that
of each of them, and they are used in non-decreasing order of distance. -/
theorem smap_selects_nearest (ext : Externals α) (vectors : List (List (Option α)))
    (target : List (Option α)) (lib_indices pred_indices : List Int) (num_neighbors : Int)
    (theta : Option α) (dim : Nat) (p : Int)
    (hnn : 0 < num_neighbors)
    (hwf : InRange vectors target lib_indices pred_indices dim) (hsvd : SVDShapedOn ext dim)
    (hp : p ∈ pred_indices) :
    ∃ distances valid_libs,
      neighborSearch ext vectors lib_indices p = .ok (distances, valid_libs) ∧
      distances.length = valid_libs.length ∧
      (distances ≠ [] → ∃ k : Nat, ∃ selected : List Nat,
        (k : Int) = min num_neighbors (distances.length : Int) ∧
        1 ≤ k ∧
        selected = (sortedNeighborIndices distances).take k ∧
        selected.length = k ∧
        selected.Nodup ∧
        (∀ a ∈ selected, a < distances.length) ∧
        (∀ a ∈ selected, ∀ b, b < distances.length → b ∉ selected →
          distances.getD a 0 ≤ distances.getD b 0) ∧
        selected.Pairwise (fun a b => distances.getD a 0 ≤ distances.getD b 0) ∧
        ∃ max_s,
          max_s ∈ (ext.CppSVD (specDesignMatrix vectors (selected.map fun ni =>
            (valid_libs.getD ni 0, (kernelWeights ext theta distances).getD ni none)))).S ∧
          predictAt ext vectors target lib_indices num_neighbors theta p =
            .ok (some (specLocalPrediction ext vectors target
              (selected.map fun ni =>
                (valid_libs.getD ni 0, (kernelWeights ext theta distances).getD ni none))
              max_s (vectors.getD p.toNat [])))) := by
  obtain ⟨found, hfound, -, hsome⟩ :=
    predictAt_inRange ext vectors target lib_indices pred_indices num_neighbors theta dim p
      hnn hwf hsvd hp
  obtain ⟨hrect, hlib, hpred⟩ := hwf
  have hpr := hpred p hp
  obtain ⟨found', hfound', hlen, -⟩ := neighborSearch_ok ext vectors dim lib_indices p hrect
    hpr.1 (by omega) (fun i hi => ⟨(hlib i hi).1, by have := hlib i hi; omega⟩)
  rw [hfound] at hfound'
  cases hfound'
  refine ⟨found.1, found.2, hfound, hlen, ?_⟩
  intro hne
  have hpos : 0 < found.1.length := List.length_pos.mpr hne
  have hsl := sortedNeighborIndices_length found.1
  obtain ⟨max_s, hmax, -, hval⟩ := hsome hne
  refine ⟨min num_neighbors.toNat found.1.length, _, ?_, by omega, rfl, ?_, ?_, ?_, ?_, ?_,
    max_s, hmax, hval⟩
  · have h1 : ((num_neighbors.toNat : Nat) : Int) = num_neighbors :=
      Int.toNat_of_nonneg (le_of_lt hnn)
    rcases le_total num_neighbors.toNat found.1.length with h | h
    · rw [min_eq_left h, h1, min_eq_left (by omega)]
    · rw [min_eq_right h, min_eq_right (by omega)]
  · rw [List.length_take, hsl]
    omega
  · exact (sortedNeighborIndices_nodup found.1).sublist (List.take_sublist _ _)
  · intro a ha
    exact sortedNeighborIndices_lt _ a (List.mem_of_mem_take ha)
  · intro a ha b hb hnb
    exact closer_le _ (take_closer_drop found.1 _ a b ha hb hnb)
  · exact ((sortedNeighborIndices_pairwise found.1).imp (closer_le found.1)).sublist
      (List.take_sublist _ _)

/-- C15 as stated fails: with `lib_indices = [2, 1]` the rows `2` and `1` are
both at distance `1` from the query row `0`; the candidate ranked first, and
the only one selected for `num_neighbors = 1`, is row `2`, the larger row
index. -/
theorem smap_tie_break_counterexample :
    neighborSearch tableExt tieVectors [2, 1] 0 = .ok ([1, 1], [2, 1]) ∧
      sortedNeighborIndices ([1, 1] : List ℚ) = [0, 1] ∧
      queryNeighbors tableExt (some 0) 1 ([1, 1], [2, 1]) = [(2, some 1)] :=
  ⟨tie_found, tie_sorted, tie_neighbors⟩

/-- C15 (amended): the candidates are listed in library order, and of two
candidates at equal distance the one at the earlier position of the candidate
list is ranked first and is selected whenever the other one is; when
`lib_indices` is in ascending order this is the one with the smaller row
index. -/
theorem smap_ties_by_candidate_position (ext : Externals α)
    (vectors : List (List (Option α))) (lib_indices : List Int) (p : Int) (dim : Nat)
    (hrect : ∀ row ∈ vectors, row.length = dim)
    (hp : 0 ≤ p ∧ p < (vectors.length : Int))
    (hlib : ∀ i ∈ lib_indices, 0 ≤ i ∧ i < (vectors.length : Int)) :
    ∃ distances valid_libs,
      neighborSearch ext vectors lib_indices p = .ok (distances, valid_libs) ∧
      valid_libs.Sublist lib_indices ∧
      (∀ a b, a < b → b < distances.length → distances.getD a 0 = distances.getD b 0 →
        (sortedNeighborIndices distances).indexOf a <
            (sortedNeighborIndices distances).indexOf b ∧
          ∀ k, b ∈ (sortedNeighborIndices distances).take k →
            a ∈ (sortedNeighborIndices distances).take k) ∧
      (lib_indices.Pairwise (fun i j => i ≤ j) →
        ∀ a b, a < distances.length → b < distances.length →
          distances.getD a 0 = distances.getD b 0 →
          valid_libs.getD a 0 < valid_libs.getD b 0 →
          (sortedNeighborIndices distances).indexOf a <
              (sortedNeighborIndices distances).indexOf b ∧
            ∀ k, b ∈ (sortedNeighborIndices distances).take k →
              a ∈ (sortedNeighborIndices distances).take k) := by
  have h := neighborSearch_eq ext vectors dim lib_indices p hrect hp.1 (by omega)
    (fun i hi => ⟨(hlib i hi).1, by have := hlib i hi; omega⟩)
  have hsub : (specCandidates vectors lib_indices p).Sublist lib_indices :=
    List.filter_sublist _
  refine ⟨_, _, h, hsub, ?_, ?_⟩
  · intro a b hab hb heq
    exact closer_ranked_first _ a b (by omega) hb (Or.inr ⟨heq, hab⟩)
  · intro hasc a b ha hb heq hrow
    have hlen : ((specCandidates vectors lib_indices p).map
        (fun i => specDistance ext vectors i.toNat p.toNat)).length =
        (specCandidates vectors lib_indices p).length := List.length_map _ _
    have ha2 : a < (specCandidates vectors lib_indices p).length := by omega
    have hb2 : b < (specCandidates vectors lib_indices p).length := by omega
    have hpw := hasc.sublist hsub
    have hab : a < b := by
      by_contra hnot
      rw [List.getD_eq_getElem?_getD, List.getD_eq_getElem?_getD,
        List.getElem?_eq_getElem ha2, List.getElem?_eq_getElem hb2, Option.getD_some,
        Option.getD_some] at hrow
      rcases Nat.lt_or_ge b a with hlt | hge
      · have := (List.pairwise_iff_getElem.mp hpw) b a hb2 ha2 hlt
        omega
      · have hba : a = b := by omega
        subst hba
        omega
    exact closer_ranked_first _ a b ha hb (Or.inr ⟨heq, hab⟩)

/-- C16 as stated fails: with `theta = 0` and a single candidate that coincides
with the query row, the distance and the mean distance are `0`, and the weight
is `exp(-0 * 0 / 0)`, which is NaN and not `1`. -/
theorem smap_zero_mean_weight_counterexample :
    neighborSearch tableExt dupVectors [1] 0 = .ok ([0], [1]) ∧
      meanDistance ([0] : List ℚ) = 0 ∧
      kernelWeights tableExt (some 0) ([0] : List ℚ) = [none] ∧
      queryNeighbors tableExt (some 0) 1 ([0], [1]) = [(1, none)] :=
  ⟨dup_found, dup_meanDistance, dup_weights, dup_neighbors⟩

/-- C16 (amended): for a query of a rectangular matrix with in-range library
indices, the weight of candidate `i` is `exp(-theta * d_i / mean_distance)` in
NaN-propagating arithmetic, `mean_distance` being the arithmetic mean of the
distances of all candidates, and the weights of the selected neighbours are
entries of this vector.  The distances of the model are numbers (finite): when
`mean_distance ≠ 0` the quotient is a quotient of numbers, and with `theta = 0`
every weight is then `exp(0) = 1`, also when every operation is rounded (`fl`
with `fl 0 = 0`); when `mean_distance = 0` every weight is NaN. -/
theorem smap_kernel_weights (ext : Externals α) (vectors : List (List (Option α)))
    (lib_indices : List Int) (p : Int) (dim : Nat) (theta : Option α)
    (hrect : ∀ row ∈ vectors, row.length = dim)
    (hp : 0 ≤ p ∧ p < (vectors.length : Int))
    (hlib : ∀ i ∈ lib_indices, 0 ≤ i ∧ i < (vectors.length : Int)) :
    ∃ distances valid_libs,
      neighborSearch ext vectors lib_indices p = .ok (distances, valid_libs) ∧
      meanDistance distances = distances.sum / (distances.length : α) ∧
      kernelWeights ext theta distances = distances.map (fun d =>
        (ddiv (dmul (dneg theta) (some d)) (some (meanDistance distances))).map ext.exp) ∧
      (∀ num_neighbors, ∀ nw ∈ queryNeighbors ext theta num_neighbors (distances, valid_libs),
        ∃ ni, ni < distances.length ∧
          nw = (valid_libs.getD ni 0, (kernelWeights ext theta distances).getD ni none)) ∧
      (meanDistance distances ≠ 0 → ∀ t,
        kernelWeights ext (some t) distances =
          distances.map fun d => some (ext.exp (-t * d / meanDistance distances))) ∧
      (meanDistance distances ≠ 0 → ext.exp 0 = 1 →
        kernelWeights ext (some 0) distances = distances.map fun _ => some 1) ∧
      (meanDistance distances = 0 → ∀ w ∈ kernelWeights ext theta distances, w = none) ∧
      (∀ (fl : α → α) (ds : List α), fl 0 = 0 → meanDistanceFl fl ds ≠ 0 → ext.exp 0 = 1 →
        kernelWeightsFl fl ext (some 0) ds = ds.map fun _ => some 1) := by
  have h := neighborSearch_eq ext vectors dim lib_indices p hrect hp.1 (by omega)
    (fun i hi => ⟨(hlib i hi).1, by have := hlib i hi; omega⟩)
  refine ⟨_, _, h, meanDistance_eq_sum _, rfl, ?_, ?_, ?_, ?_, ?_⟩
  · intro nn nw hnw
    unfold queryNeighbors selectedNeighbors at hnw
    obtain ⟨ni, hni, rfl⟩ := List.mem_map.mp hnw
    exact ⟨ni, sortedNeighborIndices_lt _ ni (List.mem_of_mem_take hni), rfl⟩
  · intro h0 t
    exact kernelWeights_of_mean_ne_zero ext t _ h0
  · intro h0 hexp
    rw [kernelWeights_of_mean_ne_zero ext 0 _ h0]
    apply List.map_congr_left
    intro d _
    simp [hexp]
  · exact kernelWeights_of_mean_zero ext theta _
  · intro fl ds hfl0 hne hexp
    rw [kernelWeightsFl_of_mean_ne_zero fl ext 0 ds hne]
    apply List.map_congr_left
    intro d _
    simp [hfl0, hexp]

/-- C20 as stated fails: in `tinyVectors` the candidate row `1` differs from the
query row `0` in the shared dimension `0` (by `2^-600`), yet the squared
difference underflows to `0`, the distance and `mean_distance` are `0`, and the
weight is the quotient `0/0`, NaN, for every `theta`.  (The rounding `flushFl`
is monotone, fixes `0`, and agrees with the rounding of `double` on every
operation of this run.) -/
theorem smap_underflow_counterexample :
    flushFl 0 = 0 ∧ Monotone flushFl ∧ SqrtNonneg rootExt ∧
      (entry tinyVectors 1 0 = some tiny ∧ entry tinyVectors 0 0 = some 0 ∧ tiny ≠ 0) ∧
      neighborSearchFl flushFl rootExt tinyVectors [1] 0 = .ok ([0], [1]) ∧
      meanDistanceFl flushFl ([0] : List ℚ) = 0 ∧
      ∀ theta : Option ℚ, kernelWeightsFl flushFl rootExt theta ([0] : List ℚ) = [none] :=
  ⟨flushFl_zero, flushFl_mono, rootExt_sqrt, ⟨rfl, rfl, tiny_ne_zero⟩, tiny_found,
    tiny_meanDistance, tiny_weights⟩

/-- C20 (amended): in rounded arithmetic (`fl` monotone with `fl 0 = 0`, a
square root that is non-negative and zero at zero only), for a query of a
rectangular matrix with in-range library indices: every candidate distance and
`mean_distance` are `≥ 0`; when every candidate is at distance `0`,
`mean_distance` is `0`, and conversely (a non-zero distance gives
`mean_distance > 0`) when no quotient of a non-zero distance by the number of
candidates underflows; when `mean_distance ≠ 0` it is positive and the
quotient in the weight is a quotient by a non-zero number; when
`mean_distance = 0` the division is still performed and every weight is NaN. -/
theorem smap_mean_distance_guard (fl : α → α) (ext : Externals α)
    (vectors : List (List (Option α)))
    (lib_indices : List Int) (p : Int) (dim : Nat) (theta : Option α)
    (hfl0 : fl 0 = 0) (hmono : Monotone fl) (hsqrt : SqrtNonneg ext)
    (hrect : ∀ row ∈ vectors, row.length = dim)
    (hp : 0 ≤ p ∧ p < (vectors.length : Int))
    (hlib : ∀ i ∈ lib_indices, 0 ≤ i ∧ i < (vectors.length : Int)) :
    ∃ distances valid_libs,
      neighborSearchFl fl ext vectors lib_indices p = .ok (distances, valid_libs) ∧
      (∀ d ∈ distances, 0 ≤ d) ∧
      0 ≤ meanDistanceFl fl distances ∧
      ((∀ d ∈ distances, d = 0) → meanDistanceFl fl distances = 0) ∧
      ((∀ x, fl (fl x) = fl x) → (∀ x, fl (ext.sqrt x) = ext.sqrt x) →
        (∀ d ∈ distances, 0 < d → 0 < fl (d / (distances.length : α))) →
        (meanDistanceFl fl distances = 0 ↔ ∀ d ∈ distances, d = 0) ∧
          ((∃ d ∈ distances, d ≠ 0) → 0 < meanDistanceFl fl distances)) ∧
      (meanDistanceFl fl distances ≠ 0 →
        0 < meanDistanceFl fl distances ∧
          ∀ t, kernelWeightsFl fl ext (some t) distances =
            distances.map fun d =>
              some (ext.exp (fl (fl (-t * d) / meanDistanceFl fl distances)))) ∧
      kernelWeightsFl fl ext theta distances = distances.map (fun d =>
        ((ddiv ((dmul (dneg theta) (some d)).map fl)
          (some (meanDistanceFl fl distances))).map fl).map ext.exp) ∧
      (meanDistanceFl fl distances = 0 →
        ∀ w ∈ kernelWeightsFl fl ext theta distances, w = none) := by
  obtain ⟨c, hc, -, -, hnn, hroot⟩ := neighborSearchFl_ok fl hfl0 hmono ext hsqrt vectors dim
    lib_indices p hrect hp.1 (by omega)
    (fun i hi => ⟨(hlib i hi).1, by have := hlib i hi; omega⟩)
  have hmean := meanDistanceFl_nonneg fl hfl0 hmono c.1 hnn
  refine ⟨c.1, c.2, hc, hnn, hmean, meanDistanceFl_of_zero fl hfl0 c.1, ?_, ?_, rfl,
    kernelWeightsFl_of_mean_zero fl ext theta c.1⟩
  · intro hidem hrep hquot
    have hpos : (∃ d ∈ c.1, d ≠ 0) → 0 < meanDistanceFl fl c.1 := fun hx =>
      meanDistanceFl_pos fl hfl0 hmono hidem c.1 hnn
        (fun x hx => by
          obtain ⟨y, rfl⟩ := hroot x hx
          exact hrep y) hquot hx
    refine ⟨⟨?_, meanDistanceFl_of_zero fl hfl0 c.1⟩, hpos⟩
    intro h0 d hd
    by_contra hd0
    have hlt := hpos ⟨d, hd, hd0⟩
    rw [h0] at hlt
    exact lt_irrefl _ hlt
  · intro hne
    exact ⟨lt_of_le_of_ne hmean (Ne.symm hne),
      fun t => kernelWeightsFl_of_mean_ne_zero fl ext t c.1 hne⟩

/-- C13, evaluated on the first example with the query `0` in the library. -/
theorem smap_neighbor_candidates_witness :
    ((∀ row ∈ demoVectors, row.length = 1) ∧
        (0 ≤ (0 : Int) ∧ (0 : Int) < (demoVectors.length : Int)) ∧
        ∀ i ∈ ([0, 1, 2] : List Int), 0 ≤ i ∧ i < (demoVectors.length : Int)) ∧
      ∃ distances valid_libs,
        neighborSearch tableExt demoVectors [0, 1, 2] 0 = .ok (distances, valid_libs) ∧
        (0 : Int) ∉ valid_libs :=
  ⟨demo_search_inRange,
    (smap_neighbor_candidates tableExt demoVectors [0, 1, 2] 0 1 demo_search_inRange.1
      demo_search_inRange.2.1 demo_search_inRange.2.2).imp
      fun _ h => h.imp fun _ h => ⟨h.1, h.2.2.2.1⟩⟩

/-- C14, evaluated on the first example with `num_neighbors = 1`. -/
theorem smap_selects_nearest_witness :
    (0 : Int) < 1 ∧ InRange demoVectors demoTarget [1, 2] [0] 1 ∧ SVDShapedOn tableExt 1 ∧
      (0 : Int) ∈ ([0] : List Int) ∧
      ∃ distances valid_libs,
        neighborSearch tableExt demoVectors [1, 2] 0 = .ok (distances, valid_libs) ∧
        distances.length = valid_libs.length :=
  ⟨by decide, demo_inRange, tableExt_shaped, by simp,
    (smap_selects_nearest tableExt demoVectors demoTarget [1, 2] [0] 1 (some 0) 1 0
      (by decide) demo_inRange tableExt_shaped (by simp)).imp
      fun _ h => h.imp fun _ h => ⟨h.1, h.2.1⟩⟩

/-- C15 (amended), evaluated on the tie example with the library in ascending
order. -/
theorem smap_ties_by_candidate_position_witness :
    ((∀ row ∈ tieVectors, row.length = 1) ∧
        (0 ≤ (0 : Int) ∧ (0 : Int) < (tieVectors.length : Int)) ∧
        ∀ i ∈ ([1, 2] : List Int), 0 ≤ i ∧ i < (tieVectors.length : Int)) ∧
      ∃ distances valid_libs,
        neighborSearch tableExt tieVectors [1, 2] 0 = .ok (distances, valid_libs) ∧
        valid_libs.Sublist [1, 2] :=
  ⟨tie_search_inRange,
    (smap_ties_by_candidate_position tableExt tieVectors [1, 2] 0 1 tie_search_inRange.1
      tie_search_inRange.2.1 tie_search_inRange.2.2).imp
      fun _ h => h.imp fun _ h => ⟨h.1, h.2.1⟩⟩

/-- C16 (amended), evaluated on the first example with the query `0` in the
library. -/
theorem smap_kernel_weights_witness :
    ((∀ row ∈ demoVectors, row.length = 1) ∧
        (0 ≤ (0 : Int) ∧ (0 : Int) < (demoVectors.length : Int)) ∧
        ∀ i ∈ ([0, 1, 2] : List Int), 0 ≤ i ∧ i < (demoVectors.length : Int)) ∧
      ∃ distances valid_libs,
        neighborSearch tableExt demoVectors [0, 1, 2] 0 = .ok (distances, valid_libs) ∧
        meanDistance distances = distances.sum / (distances.length : ℚ) :=
  ⟨demo_search_inRange,
    (smap_kernel_weights tableExt demoVectors [0, 1, 2] 0 1 (some 0) demo_search_inRange.1
      demo_search_inRange.2.1 demo_search_inRange.2.2).imp
      fun _ h => h.imp fun _ h => ⟨h.1, h.2.1⟩⟩

/-- C20 (amended), evaluated on the first example with the rounding `flushFl`
and a square root that satisfies `SqrtNonneg`. -/
theorem smap_mean_distance_guard_witness :
    flushFl 0 = 0 ∧ Monotone flushFl ∧ SqrtNonneg rootExt ∧
      ((∀ row ∈ demoVectors, row.length = 1) ∧
        (0 ≤ (0 : Int) ∧ (0 : Int) < (demoVectors.length : Int)) ∧
        ∀ i ∈ ([0, 1, 2] : List Int), 0 ≤ i ∧ i < (demoVectors.length : Int)) ∧
      ∃ distances valid_libs,
        neighborSearchFl flushFl rootExt demoVectors [0, 1, 2] 0 =
          .ok (distances, valid_libs) ∧
        ∀ d ∈ distances, 0 ≤ d :=
  ⟨flushFl_zero, flushFl_mono, rootExt_sqrt, demo_search_inRange,
    (smap_mean_distance_guard flushFl rootExt demoVectors [0, 1, 2] 0 1 (some 0)
      flushFl_zero flushFl_mono rootExt_sqrt
      demo_search_inRange.1 demo_search_inRange.2.1 demo_search_inRange.2.2).imp
      fun _ h => h.imp fun _ h => ⟨h.1, h.2.1⟩⟩

/-- C17: for two target vectors of equal length that differ at most at
position `p`, with all other arguments equal, the iteration of
`SMapPrediction` for the query `p` gives the same outcome (it reads the target
at candidate rows only, and `p` is never a candidate, even when `p` is in
`lib_indices`); if the call for one target returns, so does the call for the
other, and the two vectors have the same entry at position `p`; and for
in-range indices and an SVD of the usual shape both calls return. -/
theorem smap_no_leakage (ext : Externals α) (vectors : List (List (Option α)))
    (target1 target2 : List (Option α)) (lib_indices pred_indices : List Int)
    (num_neighbors : Int) (theta : Option α) (p : Nat)
    (hlen : target1.length = target2.length)
    (hagree : ∀ i : Nat, i ≠ p → target1[i]? = target2[i]?) :
    predictAt ext vectors target1 lib_indices num_neighbors theta (p : Int) =
        predictAt ext vectors target2 lib_indices num_neighbors theta (p : Int) ∧
      (∀ found, neighborSearch ext vectors lib_indices (p : Int) = .ok found →
        (p : Int) ∉ found.2) ∧
      (∀ r1,
        SMapPrediction ext vectors target1 lib_indices pred_indices num_neighbors theta =
          .ok r1 →
        ∃ r2,
          SMapPrediction ext vectors target2 lib_indices pred_indices num_neighbors theta =
            .ok r2 ∧
          r1[p]? = r2[p]?) ∧
      (∀ r2,
        SMapPrediction ext vectors target2 lib_indices pred_indices num_neighbors theta =
          .ok r2 →
        ∃ r1,
          SMapPrediction ext vectors target1 lib_indices pred_indices num_neighbors theta =
            .ok r1 ∧
          r1[p]? = r2[p]?) ∧
      (∀ dim, InRange vectors target1 lib_indices pred_indices dim → SVDShapedOn ext dim →
        ∃ r1 r2,
          SMapPrediction ext vectors target1 lib_indices pred_indices num_neighbors theta =
            .ok r1 ∧
          SMapPrediction ext vectors target2 lib_indices pred_indices num_neighbors theta =
            .ok r2 ∧
          r1[p]? = r2[p]?) := by
  refine ⟨predictAt_congr_target ext vectors target1 target2 lib_indices num_neighbors theta p
    hagree, ?_, ?_, ?_, ?_⟩
  · intro found hfound hmem
    exact neighborSearch_not_self ext vectors lib_indices (p : Int) found hfound _ hmem rfl
  · intro r1 h1
    obtain ⟨r2, h2⟩ := SMapPrediction_returns_congr ext vectors target1 target2 lib_indices
      pred_indices num_neighbors theta hlen r1 h1
    exact ⟨r2, h2, SMapPrediction_entry_congr ext vectors target1 target2 lib_indices
      pred_indices num_neighbors theta p hlen hagree r1 r2 h1 h2⟩
  · intro r2 h2
    obtain ⟨r1, h1⟩ := SMapPrediction_returns_congr ext vectors target2 target1 lib_indices
      pred_indices num_neighbors theta hlen.symm r2 h2
    exact ⟨r1, h1, SMapPrediction_entry_congr ext vectors target1 target2 lib_indices
      pred_indices num_neighbors theta p hlen hagree r1 r2 h1 h2⟩
  · intro dim hwf hsvd
    obtain ⟨r1, h1, -⟩ := SMapPrediction_returns ext vectors target1 lib_indices pred_indices
      num_neighbors theta dim hwf hsvd
    obtain ⟨r2, h2⟩ := SMapPrediction_returns_congr ext vectors target1 target2 lib_indices
      pred_indices num_neighbors theta hlen r1 h1
    exact ⟨r1, r2, h1, h2, SMapPrediction_entry_congr ext vectors target1 target2 lib_indices
      pred_indices num_neighbors theta p hlen hagree r1 r2 h1 h2⟩

/-- C19: when every row of `vectors` has `dim` entries, `len(target)` is the
number of rows and every entry of `lib_indices` and `pred_indices` lies in
`[0, len(target))`, then for every `num_neighbors` and `theta` and every query
`p` the neighbour search, the read of `vectors[p]`, the construction of the
system (reads of `vectors`, `target`, `valid_libs`, `weights` and
`neighbor_indices`), the dot product with `vectors[p]` and the write of
`pred[p]` are within bounds, the sorted indices are indices of `distances`;
with an SVD result of the usual shape the whole call returns a vector of
length `len(target)`. -/
theorem smap_index_safety (ext : Externals α) (vectors : List (List (Option α)))
    (target : List (Option α)) (lib_indices pred_indices : List Int) (num_neighbors : Int)
    (theta : Option α) (dim : Nat)
    (hrect : ∀ row ∈ vectors, row.length = dim)
    (hlen : target.length = vectors.length)
    (hlib : ∀ i ∈ lib_indices, 0 ≤ i ∧ i < (target.length : Int))
    (hpred : ∀ p ∈ pred_indices, 0 ≤ p ∧ p < (target.length : Int)) :
    (∀ p ∈ pred_indices, ∃ distances valid_libs,
        neighborSearch ext vectors lib_indices p = .ok (distances, valid_libs) ∧
        (∃ rowP, readInt vectors p = .ok rowP ∧ rowP.length = dim) ∧
        (∀ ni ∈ sortedNeighborIndices distances,
          ni < distances.length ∧ ni < valid_libs.length ∧
            ni < (kernelWeights ext theta distances).length) ∧
        (∃ sys, buildSystem vectors target valid_libs (kernelWeights ext theta distances)
          (sortedNeighborIndices distances) (min num_neighbors.toNat distances.length) dim =
            .ok sys) ∧
        (∀ coeff : List (Option α), coeff.length = dim + 1 →
          ∃ v, predictionValue coeff vectors p dim = .ok v) ∧
        (∀ (pred : List (Option α)) (v : Option α), pred.length = target.length →
          ∃ r, writeInt pred p v = .ok r)) ∧
      (SVDShapedOn ext dim →
        ∃ r, SMapPrediction ext vectors target lib_indices pred_indices num_neighbors theta =
          .ok r ∧ r.length = target.length) := by
  have hwf : InRange vectors target lib_indices pred_indices dim := by
    refine ⟨hrect, ?_, ?_⟩
    · intro i hi
      have := hlib i hi
      omega
    · intro q hq
      have := hpred q hq
      omega
  refine ⟨?_, fun hsvd => SMapPrediction_returns ext vectors target lib_indices pred_indices
    num_neighbors theta dim hwf hsvd⟩
  intro p hp
  have hpr := hpred p hp
  have hpv : p.toNat < vectors.length := by omega
  obtain ⟨found, hfound, hflen, hmem⟩ := neighborSearch_ok ext vectors dim lib_indices p hrect
    hpr.1 hpv (fun i hi => ⟨(hlib i hi).1, by have := hlib i hi; omega⟩)
  have hsl := sortedNeighborIndices_length found.1
  refine ⟨found.1, found.2, hfound, ⟨_, readInt_ok vectors p hpr.1 hpv,
    hrect _ (List.getElem_mem hpv)⟩, ?_, ⟨_, buildSystem_ok vectors target found.2
      (kernelWeights ext theta found.1) (sortedNeighborIndices found.1)
      (min num_neighbors.toNat found.1.length) dim hrect (by rw [hsl]; omega)
      (fun ni hni => by
        have := sortedNeighborIndices_lt _ ni hni
        rw [kernelWeights_length]
        omega)
      (fun i hi => by
        have := hlib i (hmem i hi).1
        omega)⟩, ?_, ?_⟩
  · intro ni hni
    have := sortedNeighborIndices_lt _ ni hni
    rw [kernelWeights_length]
    omega
  · intro coeff hc
    exact ⟨_, predictionValue_ok coeff vectors p dim (fun i => coeff.getD i none) hpr.1 hpv
      (hrect _ (List.getElem_mem hpv)) hc (fun i hi => by
        beta_reduce
        rw [List.getD_eq_getElem?_getD, List.getElem?_eq_getElem (by omega), Option.getD_some])⟩
  · intro pred v hpl
    exact ⟨_, writeInt_ok pred p v hpr.1 (by omega)⟩

/-- C17, evaluated on the first example and a target that differs at the
query position `0`. -/
theorem smap_no_leakage_witness :
    demoTarget.length = ([some 7, some (5/2), some (-5/3)] : List (Option ℚ)).length ∧
      (∀ i : Nat, i ≠ 0 →
        demoTarget[i]? = ([some 7, some (5/2), some (-5/3)] : List (Option ℚ))[i]?) ∧
      predictAt tableExt demoVectors demoTarget [0, 1, 2] 2 (some 0) ((0 : Nat) : Int) =
        predictAt tableExt demoVectors [some 7, some (5/2), some (-5/3)] [0, 1, 2] 2 (some 0)
          ((0 : Nat) : Int) :=
  ⟨rfl, fun i hi => by
      cases i with
      | zero => exact absurd rfl hi
      | succ n => rfl,
    (smap_no_leakage tableExt demoVectors demoTarget [some 7, some (5/2), some (-5/3)]
      [0, 1, 2] [0] 2 (some 0) 0 rfl (fun i hi => by
        cases i with
        | zero => exact absurd rfl hi
        | succ n => rfl)).1⟩

/-- C19, evaluated on the first example. -/
theorem smap_index_safety_witness :
    (∀ row ∈ demoVectors, row.length = 1) ∧ demoTarget.length = demoVectors.length ∧
      (∀ i ∈ ([1, 2] : List Int), 0 ≤ i ∧ i < (demoTarget.length : Int)) ∧
      (∀ p ∈ ([0] : List Int), 0 ≤ p ∧ p < (demoTarget.length : Int)) ∧
      (SVDShapedOn tableExt 1 →
        ∃ r, SMapPrediction tableExt demoVectors demoTarget [1, 2] [0] 2 (some 0) = .ok r ∧
          r.length = demoTarget.length) :=
  ⟨demo_inRange.1, rfl, fun i hi => ⟨(demo_inRange.2.1 i hi).1, (demo_inRange.2.1 i hi).2.2⟩,
    fun p hp => ⟨(demo_inRange.2.2 p hp).1, (demo_inRange.2.2 p hp).2.2⟩,
    (smap_index_safety tableExt demoVectors demoTarget [1, 2] [0] 2 (some 0) 1 demo_inRange.1
      rfl (fun i hi => ⟨(demo_inRange.2.1 i hi).1, (demo_inRange.2.1 i hi).2.2⟩)
      (fun p hp => ⟨(demo_inRange.2.2 p hp).1, (demo_inRange.2.2 p hp).2.2⟩)).2⟩

end SMapClaims

end TEDM
